import Mathlib

/-! # Sorting visualizer: the step-driven algorithm engine

A shallow embedding of `src/sorting-visualizer-cpp.cpp` (class `SortingVisualizer`).

Modelling decisions, all read off the source:

* `size_t` values are natural numbers below `2 ^ 64`; `size_t` subtraction and addition wrap
  modulo `2 ^ 64` (`usub`, `uadd`).  `static_cast<int>` of a `size_t` is `toInt`, and an `int`
  used where a `size_t` is expected (an index) is converted by `toSize`.
* The `int` counters `comparisons` and `swaps` are 32-bit: `comparisons++` and `swaps++` are
  `incInt`, which wraps from `INT_MAX` to `INT_MIN` as the compiled program does.  The other
  `int` fields (`sortingSpeed`, the quick sort cursors) are integers; their arithmetic stays
  far inside the `int` range for the values a run gives them.
* `std::vector<int> data` is a `List Int`; `std::vector<sf::RectangleShape> bars` is the list
  of fill colours of the bars.  Bar geometry (size and position), the window, the font, the
  text objects and the clock are presentation only and are left out.
* Reading or writing `data[i]` or `bars[i]` with `i` out of range is undefined behaviour; the
  step functions return `none` there.
* `log` is a ghost field: the four drawing and mutation primitives append the call they
  represent.  No code reads it; it only lets the theorems count calls.
* `handleInput` takes the state of the keyboard (`isKeyPressed`) and the random source that
  `initializeData` draws its 100 values from as parameters.
-/

namespace SortingVisualizer

/-- The enumeration `Algorithm` of the class. -/
inductive Algorithm where
  | BUBBLE_SORT
  | QUICK_SORT
  | MERGE_SORT
  | SELECTION_SORT
  | NONE
  deriving DecidableEq, Repr

/-- The four fill colours a bar can have (the members `defaultColor`, `compareColor`,
`swapColor`, `sortedColor`). -/
inductive Color where
  | defaultColor
  | compareColor
  | swapColor
  | sortedColor
  deriving DecidableEq, Repr

/-- Ghost record of one call of a primitive. -/
inductive Call where
  | highlightCompare (i j : Nat)
  | highlightSwap (i j : Nat)
  | highlightSorted (i : Nat)
  | swapElements (i j : Nat)
  deriving DecidableEq, Repr

/-- The member `quickSortState`; the back of the `stack` vector is the last list element. -/
structure QuickSortState where
  low : Int
  high : Int
  partitioning : Bool
  pivot : Int
  i : Int
  j : Int
  stack : List (Int × Int)
  deriving DecidableEq, Repr

/-- The member `mergeSortState` (fields in declaration order). -/
structure MergeSortState where
  left : Int
  right : Int
  mid : Int
  merging : Bool
  temp : List Int
  i : Int
  j : Int
  k : Int
  deriving DecidableEq, Repr

/-- The state of a `SortingVisualizer` object that the engine reads or writes. -/
structure Visualizer where
  data : List Int
  bars : List Color
  currentAlgorithm : Algorithm
  isSorting : Bool
  isPaused : Bool
  sortingSpeed : Int
  comparisons : Int
  swaps : Int
  bubbleI : Nat
  bubbleJ : Nat
  quickSortState : QuickSortState
  mergeSortState : MergeSortState
  selectionI : Nat
  selectionJ : Nat
  selectionMin : Nat
  log : List Call
  deriving DecidableEq, Repr

/-- Number of values of `size_t`: `2 ^ 64`. -/
def SIZE_MOD : Nat := 18446744073709551616

/-- Subtraction of two `size_t` values. -/
def usub (a b : Nat) : Nat := (a % SIZE_MOD + (SIZE_MOD - b % SIZE_MOD)) % SIZE_MOD

/-- Addition of two `size_t` values. -/
def uadd (a b : Nat) : Nat := (a + b) % SIZE_MOD

/-- Conversion `static_cast<int>(x)` of a `size_t` to a 32-bit `int`. -/
def toInt (x : Nat) : Int :=
  if x % 4294967296 < 2147483648 then ((x % 4294967296 : Nat) : Int)
  else ((x % 4294967296 : Nat) : Int) - 4294967296

/-- Conversion of an `int` to `size_t`, as happens when an `int` is passed as an index. -/
def toSize (x : Int) : Nat := (x % (SIZE_MOD : Int)).toNat

/-- The 32-bit `int` that holds the integer `x` after wrap-around: the value in
`-2 ^ 31 .. 2 ^ 31 - 1` congruent to `x` modulo `2 ^ 32`. -/
def wrapInt (x : Int) : Int := (x + 2147483648) % 4294967296 - 2147483648

/-- The statement `x++` on an `int` counter (`comparisons++`, `swaps++`): at `INT_MAX` the
counter wraps to `INT_MIN`. -/
def incInt (x : Int) : Int := wrapInt (x + 1)

/-- The body of `resetColors`: every bar gets `defaultColor`. -/
def resetColors (s : Visualizer) : Visualizer :=
  { s with bars := s.bars.map (fun _ => Color.defaultColor) }

/-- The statement `if (i < bars.size()) bars[i].setFillColor(c);`. -/
def setFillColor (i : Nat) (c : Color) (s : Visualizer) : Visualizer :=
  { s with bars := if i < s.bars.length then s.bars.set i c else s.bars }

/-- The method `highlightCompare`. -/
def highlightCompare (i j : Nat) (s : Visualizer) : Visualizer :=
  let s0 := { s with log := s.log ++ [Call.highlightCompare i j] }
  setFillColor j Color.compareColor (setFillColor i Color.compareColor (resetColors s0))

/-- The method `highlightSwap`. -/
def highlightSwap (i j : Nat) (s : Visualizer) : Visualizer :=
  let s0 := { s with log := s.log ++ [Call.highlightSwap i j] }
  setFillColor j Color.swapColor (setFillColor i Color.swapColor (resetColors s0))

/-- The method `highlightSorted`. -/
def highlightSorted (i : Nat) (s : Visualizer) : Visualizer :=
  let s0 := { s with log := s.log ++ [Call.highlightSorted i] }
  setFillColor i Color.sortedColor s0

/-- The call `std::swap(data[i], data[j])` on the vector `d`. -/
def swapAt (d : List Int) (i j : Nat) : List Int :=
  (d.set i (d.getD j 0)).set j (d.getD i 0)

/-- The method `swapElements`: exchanges `data[i]` and `data[j]` (and the heights of the two
bars, which are not modelled) and increments `swaps`.  An index outside `data` or `bars` is
undefined behaviour. -/
def swapElements (i j : Nat) (s : Visualizer) : Option Visualizer :=
  if i < s.data.length ∧ j < s.data.length ∧ i < s.bars.length ∧ j < s.bars.length then
    some { s with
      data := swapAt s.data i j
      swaps := incInt s.swaps
      log := s.log ++ [Call.swapElements i j] }
  else none

/-- The method `resetAlgorithmStates`. -/
def resetAlgorithmStates (s : Visualizer) : Visualizer :=
  { s with
    bubbleI := 0
    bubbleJ := 0
    quickSortState :=
      { low := 0, high := toInt (usub s.data.length 1), partitioning := false,
        pivot := 0, i := 0, j := 0, stack := [] ++ [(0, toInt (usub s.data.length 1))] }
    mergeSortState :=
      { left := 0, right := toInt (usub s.data.length 1), mid := 0, merging := false,
        temp := [], i := 0, j := 0, k := 0 }
    selectionI := 0
    selectionJ := 0
    selectionMin := 0 }

/-- The method `stepBubbleSort`; the Boolean is the returned value. -/
def stepBubbleSort (s : Visualizer) : Option (Visualizer × Bool) :=
  if s.bubbleI < usub s.data.length 1 then
    if s.bubbleJ < usub (usub s.data.length s.bubbleI) 1 then
      let s1 := highlightCompare s.bubbleJ (uadd s.bubbleJ 1) s
      let s2 := { s1 with comparisons := incInt s1.comparisons }
      match s2.data[s2.bubbleJ]?, s2.data[uadd s2.bubbleJ 1]? with
      | some a, some b =>
        if a > b then
          match swapElements s2.bubbleJ (uadd s2.bubbleJ 1) s2 with
          | some s3 =>
            let s4 := highlightSwap s3.bubbleJ (uadd s3.bubbleJ 1) s3
            some ({ s4 with bubbleJ := uadd s4.bubbleJ 1 }, true)
          | none => none
        else
          some ({ s2 with bubbleJ := uadd s2.bubbleJ 1 }, true)
      | _, _ => none
    else
      let s1 := highlightSorted (usub (usub s.data.length s.bubbleI) 1) s
      some ({ s1 with bubbleJ := 0, bubbleI := uadd s1.bubbleI 1 }, true)
  else
    some (s, false)

/-- The method `stepQuickSort`; the Boolean is the returned value. -/
def stepQuickSort (s : Visualizer) : Option (Visualizer × Bool) :=
  let q := s.quickSortState
  if q.stack.isEmpty then
    some (s, false)
  else if !q.partitioning then
    match q.stack.getLast? with
    | none => none
    | some top =>
      let q1 := { q with low := top.1, high := top.2, stack := q.stack.dropLast }
      if q1.low < q1.high then
        match s.data[toSize q1.high]? with
        | some p =>
          some ({ s with quickSortState :=
                    { q1 with pivot := p, i := q1.low - 1, j := q1.low, partitioning := true } },
                true)
        | none => none
      else
        some ({ s with quickSortState := q1 }, true)
  else if q.j ≤ q.high - 1 then
    let s1 := highlightCompare (toSize q.j) (toSize q.high) s
    let s2 := { s1 with comparisons := incInt s1.comparisons }
    match s2.data[toSize q.j]? with
    | some a =>
      if a < q.pivot then
        let s3 := { s2 with quickSortState := { q with i := q.i + 1 } }
        match swapElements (toSize (q.i + 1)) (toSize q.j) s3 with
        | some s4 =>
          let s5 := highlightSwap (toSize (q.i + 1)) (toSize q.j) s4
          some ({ s5 with quickSortState := { s5.quickSortState with j := q.j + 1 } }, true)
        | none => none
      else
        some ({ s2 with quickSortState := { q with j := q.j + 1 } }, true)
    | none => none
  else
    match swapElements (toSize (q.i + 1)) (toSize q.high) s with
    | some s1 =>
      let s2 := highlightSwap (toSize (q.i + 1)) (toSize q.high) s1
      let pi := q.i + 1
      some ({ s2 with quickSortState :=
                { q with stack := (q.stack ++ [(q.low, pi - 1)]) ++ [(pi + 1, q.high)],
                         partitioning := false } },
            true)
    | none => none

/-- The method `stepSelectionSort`; the Boolean is the returned value. -/
def stepSelectionSort (s : Visualizer) : Option (Visualizer × Bool) :=
  if s.selectionI < usub s.data.length 1 then
    if s.selectionJ < s.data.length then
      let s1 := highlightCompare s.selectionJ s.selectionMin s
      let s2 := { s1 with comparisons := incInt s1.comparisons }
      match s2.data[s2.selectionJ]?, s2.data[s2.selectionMin]? with
      | some a, some b =>
        let s3 := if a < b then { s2 with selectionMin := s2.selectionJ } else s2
        some ({ s3 with selectionJ := uadd s3.selectionJ 1 }, true)
      | _, _ => none
    else
      let r :=
        if s.selectionMin ≠ s.selectionI then
          (swapElements s.selectionI s.selectionMin s).map
            (highlightSwap s.selectionI s.selectionMin)
        else some s
      match r with
      | some s1 =>
        let s2 := highlightSorted s1.selectionI s1
        let s3 := { s2 with selectionI := uadd s2.selectionI 1 }
        let s4 := { s3 with selectionJ := uadd s3.selectionI 1 }
        some ({ s4 with selectionMin := s4.selectionI }, true)
      | none => none
  else
    some (s, false)

/-- The loop `for (size_t i = 0; i < bars.size(); ++i) highlightSorted(i);`. -/
def markAllSorted (s : Visualizer) : Visualizer :=
  (List.range s.bars.length).foldl (fun t i => highlightSorted i t) s

/-- The tail of `stepAlgorithm` after the `switch`. -/
def finishStep (r : Visualizer × Bool) : Visualizer :=
  if !r.2 then markAllSorted { r.1 with isSorting := false } else r.1

/-- The method `stepAlgorithm` (one tick). -/
def stepAlgorithm (s : Visualizer) : Option Visualizer :=
  if !s.isSorting || s.isPaused then some s
  else
    match s.currentAlgorithm with
    | Algorithm.BUBBLE_SORT => (stepBubbleSort s).map finishStep
    | Algorithm.QUICK_SORT => (stepQuickSort s).map finishStep
    | Algorithm.SELECTION_SORT => (stepSelectionSort s).map finishStep
    | Algorithm.MERGE_SORT => some (finishStep (s, false))
    | Algorithm.NONE => some s

/-- The method `startSorting`. -/
def startSorting (s : Visualizer) : Visualizer :=
  if s.currentAlgorithm = Algorithm.NONE then s
  else if !s.isSorting then
    resetAlgorithmStates { s with isSorting := true, isPaused := false, comparisons := 0, swaps := 0 }
  else
    { s with isPaused := !s.isPaused }

/-- Calls `step` until it returns `false`, at most `fuel` calls; the result is the state the
last call left.  `none` when a call is undefined or the fuel runs out first. -/
def runUntilDone (step : Visualizer → Option (Visualizer × Bool)) : Nat → Visualizer → Option Visualizer
  | 0, _ => none
  | fuel + 1, s =>
    match step s with
    | some (s1, true) => runUntilDone step fuel s1
    | some (s1, false) => some s1
    | none => none

/-- The state after `k` calls of `stepAlgorithm`. -/
def ticks : Nat → Visualizer → Option Visualizer
  | 0, s => some s
  | k + 1, s => (stepAlgorithm s).bind (ticks k)

/-- A visualizer as the constructor leaves it, holding the dataset `d` instead of the random
values of `initializeData`: one default-coloured bar per element, no algorithm selected. -/
def construct (d : List Int) : Visualizer :=
  resetAlgorithmStates
    { data := d
      bars := d.map (fun _ => Color.defaultColor)
      currentAlgorithm := Algorithm.NONE
      isSorting := false
      isPaused := false
      sortingSpeed := 50
      comparisons := 0
      swaps := 0
      bubbleI := 0
      bubbleJ := 0
      quickSortState :=
        { low := 0, high := 0, partitioning := false, pivot := 0, i := 0, j := 0, stack := [] }
      mergeSortState :=
        { left := 0, right := 0, mid := 0, merging := false, temp := [], i := 0, j := 0, k := 0 }
      selectionI := 0
      selectionJ := 0
      selectionMin := 0
      log := [] }

/-- Ascending order as the specification states it: `data[k] ≤ data[k+1]` for every
`k < n - 1`. -/
def SortedAsc (d : List Int) : Prop :=
  ∀ k, k < d.length - 1 → d.getD k 0 ≤ d.getD (k + 1) 0

instance : DecidablePred SortedAsc := fun d => by
  unfold SortedAsc
  infer_instance

/-! ## Outcomes of the step functions, invariants and measures -/

/-- The state `stepBubbleSort` leaves after a comparison that finds the pair in order. -/
def bubbleKeep (s : Visualizer) : Visualizer :=
  { highlightCompare s.bubbleJ (uadd s.bubbleJ 1) s with
    comparisons := incInt s.comparisons
    bubbleJ := uadd s.bubbleJ 1 }

/-- The state `stepBubbleSort` leaves after a comparison followed by an exchange. -/
def bubbleExchange (s : Visualizer) : Visualizer :=
  { highlightSwap s.bubbleJ (uadd s.bubbleJ 1)
      { highlightCompare s.bubbleJ (uadd s.bubbleJ 1) s with
        data := swapAt s.data s.bubbleJ (uadd s.bubbleJ 1)
        comparisons := incInt s.comparisons
        swaps := incInt s.swaps
        log := (s.log ++ [Call.highlightCompare s.bubbleJ (uadd s.bubbleJ 1)]) ++
          [Call.swapElements s.bubbleJ (uadd s.bubbleJ 1)] } with
    bubbleJ := uadd s.bubbleJ 1 }

/-- The state `stepBubbleSort` leaves at the end of a pass. -/
def bubblePassEnd (s : Visualizer) : Visualizer :=
  { highlightSorted (usub (usub s.data.length s.bubbleI) 1) s with
    bubbleJ := 0
    bubbleI := uadd s.bubbleI 1 }

/-- Invariant of a bubble sort run: the cursors are in range, the last `bubbleI` positions
hold their final values, and `data[bubbleJ]` is a maximum of the positions up to `bubbleJ`. -/
def BubbleInv (s : Visualizer) : Prop :=
  s.data.length < SIZE_MOD ∧ s.bars.length = s.data.length ∧
  s.bubbleI + 1 ≤ s.data.length ∧ s.bubbleJ + s.bubbleI + 1 ≤ s.data.length ∧
  (∀ p q, p < q → s.data.length ≤ q + s.bubbleI → q < s.data.length →
    s.data.getD p 0 ≤ s.data.getD q 0) ∧
  (∀ p, p ≤ s.bubbleJ → s.data.getD p 0 ≤ s.data.getD s.bubbleJ 0)

/-- A bound on the number of calls of `stepBubbleSort` that still return `true`. -/
def bubbleMeasure (s : Visualizer) : Nat :=
  (s.data.length - 1 - s.bubbleI) * (s.data.length + 1) +
    (s.data.length - 1 - s.bubbleI - s.bubbleJ)

/-- The state `stepSelectionSort` leaves after a comparison of the scan. -/
def selectionScan (s : Visualizer) : Visualizer :=
  { highlightCompare s.selectionJ s.selectionMin s with
    comparisons := incInt s.comparisons
    selectionMin :=
      if s.data.getD s.selectionJ 0 < s.data.getD s.selectionMin 0 then s.selectionJ
      else s.selectionMin
    selectionJ := uadd s.selectionJ 1 }

/-- The state `stepSelectionSort` leaves at the end of a pass whose minimum is already in
place. -/
def selectionStay (s : Visualizer) : Visualizer :=
  { highlightSorted s.selectionI s with
    selectionI := uadd s.selectionI 1
    selectionJ := uadd (uadd s.selectionI 1) 1
    selectionMin := uadd s.selectionI 1 }

/-- The state `stepSelectionSort` leaves at the end of a pass that exchanges the minimum
into place. -/
def selectionPlace (s : Visualizer) : Visualizer :=
  { highlightSorted s.selectionI
      (highlightSwap s.selectionI s.selectionMin
        { s with
          data := swapAt s.data s.selectionI s.selectionMin
          swaps := incInt s.swaps
          log := s.log ++ [Call.swapElements s.selectionI s.selectionMin] }) with
    selectionI := uadd s.selectionI 1
    selectionJ := uadd (uadd s.selectionI 1) 1
    selectionMin := uadd s.selectionI 1 }

/-- Invariant of a selection sort run: the cursors are in range, the first `selectionI`
positions hold their final values, and `data[selectionMin]` is a minimum of the positions
from `selectionI` up to the scan cursor. -/
def SelectionInv (s : Visualizer) : Prop :=
  s.data.length < SIZE_MOD ∧ s.bars.length = s.data.length ∧
  s.selectionI + 1 ≤ s.data.length ∧ s.selectionI ≤ s.selectionMin ∧
  s.selectionMin < s.data.length ∧ s.selectionI ≤ s.selectionJ ∧
  s.selectionJ ≤ s.data.length ∧
  (∀ p q, p < q → p < s.selectionI → q < s.data.length →
    s.data.getD p 0 ≤ s.data.getD q 0) ∧
  (∀ p, s.selectionI ≤ p → p < s.selectionJ →
    s.data.getD s.selectionMin 0 ≤ s.data.getD p 0)

/-- A bound on the number of calls of `stepSelectionSort` that still return `true`. -/
def selectionMeasure (s : Visualizer) : Nat :=
  (s.data.length - 1 - s.selectionI) * (s.data.length + 2) +
    (s.data.length + 1 - s.selectionJ)

/-- The state `stepQuickSort` leaves after popping the range `top` when `top.1 ≥ top.2`. -/
def quickPop (top : Int × Int) (s : Visualizer) : Visualizer :=
  { s with quickSortState :=
      { s.quickSortState with
        low := top.1, high := top.2, stack := s.quickSortState.stack.dropLast } }

/-- The state `stepQuickSort` leaves after popping the range `top` with `top.1 < top.2` and
reading the pivot `p`. -/
def quickBegin (top : Int × Int) (p : Int) (s : Visualizer) : Visualizer :=
  { s with quickSortState :=
      { s.quickSortState with
        low := top.1, high := top.2, stack := s.quickSortState.stack.dropLast,
        pivot := p, i := top.1 - 1, j := top.1, partitioning := true } }

/-- The state `stepQuickSort` leaves after a scan comparison with `data[j] ≥ pivot`. -/
def quickKeep (s : Visualizer) : Visualizer :=
  { highlightCompare (toSize s.quickSortState.j) (toSize s.quickSortState.high) s with
    comparisons := incInt s.comparisons
    quickSortState := { s.quickSortState with j := s.quickSortState.j + 1 } }

/-- The state `stepQuickSort` leaves after a scan comparison with `data[j] < pivot`. -/
def quickExchange (s : Visualizer) : Visualizer :=
  { highlightSwap (toSize (s.quickSortState.i + 1)) (toSize s.quickSortState.j)
      { highlightCompare (toSize s.quickSortState.j) (toSize s.quickSortState.high) s with
        data := swapAt s.data (toSize (s.quickSortState.i + 1)) (toSize s.quickSortState.j)
        comparisons := incInt s.comparisons
        swaps := incInt s.swaps
        log := (s.log ++
          [Call.highlightCompare (toSize s.quickSortState.j) (toSize s.quickSortState.high)]) ++
          [Call.swapElements (toSize (s.quickSortState.i + 1)) (toSize s.quickSortState.j)] } with
    quickSortState :=
      { s.quickSortState with i := s.quickSortState.i + 1, j := s.quickSortState.j + 1 } }

/-- The state `stepQuickSort` leaves after placing the pivot at the end of a scan. -/
def quickPlace (s : Visualizer) : Visualizer :=
  { highlightSwap (toSize (s.quickSortState.i + 1)) (toSize s.quickSortState.high)
      { s with
        data := swapAt s.data (toSize (s.quickSortState.i + 1)) (toSize s.quickSortState.high)
        swaps := incInt s.swaps
        log := s.log ++
          [Call.swapElements (toSize (s.quickSortState.i + 1)) (toSize s.quickSortState.high)] } with
    quickSortState :=
      { s.quickSortState with
        stack := (s.quickSortState.stack ++
          [(s.quickSortState.low, s.quickSortState.i + 1 - 1)]) ++
          [(s.quickSortState.i + 1 + 1, s.quickSortState.high)],
        partitioning := false } }

/-- Invariant of a quick sort run from the initial configuration: either the work-stack is
empty, or nothing has been popped yet and the stack holds the single range `(0, hi)` whose
upper end, when the range is non-trivial, is a position of the dataset. -/
def QuickFreshInv (s : Visualizer) : Prop :=
  s.quickSortState.stack = [] ∨
  (s.quickSortState.partitioning = false ∧
    ∃ hi : Int, s.quickSortState.stack = [] ++ [(0, hi)] ∧
      (0 < hi → toSize hi < s.data.length))

/-- Invariant of the controller during a run: one bar per element, and while the run is
active the invariant of the selected state machine. -/
def RunInv (s : Visualizer) : Prop :=
  s.bars.length = s.data.length ∧ s.data.length < SIZE_MOD ∧
  (s.isSorting = true → s.isPaused = false →
    (s.currentAlgorithm = Algorithm.BUBBLE_SORT → BubbleInv s) ∧
    (s.currentAlgorithm = Algorithm.SELECTION_SORT → SelectionInv s) ∧
    (s.currentAlgorithm = Algorithm.QUICK_SORT → QuickFreshInv s))

/-- The `switch` of `stepAlgorithm`: the step function of the selected algorithm and the value
it leaves in `continueSorting`.  With `NONE` selected `stepAlgorithm` returns at once, which
leaves the state as a step reporting more work without doing anything would. -/
def activeStep (s : Visualizer) : Option (Visualizer × Bool) :=
  match s.currentAlgorithm with
  | Algorithm.BUBBLE_SORT => stepBubbleSort s
  | Algorithm.QUICK_SORT => stepQuickSort s
  | Algorithm.SELECTION_SORT => stepSelectionSort s
  | Algorithm.MERGE_SORT => some (s, false)
  | Algorithm.NONE => some (s, true)

/-- Number of `highlightCompare` calls in a list of recorded calls. -/
def numCompare (l : List Call) : Nat :=
  l.countP (fun c => match c with
    | Call.highlightCompare _ _ => true
    | _ => false)

/-- Number of `swapElements` calls in a list of recorded calls. -/
def numSwap (l : List Call) : Nat :=
  l.countP (fun c => match c with
    | Call.swapElements _ _ => true
    | _ => false)

/-- The keys `handleInput` polls (values of `sf::Keyboard::Key`). -/
inductive Key where
  | Num1
  | Num2
  | Num3
  | Num4
  | Space
  | R
  | Add
  | Up
  | Subtract
  | Down
  deriving DecidableEq, Repr

/-- The method `initializeData`: 100 values, `gen i` being the `i`-th value drawn from the
random distribution, and one default-coloured bar per value. -/
def initializeData (gen : Nat → Int) (s : Visualizer) : Visualizer :=
  { s with
    data := (List.range 100).map gen
    bars := ((List.range 100).map gen).map (fun _ => Color.defaultColor) }

/-- The method `handleInput`; `isKeyPressed` is the state of the keyboard and `gen` the
random source that `initializeData` draws from. -/
def handleInput (isKeyPressed : Key → Bool) (gen : Nat → Int) (s : Visualizer) : Visualizer :=
  if isKeyPressed Key.Num1 then
    { s with currentAlgorithm := Algorithm.BUBBLE_SORT, isSorting := false }
  else if isKeyPressed Key.Num2 then
    { s with currentAlgorithm := Algorithm.QUICK_SORT, isSorting := false }
  else if isKeyPressed Key.Num3 then
    { s with currentAlgorithm := Algorithm.MERGE_SORT, isSorting := false }
  else if isKeyPressed Key.Num4 then
    { s with currentAlgorithm := Algorithm.SELECTION_SORT, isSorting := false }
  else if isKeyPressed Key.Space then
    startSorting s
  else if isKeyPressed Key.R then
    { initializeData gen s with isSorting := false, comparisons := 0, swaps := 0 }
  else if isKeyPressed Key.Add || isKeyPressed Key.Up then
    { s with sortingSpeed := max 10 (s.sortingSpeed - 10) }
  else if isKeyPressed Key.Subtract || isKeyPressed Key.Down then
    { s with sortingSpeed := min 500 (s.sortingSpeed + 10) }
  else s

/-- The state after a sequence of `handleInput` calls, one per keyboard state. -/
def handleInputs : List ((Key → Bool) × (Nat → Int)) → Visualizer → Visualizer
  | [], s => s
  | x :: rest, s => handleInputs rest (handleInput x.1 x.2 s)

/-- The commands of the control scheme. -/
inductive Command where
  | selectAlgorithm (a : Algorithm)
  | toggleRun
  | resetData
  | speedUp
  | speedDown
  deriving DecidableEq, Repr

/-- The command a keyboard state stands for: the first branch of the `else if` chain of
`handleInput` whose key is pressed. -/
def commandOf (isKeyPressed : Key → Bool) : Option Command :=
  if isKeyPressed Key.Num1 then some (Command.selectAlgorithm Algorithm.BUBBLE_SORT)
  else if isKeyPressed Key.Num2 then some (Command.selectAlgorithm Algorithm.QUICK_SORT)
  else if isKeyPressed Key.Num3 then some (Command.selectAlgorithm Algorithm.MERGE_SORT)
  else if isKeyPressed Key.Num4 then some (Command.selectAlgorithm Algorithm.SELECTION_SORT)
  else if isKeyPressed Key.Space then some Command.toggleRun
  else if isKeyPressed Key.R then some Command.resetData
  else if isKeyPressed Key.Add || isKeyPressed Key.Up then some Command.speedUp
  else if isKeyPressed Key.Subtract || isKeyPressed Key.Down then some Command.speedDown
  else none

/-- The keyboard state with exactly the key `k` pressed. -/
def onlyKey (k : Key) : Key → Bool := fun x => decide (x = k)

/-- Every index of the recorded call is a position of a dataset of length `n`. -/
def callInRange (n : Nat) : Call → Bool
  | Call.highlightCompare i j => decide (i < n) && decide (j < n)
  | Call.highlightSwap i j => decide (i < n) && decide (j < n)
  | Call.highlightSorted i => decide (i < n)
  | Call.swapElements i j => decide (i < n) && decide (j < n)

/-- Invariant of the controller over a whole run on a dataset of length `n`, started with
the log `l0`: one bar per element, every call recorded since the start has its indices in
range, and the invariant of the selected state machine holds (also after completion). -/
def SafeInv (n : Nat) (l0 : List Call) (s : Visualizer) : Prop :=
  s.data.length = n ∧ s.bars.length = n ∧ n < SIZE_MOD ∧
  (∃ calls, s.log = l0 ++ calls ∧ ∀ c ∈ calls, callInRange n c = true) ∧
  (s.currentAlgorithm = Algorithm.BUBBLE_SORT → BubbleInv s) ∧
  (s.currentAlgorithm = Algorithm.SELECTION_SORT → SelectionInv s) ∧
  (s.currentAlgorithm = Algorithm.QUICK_SORT → QuickFreshInv s)

/-- Calls `step` `k` times, each call returning `true` (more work); `none` when a call is
undefined or returns `false`. -/
def stepsTrue (step : Visualizer → Option (Visualizer × Bool)) : Nat → Visualizer → Option Visualizer
  | 0, s => some s
  | k + 1, s =>
    match step s with
    | some (s1, true) => stepsTrue step k s1
    | _ => none

/-- Invariant of the scan of one Lomuto partition of the range `l .. h` of the dataset that
was `d0` when the range was popped, with `rest` the remaining work-stack: `a = i + 1` is the
boundary and `jn = j` the scan cursor; positions `l .. a-1` hold values below the pivot,
positions `a .. jn-1` values not below it, position `h` the pivot, and the positions outside
`l .. h` what they held in `d0`. -/
def QuickScanInv (d0 : List Int) (rest : List (Int × Int)) (l h a jn : Nat)
    (s : Visualizer) : Prop :=
  s.quickSortState.low = (l : Int) ∧ s.quickSortState.high = (h : Int) ∧
  s.quickSortState.partitioning = true ∧ s.quickSortState.pivot = d0.getD h 0 ∧
  s.quickSortState.i + 1 = (a : Int) ∧ s.quickSortState.j = (jn : Int) ∧
  s.quickSortState.stack = rest ∧
  l ≤ a ∧ a ≤ jn ∧ jn ≤ h ∧ h < s.data.length ∧ s.data.length < SIZE_MOD ∧
  s.bars.length = s.data.length ∧ s.data.Perm d0 ∧
  s.data.getD h 0 = d0.getD h 0 ∧
  (∀ k, l ≤ k → k < a → s.data.getD k 0 < d0.getD h 0) ∧
  (∀ k, a ≤ k → k < jn → d0.getD h 0 ≤ s.data.getD k 0) ∧
  (∀ k, k < l ∨ h < k → s.data.getD k 0 = d0.getD k 0)

/-- The state after `k` calls of `step`, whatever they return. -/
def stepsAny (step : Visualizer → Option (Visualizer × Bool)) : Nat → Visualizer → Option Visualizer
  | 0, s => some s
  | k + 1, s => (step s).bind (fun r => stepsAny step k r.1)

/-- The triangular number `0 + 1 + ... + m`. -/
def tri (m : Nat) : Nat := m * (m + 1) / 2

/-- Number of calls of `stepBubbleSort` that still return `true`, for cursors in range. -/
def bubbleStepsLeft (s : Visualizer) : Nat :=
  (s.data.length - 1 - s.bubbleI - s.bubbleJ) + tri (s.data.length - 1 - s.bubbleI)

/-- Number of comparisons a bubble sort run still makes, for cursors in range. -/
def bubbleComparisonsLeft (s : Visualizer) : Nat :=
  (s.data.length - 1 - s.bubbleI - s.bubbleJ) + tri (s.data.length - 1 - s.bubbleI - 1)

/-- Invariant for counting a bubble sort run that started with the log `l0` and makes `total`
comparisons: the recorded calls so far hold as many `highlightCompare` calls as the run has
made comparisons, and no more `swapElements` calls than that. -/
def BubbleCountInv (l0 : List Call) (total : Nat) (s : Visualizer) : Prop :=
  BubbleInv s ∧
  ∃ calls, s.log = l0 ++ calls ∧
    numCompare calls + bubbleComparisonsLeft s = total ∧
    numSwap calls ≤ numCompare calls

/-- Number of `highlightSorted` calls in a list of recorded calls. -/
def numSorted (l : List Call) : Nat :=
  l.countP (fun c => match c with
    | Call.highlightSorted _ => true
    | _ => false)

/-- Number of comparisons a selection sort run still makes, for cursors in range. -/
def selectionComparisonsLeft (s : Visualizer) : Nat :=
  (s.data.length - s.selectionJ) + tri (s.data.length - 1 - s.selectionI - 1)

/-- Number of calls of `stepSelectionSort` that still return `true`, for cursors in range. -/
def selectionStepsLeft (s : Visualizer) : Nat :=
  selectionComparisonsLeft s + (s.data.length - 1 - s.selectionI)

/-- Invariant for counting a selection sort run that started with the log `l0` and makes
`total` comparisons. -/
def SelectionCountInv (l0 : List Call) (total : Nat) (s : Visualizer) : Prop :=
  SelectionInv s ∧ (s.selectionI + 1 = s.data.length → s.selectionJ = s.data.length) ∧
  ∃ calls, s.log = l0 ++ calls ∧
    numCompare calls + selectionComparisonsLeft s = total ∧
    numSorted calls + (s.data.length - 1 - s.selectionI) = s.data.length - 1 ∧
    numSwap calls ≤ numSorted calls ∧
    ((calls = [] ∧ s.selectionI = 0 ∧ s.selectionJ = 0 ∧ s.selectionMin = 0 ∧
        2 ≤ s.data.length) ∨
      calls.head? = some (Call.highlightCompare 0 0))

/-! # Theorems -/

/-! ## Machine arithmetic -/

theorem usub_eq {a b : Nat} (h : b ≤ a) (ha : a < SIZE_MOD) : usub a b = a - b := by
  simp only [usub, SIZE_MOD] at *
  omega

theorem uadd_eq {a b : Nat} (h : a + b < SIZE_MOD) : uadd a b = a + b := by
  simp only [uadd, SIZE_MOD] at *
  omega

theorem toInt_usub_one_of_zero : toInt (usub 0 1) = -1 := by
  decide

theorem toInt_le (x : Nat) : toInt x ≤ (x : Int) := by
  unfold toInt
  split <;> omega

theorem toSize_of_nonneg {x : Int} (h0 : 0 ≤ x) (h : x < (SIZE_MOD : Int)) :
    toSize x = x.toNat := by
  simp only [toSize, SIZE_MOD] at *
  omega

theorem wrapInt_of_range {x : Int} (h0 : -2147483648 ≤ x) (h1 : x ≤ 2147483647) :
    wrapInt x = x := by
  unfold wrapInt
  omega

theorem wrapInt_range (x : Int) : -2147483648 ≤ wrapInt x ∧ wrapInt x ≤ 2147483647 := by
  unfold wrapInt
  omega

theorem incInt_eq {x : Int} (h0 : -2147483648 ≤ x) (h1 : x < 2147483647) :
    incInt x = x + 1 := by
  unfold incInt
  exact wrapInt_of_range (by omega) (by omega)

theorem incInt_range (x : Int) : -2147483648 ≤ incInt x ∧ incInt x ≤ 2147483647 :=
  wrapInt_range _

theorem incInt_max : incInt 2147483647 = -2147483648 := by
  decide

theorem iterate_incInt_eq (m : Nat) : ∀ x : Int, -2147483648 ≤ x →
    x + (m : Int) ≤ 2147483647 → incInt^[m] x = x + (m : Int) := by
  induction m with
  | zero =>
    intro x _ _
    simp
  | succ m ih =>
    intro x h0 h1
    push_cast at h1
    rw [Function.iterate_succ_apply, incInt_eq h0 (by omega), ih (x + 1) (by omega) (by omega)]
    push_cast
    ring

theorem iterate_incInt_range (m : Nat) {x : Int} (h0 : -2147483648 ≤ x)
    (h1 : x ≤ 2147483647) :
    -2147483648 ≤ incInt^[m] x ∧ incInt^[m] x ≤ 2147483647 := by
  cases m with
  | zero => exact ⟨h0, h1⟩
  | succ m =>
    rw [Function.iterate_succ_apply']
    exact incInt_range _

/-! ## Exchanging two elements of a list -/

@[simp] theorem length_swapAt (d : List Int) (i j : Nat) : (swapAt d i j).length = d.length := by
  simp [swapAt]

theorem getD_swapAt (d : List Int) {i j : Nat} (hi : i < d.length) (hj : j < d.length) (k : Nat) :
    (swapAt d i j).getD k 0 =
      if k = j then d.getD i 0 else if k = i then d.getD j 0 else d.getD k 0 := by
  have hi2 : d[i]? = some d[i] := List.getElem?_eq_getElem hi
  have hj2 : d[j]? = some d[j] := List.getElem?_eq_getElem hj
  simp only [swapAt, List.getD_eq_getElem?_getD, List.getElem?_set, List.length_set, hi2, hj2,
    Option.getD_some]
  by_cases h1 : k = j
  · subst h1
    simp [hj]
  · by_cases h2 : k = i
    · subst h2
      simp [hi, h1, Ne.symm h1]
    · simp [h1, h2, Ne.symm h1, Ne.symm h2]

theorem cons_set_perm (a : Int) : ∀ (l : List Int) (k : Nat), k < l.length →
    (l.getD k 0 :: l.set k a).Perm (a :: l)
  | [], _, h => by simp at h
  | b :: t, 0, _ => by
    simpa using List.Perm.swap a b t
  | b :: t, k + 1, h => by
    have ih := cons_set_perm a t k (by simpa using h)
    simp only [List.getD_cons_succ, List.set_cons_succ]
    exact (List.Perm.swap b (t.getD k 0) (t.set k a)).trans
      ((ih.cons b).trans (List.Perm.swap a b t))

theorem swapAt_perm : ∀ (d : List Int) (i j : Nat), i < d.length → j < d.length →
    (swapAt d i j).Perm d
  | [], _, _, h, _ => by simp at h
  | a :: t, 0, 0, _, _ => by simp [swapAt]
  | a :: t, 0, j + 1, _, hj => by
    have := cons_set_perm a t j (by simpa using hj)
    simpa [swapAt] using this
  | a :: t, i + 1, 0, hi, _ => by
    have := cons_set_perm a t i (by simpa using hi)
    simpa [swapAt] using this
  | a :: t, i + 1, j + 1, hi, hj => by
    have := swapAt_perm t i j (by simpa using hi) (by simpa using hj)
    simpa [swapAt] using this

/-! ## The primitives -/

section prims
variable (i j : Nat) (c : Color) (s : Visualizer)

theorem highlightCompare_eq : highlightCompare i j s =
    { s with bars := (setFillColor j Color.compareColor (setFillColor i Color.compareColor (resetColors s))).bars
             log := s.log ++ [Call.highlightCompare i j] } := rfl

theorem highlightSwap_eq : highlightSwap i j s =
    { s with bars := (setFillColor j Color.swapColor (setFillColor i Color.swapColor (resetColors s))).bars
             log := s.log ++ [Call.highlightSwap i j] } := rfl

theorem highlightSorted_eq : highlightSorted i s =
    { s with bars := (setFillColor i Color.sortedColor s).bars
             log := s.log ++ [Call.highlightSorted i] } := rfl

@[simp] theorem bars_length_setFillColor : (setFillColor i c s).bars.length = s.bars.length := by
  unfold setFillColor
  split <;> simp

@[simp] theorem bars_length_resetColors : (resetColors s).bars.length = s.bars.length := by
  simp [resetColors]

end prims

theorem swapElements_eq_some {i j : Nat} {s t : Visualizer} (h : swapElements i j s = some t) :
    (i < s.data.length ∧ j < s.data.length ∧ i < s.bars.length ∧ j < s.bars.length) ∧
    t = { s with data := swapAt s.data i j, swaps := incInt s.swaps,
                 log := s.log ++ [Call.swapElements i j] } := by
  unfold swapElements at h
  split at h
  · rename_i hc
    exact ⟨hc, (Option.some.inj h).symm⟩
  · cases h

theorem swapElements_of_lt {i j : Nat} {s : Visualizer} (hi : i < s.data.length)
    (hj : j < s.data.length) (hbi : i < s.bars.length) (hbj : j < s.bars.length) :
    swapElements i j s = some { s with data := swapAt s.data i j, swaps := incInt s.swaps,
                                       log := s.log ++ [Call.swapElements i j] } := by
  unfold swapElements
  rw [if_pos ⟨hi, hj, hbi, hbj⟩]

theorem swapElements_of_not_lt {i j : Nat} {s : Visualizer}
    (h : ¬ (i < s.data.length ∧ j < s.data.length) ∨ ¬ (i < s.bars.length ∧ j < s.bars.length)) :
    swapElements i j s = none := by
  unfold swapElements
  rw [if_neg]
  tauto

theorem stepBubbleSort_done {s : Visualizer} (h : ¬ s.bubbleI < usub s.data.length 1) :
    stepBubbleSort s = some (s, false) := by
  simp [stepBubbleSort, h]

theorem stepBubbleSort_passEnd {s : Visualizer} (h : s.bubbleI < usub s.data.length 1)
    (h2 : ¬ s.bubbleJ < usub (usub s.data.length s.bubbleI) 1) :
    stepBubbleSort s = some (bubblePassEnd s, true) := by
  simp only [stepBubbleSort, if_pos h, if_neg h2]
  rfl

theorem getElem?_eq_some_getD {d : List Int} {k : Nat} (h : k < d.length) :
    d[k]? = some (d.getD k 0) := by
  simp [List.getD_eq_getElem?_getD, List.getElem?_eq_getElem h]

theorem stepBubbleSort_keep {s : Visualizer} (h : s.bubbleI < usub s.data.length 1)
    (h2 : s.bubbleJ < usub (usub s.data.length s.bubbleI) 1)
    (hj : s.bubbleJ < s.data.length) (hj1 : uadd s.bubbleJ 1 < s.data.length)
    (hle : s.data.getD s.bubbleJ 0 ≤ s.data.getD (uadd s.bubbleJ 1) 0) :
    stepBubbleSort s = some (bubbleKeep s, true) := by
  simp only [stepBubbleSort, if_pos h, if_pos h2]
  dsimp only [highlightCompare_eq]
  rw [getElem?_eq_some_getD hj, getElem?_eq_some_getD hj1]
  dsimp only
  rw [if_neg (not_lt.mpr hle)]
  rfl

theorem stepBubbleSort_exchange {s : Visualizer} (h : s.bubbleI < usub s.data.length 1)
    (h2 : s.bubbleJ < usub (usub s.data.length s.bubbleI) 1)
    (hj : s.bubbleJ < s.data.length) (hj1 : uadd s.bubbleJ 1 < s.data.length)
    (hbj : s.bubbleJ < s.bars.length) (hbj1 : uadd s.bubbleJ 1 < s.bars.length)
    (hgt : s.data.getD (uadd s.bubbleJ 1) 0 < s.data.getD s.bubbleJ 0) :
    stepBubbleSort s = some (bubbleExchange s, true) := by
  simp only [stepBubbleSort, if_pos h, if_pos h2]
  dsimp only [highlightCompare_eq]
  rw [getElem?_eq_some_getD hj, getElem?_eq_some_getD hj1]
  dsimp only
  rw [if_pos hgt, swapElements_of_lt (by simpa using hj) (by simpa using hj1)
    (by simpa using hbj) (by simpa using hbj1)]
  rfl

/-- Every defined result of `stepBubbleSort` is one of its four outcomes. -/
theorem stepBubbleSort_cases {s s1 : Visualizer} {b : Bool}
    (h : stepBubbleSort s = some (s1, b)) :
    (b = false ∧ s1 = s ∧ ¬ s.bubbleI < usub s.data.length 1) ∨
    (b = true ∧ s1 = bubblePassEnd s ∧ s.bubbleI < usub s.data.length 1 ∧
      ¬ s.bubbleJ < usub (usub s.data.length s.bubbleI) 1) ∨
    (b = true ∧ s1 = bubbleKeep s ∧ s.bubbleI < usub s.data.length 1 ∧
      s.bubbleJ < usub (usub s.data.length s.bubbleI) 1 ∧
      s.bubbleJ < s.data.length ∧ uadd s.bubbleJ 1 < s.data.length ∧
      s.data.getD s.bubbleJ 0 ≤ s.data.getD (uadd s.bubbleJ 1) 0) ∨
    (b = true ∧ s1 = bubbleExchange s ∧ s.bubbleI < usub s.data.length 1 ∧
      s.bubbleJ < usub (usub s.data.length s.bubbleI) 1 ∧
      s.bubbleJ < s.data.length ∧ uadd s.bubbleJ 1 < s.data.length ∧
      s.bubbleJ < s.bars.length ∧ uadd s.bubbleJ 1 < s.bars.length ∧
      s.data.getD (uadd s.bubbleJ 1) 0 < s.data.getD s.bubbleJ 0) := by
  by_cases h1 : s.bubbleI < usub s.data.length 1
  swap
  · rw [stepBubbleSort_done h1] at h
    simp only [Option.some.injEq, Prod.mk.injEq] at h
    exact Or.inl ⟨h.2.symm, h.1.symm, h1⟩
  by_cases h2 : s.bubbleJ < usub (usub s.data.length s.bubbleI) 1
  swap
  · rw [stepBubbleSort_passEnd h1 h2] at h
    simp only [Option.some.injEq, Prod.mk.injEq] at h
    exact Or.inr (Or.inl ⟨h.2.symm, h.1.symm, h1, h2⟩)
  by_cases hj : s.bubbleJ < s.data.length
  swap
  · exfalso
    simp only [stepBubbleSort, if_pos h1, if_pos h2] at h
    dsimp only [highlightCompare_eq] at h
    rw [List.getElem?_eq_none (not_lt.mp hj)] at h
    cases h
  by_cases hj1 : uadd s.bubbleJ 1 < s.data.length
  swap
  · exfalso
    simp only [stepBubbleSort, if_pos h1, if_pos h2] at h
    dsimp only [highlightCompare_eq] at h
    rw [List.getElem?_eq_none (not_lt.mp hj1), getElem?_eq_some_getD hj] at h
    cases h
  by_cases hle : s.data.getD s.bubbleJ 0 ≤ s.data.getD (uadd s.bubbleJ 1) 0
  · rw [stepBubbleSort_keep h1 h2 hj hj1 hle] at h
    simp only [Option.some.injEq, Prod.mk.injEq] at h
    exact Or.inr (Or.inr (Or.inl ⟨h.2.symm, h.1.symm, h1, h2, hj, hj1, hle⟩))
  by_cases hb : s.bubbleJ < s.bars.length ∧ uadd s.bubbleJ 1 < s.bars.length
  · rw [stepBubbleSort_exchange h1 h2 hj hj1 hb.1 hb.2 (not_le.mp hle)] at h
    simp only [Option.some.injEq, Prod.mk.injEq] at h
    exact Or.inr (Or.inr (Or.inr ⟨h.2.symm, h.1.symm, h1, h2, hj, hj1, hb.1, hb.2, not_le.mp hle⟩))
  · exfalso
    simp only [stepBubbleSort, if_pos h1, if_pos h2] at h
    dsimp only [highlightCompare_eq] at h
    rw [getElem?_eq_some_getD hj, getElem?_eq_some_getD hj1] at h
    dsimp only at h
    rw [if_pos (not_le.mp hle)] at h
    rw [swapElements_of_not_lt (Or.inr (by simpa using hb))] at h
    cases h

/-! ## Running a step function to completion -/

theorem runUntilDone_of_measure (step : Visualizer → Option (Visualizer × Bool))
    (Inv Q : Visualizer → Prop) (μ : Visualizer → Nat)
    (hstep : ∀ s, Inv s → ∃ s1 b, step s = some (s1, b) ∧
      (b = true → Inv s1 ∧ μ s1 < μ s) ∧ (b = false → Q s1)) :
    ∀ (fuel : Nat) (s : Visualizer), Inv s → μ s < fuel →
      ∃ s1, runUntilDone step fuel s = some s1 ∧ Q s1 := by
  intro fuel
  induction fuel with
  | zero => intro s _ h; omega
  | succ k ih =>
    intro s hs hk
    obtain ⟨s1, b, e, ht, hf⟩ := hstep s hs
    cases b with
    | false =>
      exact ⟨s1, by simp [runUntilDone, e], hf rfl⟩
    | true =>
      obtain ⟨hi, hm⟩ := ht rfl
      obtain ⟨s2, e2, q⟩ := ih s1 hi (by omega)
      exact ⟨s2, by simpa [runUntilDone, e] using e2, q⟩

/-! ## Bubble sort -/

theorem sortedAsc_of_pairs {d : List Int}
    (h : ∀ p q, p < q → q < d.length → d.getD p 0 ≤ d.getD q 0) : SortedAsc d := by
  intro k hk
  exact h k (k + 1) (by omega) (by omega)

theorem bubble_step {s : Visualizer} (hs : BubbleInv s) :
    ∃ s1 b, stepBubbleSort s = some (s1, b) ∧ s1.data.Perm s.data ∧
      (b = true → BubbleInv s1 ∧ bubbleMeasure s1 < bubbleMeasure s) ∧
      (b = false → s1 = s ∧ SortedAsc s1.data) := by
  obtain ⟨hn, hb, hi, hj, ha, hm⟩ := hs
  have e1 : usub s.data.length 1 = s.data.length - 1 := usub_eq (by omega) hn
  have e2 : usub (usub s.data.length s.bubbleI) 1 = s.data.length - s.bubbleI - 1 := by
    rw [usub_eq (by omega) hn, usub_eq (by omega) (by omega)]
  have e3 : uadd s.bubbleJ 1 = s.bubbleJ + 1 := uadd_eq (by omega)
  have e4 : uadd s.bubbleI 1 = s.bubbleI + 1 := uadd_eq (by omega)
  by_cases h1 : s.bubbleI < s.data.length - 1
  swap
  · refine ⟨s, false, stepBubbleSort_done (by rw [e1]; exact h1), List.Perm.refl _,
      by simp, fun _ => ⟨rfl, ?_⟩⟩
    apply sortedAsc_of_pairs
    intro p q hpq hq
    exact ha p q hpq (by omega) hq
  by_cases h2 : s.bubbleJ < s.data.length - s.bubbleI - 1
  swap
  · refine ⟨bubblePassEnd s, true,
      stepBubbleSort_passEnd (by rw [e1]; exact h1) (by rw [e2]; exact h2), ?_, ?_, by simp⟩
    · simp [bubblePassEnd, highlightSorted_eq]
    · intro _
      have hd : (bubblePassEnd s).data = s.data := rfl
      have hI : (bubblePassEnd s).bubbleI = s.bubbleI + 1 := e4
      have hJ : (bubblePassEnd s).bubbleJ = 0 := rfl
      have hB : (bubblePassEnd s).bars.length = s.bars.length := by
        simp [bubblePassEnd, highlightSorted_eq]
      refine ⟨⟨by rw [hd]; exact hn, by rw [hB, hd]; exact hb, by rw [hd, hI]; omega,
        by rw [hd, hI, hJ]; omega, ?_, ?_⟩, ?_⟩
      · rw [hd, hI]
        intro p q hpq hq1 hq2
        by_cases hq : s.data.length ≤ q + s.bubbleI
        · exact ha p q hpq hq hq2
        · have : q = s.bubbleJ := by omega
          subst this
          exact hm p (by omega)
      · rw [hd, hJ]
        intro p hp
        have : p = 0 := by omega
        subst this
        exact le_refl _
      · simp only [bubbleMeasure, hd, hI, hJ]
        obtain ⟨a, ha2⟩ : ∃ a, s.data.length - 1 - s.bubbleI = a + 1 := ⟨s.data.length - 1 - s.bubbleI - 1, by omega⟩
        have : s.data.length - 1 - (s.bubbleI + 1) = a := by omega
        rw [this, ha2, Nat.succ_mul]
        omega
  have hjl : s.bubbleJ < s.data.length := by omega
  have hj1l : uadd s.bubbleJ 1 < s.data.length := by rw [e3]; omega
  by_cases hle : s.data.getD s.bubbleJ 0 ≤ s.data.getD (uadd s.bubbleJ 1) 0
  · refine ⟨bubbleKeep s, true,
      stepBubbleSort_keep (by rw [e1]; exact h1) (by rw [e2]; exact h2) hjl hj1l hle,
      ?_, ?_, by simp⟩
    · simp [bubbleKeep, highlightCompare_eq]
    · intro _
      have hd : (bubbleKeep s).data = s.data := rfl
      have hI : (bubbleKeep s).bubbleI = s.bubbleI := rfl
      have hJ : (bubbleKeep s).bubbleJ = s.bubbleJ + 1 := e3
      have hB : (bubbleKeep s).bars.length = s.bars.length := by
        simp [bubbleKeep, highlightCompare_eq]
      refine ⟨⟨by rw [hd]; exact hn, by rw [hB, hd]; exact hb, by rw [hd, hI]; omega,
        by rw [hd, hI, hJ]; omega, by rw [hd, hI]; exact ha, ?_⟩, ?_⟩
      · rw [hd, hJ]
        intro p hp
        rw [e3] at hle
        by_cases hp2 : p ≤ s.bubbleJ
        · exact le_trans (hm p hp2) hle
        · have : p = s.bubbleJ + 1 := by omega
          subst this
          exact le_refl _
      · simp only [bubbleMeasure, hd, hI, hJ]
        omega
  · have hgt := not_le.mp hle
    refine ⟨bubbleExchange s, true,
      stepBubbleSort_exchange (by rw [e1]; exact h1) (by rw [e2]; exact h2) hjl hj1l
        (by omega) (by omega) hgt, ?_, ?_, by simp⟩
    · exact swapAt_perm _ _ _ hjl hj1l
    · intro _
      have hd : (bubbleExchange s).data = swapAt s.data s.bubbleJ (s.bubbleJ + 1) := by
        rw [← e3]; rfl
      have hI : (bubbleExchange s).bubbleI = s.bubbleI := rfl
      have hJ : (bubbleExchange s).bubbleJ = s.bubbleJ + 1 := e3
      have hB : (bubbleExchange s).bars.length = s.bars.length := by
        simp [bubbleExchange, highlightCompare_eq, highlightSwap_eq]
      rw [e3] at hj1l hgt
      have hg := getD_swapAt s.data hjl hj1l
      refine ⟨⟨by rw [hd, length_swapAt]; exact hn, by rw [hB, hd, length_swapAt]; exact hb,
        by rw [hd, hI, length_swapAt]; omega, by rw [hd, hI, hJ, length_swapAt]; omega,
        ?_, ?_⟩, ?_⟩
      · rw [hd, hI, length_swapAt]
        intro p q hpq hq1 hq2
        have hq : (swapAt s.data s.bubbleJ (s.bubbleJ + 1)).getD q 0 = s.data.getD q 0 := by
          rw [hg q, if_neg (by omega), if_neg (by omega)]
        rw [hq, hg p]
        split_ifs
        · exact ha _ _ (by omega) hq1 hq2
        · exact ha _ _ (by omega) hq1 hq2
        · exact ha _ _ hpq hq1 hq2
      · rw [hd, hJ]
        intro p hp
        rw [hg p, hg (s.bubbleJ + 1), if_pos rfl]
        split_ifs with c1 c2
        · exact le_refl _
        · exact le_of_lt hgt
        · exact hm p (by omega)
      · simp only [bubbleMeasure, hd, hI, hJ, length_swapAt]
        omega

/-! ## Selection sort -/

theorem stepSelectionSort_done {s : Visualizer} (h : ¬ s.selectionI < usub s.data.length 1) :
    stepSelectionSort s = some (s, false) := by
  simp [stepSelectionSort, h]

theorem stepSelectionSort_scan {s : Visualizer} (h : s.selectionI < usub s.data.length 1)
    (hj : s.selectionJ < s.data.length) (hm : s.selectionMin < s.data.length) :
    stepSelectionSort s = some (selectionScan s, true) := by
  simp only [stepSelectionSort, if_pos h, if_pos hj]
  dsimp only [highlightCompare_eq]
  rw [getElem?_eq_some_getD hj, getElem?_eq_some_getD hm]
  dsimp only
  by_cases c : s.data.getD s.selectionJ 0 < s.data.getD s.selectionMin 0
  · simp only [if_pos c, selectionScan, highlightCompare_eq]
  · simp only [if_neg c, selectionScan, highlightCompare_eq]

theorem stepSelectionSort_stay {s : Visualizer} (h : s.selectionI < usub s.data.length 1)
    (hj : ¬ s.selectionJ < s.data.length) (hm : s.selectionMin = s.selectionI) :
    stepSelectionSort s = some (selectionStay s, true) := by
  simp only [stepSelectionSort, if_pos h, if_neg hj, ne_eq, hm, not_true_eq_false, if_false]
  rfl

theorem stepSelectionSort_place {s : Visualizer} (h : s.selectionI < usub s.data.length 1)
    (hj : ¬ s.selectionJ < s.data.length) (hm : s.selectionMin ≠ s.selectionI)
    (hi : s.selectionI < s.data.length) (hml : s.selectionMin < s.data.length)
    (hbi : s.selectionI < s.bars.length) (hbm : s.selectionMin < s.bars.length) :
    stepSelectionSort s = some (selectionPlace s, true) := by
  simp only [stepSelectionSort, if_pos h, if_neg hj, ne_eq, hm, not_false_eq_true, if_true,
    swapElements_of_lt hi hml hbi hbm, Option.map_some']
  rfl

/-- Every defined result of `stepSelectionSort` is one of its four outcomes. -/
theorem stepSelectionSort_cases {s s1 : Visualizer} {b : Bool}
    (h : stepSelectionSort s = some (s1, b)) :
    (b = false ∧ s1 = s ∧ ¬ s.selectionI < usub s.data.length 1) ∨
    (b = true ∧ s1 = selectionScan s ∧ s.selectionI < usub s.data.length 1 ∧
      s.selectionJ < s.data.length ∧ s.selectionMin < s.data.length) ∨
    (b = true ∧ s1 = selectionStay s ∧ s.selectionI < usub s.data.length 1 ∧
      ¬ s.selectionJ < s.data.length ∧ s.selectionMin = s.selectionI) ∨
    (b = true ∧ s1 = selectionPlace s ∧ s.selectionI < usub s.data.length 1 ∧
      ¬ s.selectionJ < s.data.length ∧ s.selectionMin ≠ s.selectionI ∧
      s.selectionI < s.data.length ∧ s.selectionMin < s.data.length ∧
      s.selectionI < s.bars.length ∧ s.selectionMin < s.bars.length) := by
  by_cases h1 : s.selectionI < usub s.data.length 1
  swap
  · rw [stepSelectionSort_done h1] at h
    simp only [Option.some.injEq, Prod.mk.injEq] at h
    exact Or.inl ⟨h.2.symm, h.1.symm, h1⟩
  by_cases hj : s.selectionJ < s.data.length
  · by_cases hm : s.selectionMin < s.data.length
    · rw [stepSelectionSort_scan h1 hj hm] at h
      simp only [Option.some.injEq, Prod.mk.injEq] at h
      exact Or.inr (Or.inl ⟨h.2.symm, h.1.symm, h1, hj, hm⟩)
    · exfalso
      simp only [stepSelectionSort, if_pos h1, if_pos hj] at h
      dsimp only [highlightCompare_eq] at h
      rw [List.getElem?_eq_none (not_lt.mp hm), getElem?_eq_some_getD hj] at h
      cases h
  by_cases hm : s.selectionMin = s.selectionI
  · rw [stepSelectionSort_stay h1 hj hm] at h
    simp only [Option.some.injEq, Prod.mk.injEq] at h
    exact Or.inr (Or.inr (Or.inl ⟨h.2.symm, h.1.symm, h1, hj, hm⟩))
  by_cases hb : (s.selectionI < s.data.length ∧ s.selectionMin < s.data.length) ∧
      (s.selectionI < s.bars.length ∧ s.selectionMin < s.bars.length)
  · rw [stepSelectionSort_place h1 hj hm hb.1.1 hb.1.2 hb.2.1 hb.2.2] at h
    simp only [Option.some.injEq, Prod.mk.injEq] at h
    exact Or.inr (Or.inr (Or.inr ⟨h.2.symm, h.1.symm, h1, hj, hm, hb.1.1, hb.1.2, hb.2.1,
      hb.2.2⟩))
  · exfalso
    simp only [stepSelectionSort, if_pos h1, if_neg hj, ne_eq, hm, not_false_eq_true, if_true,
      swapElements_of_not_lt (not_and_or.mp hb), Option.map_none'] at h
    cases h

theorem selection_step {s : Visualizer} (hs : SelectionInv s) :
    ∃ s1 b, stepSelectionSort s = some (s1, b) ∧ s1.data.Perm s.data ∧
      (b = true → SelectionInv s1 ∧ selectionMeasure s1 < selectionMeasure s) ∧
      (b = false → s1 = s ∧ SortedAsc s1.data) := by
  obtain ⟨hn, hb, hi, him, hm, hij, hj, ha, hmin⟩ := hs
  have e1 : usub s.data.length 1 = s.data.length - 1 := usub_eq (by omega) hn
  by_cases h1 : s.selectionI < s.data.length - 1
  swap
  · refine ⟨s, false, stepSelectionSort_done (by rw [e1]; exact h1), List.Perm.refl _,
      by simp, fun _ => ⟨rfl, ?_⟩⟩
    apply sortedAsc_of_pairs
    intro p q hpq hq
    exact ha p q hpq (by omega) hq
  have e4 : uadd s.selectionI 1 = s.selectionI + 1 := uadd_eq (by omega)
  have e5 : uadd (uadd s.selectionI 1) 1 = s.selectionI + 2 := by
    rw [e4]; exact uadd_eq (by omega)
  by_cases h2 : s.selectionJ < s.data.length
  · have e3 : uadd s.selectionJ 1 = s.selectionJ + 1 := uadd_eq (by omega)
    refine ⟨selectionScan s, true, stepSelectionSort_scan (by rw [e1]; exact h1) h2 hm,
      ?_, ?_, by simp⟩
    · simp [selectionScan, highlightCompare_eq]
    · intro _
      have hd : (selectionScan s).data = s.data := rfl
      have hI : (selectionScan s).selectionI = s.selectionI := rfl
      have hJ : (selectionScan s).selectionJ = s.selectionJ + 1 := e3
      have hM : (selectionScan s).selectionMin =
          if s.data.getD s.selectionJ 0 < s.data.getD s.selectionMin 0 then s.selectionJ
          else s.selectionMin := rfl
      have hB : (selectionScan s).bars.length = s.bars.length := by
        simp [selectionScan, highlightCompare_eq]
      refine ⟨⟨by rw [hd]; exact hn, by rw [hB, hd]; exact hb, by rw [hd, hI]; omega,
        ?_, ?_, by rw [hI, hJ]; omega, by rw [hd, hJ]; omega, by rw [hd, hI]; exact ha, ?_⟩, ?_⟩
      · rw [hI, hM]
        split_ifs with c
        · exact hij
        · exact him
      · rw [hd, hM]
        split_ifs <;> assumption
      · rw [hd, hI, hJ, hM]
        intro p hp1 hp2
        split_ifs with c
        · by_cases hp : p < s.selectionJ
          · exact le_trans (le_of_lt c) (hmin p hp1 hp)
          · have : p = s.selectionJ := by omega
            subst this
            exact le_refl _
        · by_cases hp : p < s.selectionJ
          · exact hmin p hp1 hp
          · have : p = s.selectionJ := by omega
            subst this
            exact not_lt.mp c
      · simp only [selectionMeasure, hd, hI, hJ]
        omega
  have hjn : s.selectionJ = s.data.length := by omega
  by_cases h3 : s.selectionMin = s.selectionI
  · refine ⟨selectionStay s, true, stepSelectionSort_stay (by rw [e1]; exact h1) h2 h3,
      ?_, ?_, by simp⟩
    · simp [selectionStay, highlightSorted_eq]
    · intro _
      have hd : (selectionStay s).data = s.data := rfl
      have hI : (selectionStay s).selectionI = s.selectionI + 1 := e4
      have hJ : (selectionStay s).selectionJ = s.selectionI + 2 := e5
      have hM : (selectionStay s).selectionMin = s.selectionI + 1 := e4
      have hB : (selectionStay s).bars.length = s.bars.length := by
        simp [selectionStay, highlightSorted_eq]
      refine ⟨⟨by rw [hd]; exact hn, by rw [hB, hd]; exact hb, by rw [hd, hI]; omega,
        by rw [hI, hM], by rw [hd, hM]; omega, by rw [hI, hJ]; omega,
        by rw [hd, hJ]; omega, ?_, ?_⟩, ?_⟩
      · rw [hd, hI]
        intro p q hpq hp hq
        by_cases hp2 : p < s.selectionI
        · exact ha p q hpq hp2 hq
        · have : p = s.selectionI := by omega
          subst this
          rw [← h3]
          exact hmin q (by omega) (by omega)
      · rw [hd, hI, hJ, hM]
        intro p hp1 hp2
        have : p = s.selectionI + 1 := by omega
        subst this
        exact le_refl _
      · simp only [selectionMeasure, hd, hI, hJ]
        obtain ⟨a, ha2⟩ : ∃ a, s.data.length - 1 - s.selectionI = a + 1 :=
          ⟨s.data.length - 1 - s.selectionI - 1, by omega⟩
        have : s.data.length - 1 - (s.selectionI + 1) = a := by omega
        rw [this, ha2, Nat.succ_mul]
        omega
  · have hil : s.selectionI < s.data.length := by omega
    refine ⟨selectionPlace s, true,
      stepSelectionSort_place (by rw [e1]; exact h1) h2 h3 hil hm (by omega) (by omega),
      ?_, ?_, by simp⟩
    · exact swapAt_perm _ _ _ hil hm
    · intro _
      have hd : (selectionPlace s).data = swapAt s.data s.selectionI s.selectionMin := rfl
      have hI : (selectionPlace s).selectionI = s.selectionI + 1 := e4
      have hJ : (selectionPlace s).selectionJ = s.selectionI + 2 := e5
      have hM : (selectionPlace s).selectionMin = s.selectionI + 1 := e4
      have hB : (selectionPlace s).bars.length = s.bars.length := by
        simp [selectionPlace, highlightSorted_eq, highlightSwap_eq]
      have hg := getD_swapAt s.data hil hm
      refine ⟨⟨by rw [hd, length_swapAt]; exact hn, by rw [hB, hd, length_swapAt]; exact hb,
        by rw [hd, hI, length_swapAt]; omega, by rw [hI, hM],
        by rw [hd, hM, length_swapAt]; omega, by rw [hI, hJ]; omega,
        by rw [hd, hJ, length_swapAt]; omega, ?_, ?_⟩, ?_⟩
      · rw [hd, hI, length_swapAt]
        intro p q hpq hp hq
        have hq2 : s.data.getD s.selectionMin 0 ≤ (swapAt s.data s.selectionI s.selectionMin).getD q 0
            ∨ q < s.selectionI := by
          by_cases hqi : q < s.selectionI
          · exact Or.inr hqi
          · left
            rw [hg q]
            split_ifs
            · exact hmin _ (le_refl _) (by omega)
            · exact le_refl _
            · exact hmin q (by omega) (by omega)
        by_cases hp2 : p < s.selectionI
        · have hp3 : (swapAt s.data s.selectionI s.selectionMin).getD p 0 = s.data.getD p 0 := by
            rw [hg p, if_neg (by omega), if_neg (by omega)]
          rw [hp3, hg q]
          split_ifs
          · exact ha p _ hp2 hp2 hil
          · exact ha p _ (by omega) hp2 hm
          · exact ha p q hpq hp2 hq
        · have : p = s.selectionI := by omega
          subst this
          have hp3 : (swapAt s.data s.selectionI s.selectionMin).getD s.selectionI 0 =
              s.data.getD s.selectionMin 0 := by
            rw [hg s.selectionI, if_neg (Ne.symm h3), if_pos rfl]
          rw [hp3]
          rcases hq2 with h | h
          · exact h
          · omega
      · rw [hd, hI, hJ, hM]
        intro p hp1 hp2
        have : p = s.selectionI + 1 := by omega
        subst this
        exact le_refl _
      · simp only [selectionMeasure, hd, hI, hJ, length_swapAt]
        obtain ⟨a, ha2⟩ : ∃ a, s.data.length - 1 - s.selectionI = a + 1 :=
          ⟨s.data.length - 1 - s.selectionI - 1, by omega⟩
        have : s.data.length - 1 - (s.selectionI + 1) = a := by omega
        rw [this, ha2, Nat.succ_mul]
        omega

/-! ## Quick sort -/

theorem stepQuickSort_done {s : Visualizer} (h : s.quickSortState.stack = []) :
    stepQuickSort s = some (s, false) := by
  simp [stepQuickSort, h]

theorem getLast?_of_eq_append {st rest : List (Int × Int)} {top : Int × Int}
    (h : st = rest ++ [top]) : st.getLast? = some top := by
  rw [h]
  simp

theorem stepQuickSort_pop {s : Visualizer} {rest : List (Int × Int)} {top : Int × Int}
    (hst : s.quickSortState.stack = rest ++ [top])
    (hp : s.quickSortState.partitioning = false) (h : ¬ top.1 < top.2) :
    stepQuickSort s = some (quickPop top s, true) := by
  unfold stepQuickSort
  dsimp only
  rw [if_neg (by simp [hst]), if_pos (by simp [hp]), getLast?_of_eq_append hst]
  dsimp only
  rw [if_neg h]
  rfl

theorem stepQuickSort_begin {s : Visualizer} {rest : List (Int × Int)} {top : Int × Int}
    (hst : s.quickSortState.stack = rest ++ [top])
    (hp : s.quickSortState.partitioning = false) (h : top.1 < top.2)
    (hr : toSize top.2 < s.data.length) :
    stepQuickSort s = some (quickBegin top (s.data.getD (toSize top.2) 0) s, true) := by
  unfold stepQuickSort
  dsimp only
  rw [if_neg (by simp [hst]), if_pos (by simp [hp]), getLast?_of_eq_append hst]
  dsimp only
  rw [if_pos h, getElem?_eq_some_getD hr]
  rfl

theorem stepQuickSort_begin_none {s : Visualizer} {rest : List (Int × Int)} {top : Int × Int}
    (hst : s.quickSortState.stack = rest ++ [top])
    (hp : s.quickSortState.partitioning = false) (h : top.1 < top.2)
    (hr : ¬ toSize top.2 < s.data.length) :
    stepQuickSort s = none := by
  unfold stepQuickSort
  dsimp only
  rw [if_neg (by simp [hst]), if_pos (by simp [hp]), getLast?_of_eq_append hst]
  dsimp only
  rw [if_pos h, List.getElem?_eq_none (not_lt.mp hr)]

theorem stepQuickSort_keep {s : Visualizer} (hst : s.quickSortState.stack ≠ [])
    (hp : s.quickSortState.partitioning = true)
    (h : s.quickSortState.j ≤ s.quickSortState.high - 1)
    (hj : toSize s.quickSortState.j < s.data.length)
    (hge : ¬ s.data.getD (toSize s.quickSortState.j) 0 < s.quickSortState.pivot) :
    stepQuickSort s = some (quickKeep s, true) := by
  unfold stepQuickSort
  dsimp only [highlightCompare_eq]
  rw [if_neg (by simpa using hst), if_neg (by simp [hp]), if_pos h, getElem?_eq_some_getD hj]
  dsimp only
  rw [if_neg hge]
  rfl

theorem stepQuickSort_exchange {s : Visualizer} (hst : s.quickSortState.stack ≠ [])
    (hp : s.quickSortState.partitioning = true)
    (h : s.quickSortState.j ≤ s.quickSortState.high - 1)
    (hj : toSize s.quickSortState.j < s.data.length)
    (hlt : s.data.getD (toSize s.quickSortState.j) 0 < s.quickSortState.pivot)
    (hi : toSize (s.quickSortState.i + 1) < s.data.length)
    (hbi : toSize (s.quickSortState.i + 1) < s.bars.length)
    (hbj : toSize s.quickSortState.j < s.bars.length) :
    stepQuickSort s = some (quickExchange s, true) := by
  unfold stepQuickSort
  dsimp only [highlightCompare_eq]
  rw [if_neg (by simpa using hst), if_neg (by simp [hp]), if_pos h, getElem?_eq_some_getD hj]
  dsimp only
  rw [if_pos hlt, swapElements_of_lt (by simpa using hi) (by simpa using hj)
    (by simpa using hbi) (by simpa using hbj)]
  rfl

theorem stepQuickSort_exchange_none {s : Visualizer} (hst : s.quickSortState.stack ≠ [])
    (hp : s.quickSortState.partitioning = true)
    (h : s.quickSortState.j ≤ s.quickSortState.high - 1)
    (hj : toSize s.quickSortState.j < s.data.length)
    (hlt : s.data.getD (toSize s.quickSortState.j) 0 < s.quickSortState.pivot)
    (hb : ¬ (toSize (s.quickSortState.i + 1) < s.data.length ∧
        toSize s.quickSortState.j < s.data.length) ∨
      ¬ (toSize (s.quickSortState.i + 1) < s.bars.length ∧
        toSize s.quickSortState.j < s.bars.length)) :
    stepQuickSort s = none := by
  unfold stepQuickSort
  dsimp only [highlightCompare_eq]
  rw [if_neg (by simpa using hst), if_neg (by simp [hp]), if_pos h, getElem?_eq_some_getD hj]
  dsimp only
  rw [if_pos hlt, swapElements_of_not_lt (by simpa using hb)]

theorem stepQuickSort_scan_none {s : Visualizer} (hst : s.quickSortState.stack ≠ [])
    (hp : s.quickSortState.partitioning = true)
    (h : s.quickSortState.j ≤ s.quickSortState.high - 1)
    (hj : ¬ toSize s.quickSortState.j < s.data.length) :
    stepQuickSort s = none := by
  unfold stepQuickSort
  dsimp only [highlightCompare_eq]
  rw [if_neg (by simpa using hst), if_neg (by simp [hp]), if_pos h,
    List.getElem?_eq_none (not_lt.mp hj)]

theorem stepQuickSort_place {s : Visualizer} (hst : s.quickSortState.stack ≠ [])
    (hp : s.quickSortState.partitioning = true)
    (h : ¬ s.quickSortState.j ≤ s.quickSortState.high - 1)
    (hi : toSize (s.quickSortState.i + 1) < s.data.length)
    (hh : toSize s.quickSortState.high < s.data.length)
    (hbi : toSize (s.quickSortState.i + 1) < s.bars.length)
    (hbh : toSize s.quickSortState.high < s.bars.length) :
    stepQuickSort s = some (quickPlace s, true) := by
  unfold stepQuickSort
  dsimp only
  rw [if_neg (by simpa using hst), if_neg (by simp [hp]), if_neg h,
    swapElements_of_lt hi hh hbi hbh]
  rfl

theorem stepQuickSort_place_none {s : Visualizer} (hst : s.quickSortState.stack ≠ [])
    (hp : s.quickSortState.partitioning = true)
    (h : ¬ s.quickSortState.j ≤ s.quickSortState.high - 1)
    (hb : ¬ (toSize (s.quickSortState.i + 1) < s.data.length ∧
        toSize s.quickSortState.high < s.data.length) ∨
      ¬ (toSize (s.quickSortState.i + 1) < s.bars.length ∧
        toSize s.quickSortState.high < s.bars.length)) :
    stepQuickSort s = none := by
  unfold stepQuickSort
  dsimp only
  rw [if_neg (by simpa using hst), if_neg (by simp [hp]), if_neg h,
    swapElements_of_not_lt hb]

/-- Every defined result of `stepQuickSort` is one of its six outcomes. -/
theorem stepQuickSort_cases {s s1 : Visualizer} {b : Bool}
    (h : stepQuickSort s = some (s1, b)) :
    (b = false ∧ s1 = s ∧ s.quickSortState.stack = []) ∨
    (b = true ∧ s.quickSortState.partitioning = false ∧
      ∃ rest top, s.quickSortState.stack = rest ++ [top] ∧ ¬ top.1 < top.2 ∧
        s1 = quickPop top s) ∨
    (b = true ∧ s.quickSortState.partitioning = false ∧
      ∃ rest top, s.quickSortState.stack = rest ++ [top] ∧ top.1 < top.2 ∧
        toSize top.2 < s.data.length ∧
        s1 = quickBegin top (s.data.getD (toSize top.2) 0) s) ∨
    (b = true ∧ s1 = quickKeep s ∧ s.quickSortState.stack ≠ [] ∧
      s.quickSortState.partitioning = true ∧
      s.quickSortState.j ≤ s.quickSortState.high - 1 ∧
      toSize s.quickSortState.j < s.data.length ∧
      ¬ s.data.getD (toSize s.quickSortState.j) 0 < s.quickSortState.pivot) ∨
    (b = true ∧ s1 = quickExchange s ∧ s.quickSortState.stack ≠ [] ∧
      s.quickSortState.partitioning = true ∧
      s.quickSortState.j ≤ s.quickSortState.high - 1 ∧
      toSize s.quickSortState.j < s.data.length ∧
      s.data.getD (toSize s.quickSortState.j) 0 < s.quickSortState.pivot ∧
      toSize (s.quickSortState.i + 1) < s.data.length ∧
      toSize (s.quickSortState.i + 1) < s.bars.length ∧
      toSize s.quickSortState.j < s.bars.length) ∨
    (b = true ∧ s1 = quickPlace s ∧ s.quickSortState.stack ≠ [] ∧
      s.quickSortState.partitioning = true ∧
      ¬ s.quickSortState.j ≤ s.quickSortState.high - 1 ∧
      toSize (s.quickSortState.i + 1) < s.data.length ∧
      toSize s.quickSortState.high < s.data.length ∧
      toSize (s.quickSortState.i + 1) < s.bars.length ∧
      toSize s.quickSortState.high < s.bars.length) := by
  by_cases hst : s.quickSortState.stack = []
  · rw [stepQuickSort_done hst] at h
    simp only [Option.some.injEq, Prod.mk.injEq] at h
    exact Or.inl ⟨h.2.symm, h.1.symm, hst⟩
  rcases Bool.eq_false_or_eq_true s.quickSortState.partitioning with hp | hp
  swap
  · obtain ⟨rest, top, hrt⟩ : ∃ rest top, s.quickSortState.stack = rest ++ [top] :=
      ⟨_, _, (List.dropLast_append_getLast hst).symm⟩
    by_cases hlt : top.1 < top.2
    · by_cases hr : toSize top.2 < s.data.length
      · rw [stepQuickSort_begin hrt hp hlt hr] at h
        simp only [Option.some.injEq, Prod.mk.injEq] at h
        exact Or.inr (Or.inr (Or.inl ⟨h.2.symm, hp, rest, top, hrt, hlt, hr, h.1.symm⟩))
      · rw [stepQuickSort_begin_none hrt hp hlt hr] at h
        cases h
    · rw [stepQuickSort_pop hrt hp hlt] at h
      simp only [Option.some.injEq, Prod.mk.injEq] at h
      exact Or.inr (Or.inl ⟨h.2.symm, hp, rest, top, hrt, hlt, h.1.symm⟩)
  · by_cases hj : s.quickSortState.j ≤ s.quickSortState.high - 1
    · by_cases hjl : toSize s.quickSortState.j < s.data.length
      · by_cases hlt : s.data.getD (toSize s.quickSortState.j) 0 < s.quickSortState.pivot
        · by_cases hb : (toSize (s.quickSortState.i + 1) < s.data.length ∧
              toSize s.quickSortState.j < s.data.length) ∧
              (toSize (s.quickSortState.i + 1) < s.bars.length ∧
              toSize s.quickSortState.j < s.bars.length)
          · rw [stepQuickSort_exchange hst hp hj hjl hlt hb.1.1 hb.2.1 hb.2.2] at h
            simp only [Option.some.injEq, Prod.mk.injEq] at h
            exact Or.inr (Or.inr (Or.inr (Or.inr (Or.inl
              ⟨h.2.symm, h.1.symm, hst, hp, hj, hjl, hlt, hb.1.1, hb.2.1, hb.2.2⟩))))
          · rw [stepQuickSort_exchange_none hst hp hj hjl hlt (not_and_or.mp hb)] at h
            cases h
        · rw [stepQuickSort_keep hst hp hj hjl hlt] at h
          simp only [Option.some.injEq, Prod.mk.injEq] at h
          exact Or.inr (Or.inr (Or.inr (Or.inl ⟨h.2.symm, h.1.symm, hst, hp, hj, hjl, hlt⟩)))
      · rw [stepQuickSort_scan_none hst hp hj hjl] at h
        cases h
    · by_cases hb : (toSize (s.quickSortState.i + 1) < s.data.length ∧
          toSize s.quickSortState.high < s.data.length) ∧
          (toSize (s.quickSortState.i + 1) < s.bars.length ∧
          toSize s.quickSortState.high < s.bars.length)
      · rw [stepQuickSort_place hst hp hj hb.1.1 hb.1.2 hb.2.1 hb.2.2] at h
        simp only [Option.some.injEq, Prod.mk.injEq] at h
        exact Or.inr (Or.inr (Or.inr (Or.inr (Or.inr
          ⟨h.2.symm, h.1.symm, hst, hp, hj, hb.1.1, hb.1.2, hb.2.1, hb.2.2⟩))))
      · rw [stepQuickSort_place_none hst hp hj (not_and_or.mp hb)] at h
        cases h

/-! ## Claims C1 to C3: the runs of the three state machines -/

/-- C1. Bubble sort: for every dataset of length `n ≥ 1` (a vector, so `n < 2 ^ 64`, with one
bar per element), starting from `bubbleI = 0`, `bubbleJ = 0`, calling `stepBubbleSort` until it
returns `false` succeeds within `n * (n + 1)` calls, and the dataset is then sorted ascending:
`data[k] ≤ data[k + 1]` for every `k < n - 1`. -/
theorem bubble_sort_sorts (s : Visualizer) (fuel : Nat)
    (hn : 1 ≤ s.data.length) (hlt : s.data.length < SIZE_MOD)
    (hb : s.bars.length = s.data.length) (hi : s.bubbleI = 0) (hj : s.bubbleJ = 0)
    (hfuel : s.data.length * (s.data.length + 1) ≤ fuel) :
    ∃ s1, runUntilDone stepBubbleSort fuel s = some s1 ∧
      ∀ k, k < s1.data.length - 1 → s1.data.getD k 0 ≤ s1.data.getD (k + 1) 0 := by
  have hinv : BubbleInv s := by
    refine ⟨hlt, hb, by omega, by omega, ?_, ?_⟩
    · intro p q _ h1 h2
      omega
    · intro p hp
      have : p = s.bubbleJ := by omega
      rw [this]
  have hm : bubbleMeasure s < fuel := by
    refine lt_of_lt_of_le ?_ hfuel
    simp only [bubbleMeasure, hi, hj, Nat.sub_zero]
    obtain ⟨m, hm⟩ : ∃ m, s.data.length = m + 1 := ⟨s.data.length - 1, by omega⟩
    rw [hm, Nat.succ_mul]
    simp only [Nat.add_sub_cancel]
    omega
  refine runUntilDone_of_measure stepBubbleSort BubbleInv (fun t => SortedAsc t.data)
    bubbleMeasure ?_ fuel s hinv hm
  intro t ht
  obtain ⟨t1, b, e, _, h1, h2⟩ := bubble_step ht
  exact ⟨t1, b, e, h1, fun hb => (h2 hb).2⟩

/-- Witness for C1 on the dataset `[5, 3, 1]`. -/
theorem bubble_sort_sorts_witness :
    (1 ≤ (construct [5, 3, 1]).data.length ∧ (construct [5, 3, 1]).bubbleI = 0 ∧
      (construct [5, 3, 1]).bubbleJ = 0) ∧
    ∃ s1, runUntilDone stepBubbleSort 12 (construct [5, 3, 1]) = some s1 ∧
      ∀ k, k < s1.data.length - 1 → s1.data.getD k 0 ≤ s1.data.getD (k + 1) 0 :=
  ⟨by decide, bubble_sort_sorts (construct [5, 3, 1]) 12 (by decide) (by decide) (by decide)
    (by decide) (by decide) (by decide)⟩

/-- C2. Selection sort: for every dataset of length `n ≥ 1` (a vector, so `n < 2 ^ 64`, with
one bar per element), starting from `selectionI = 0`, `selectionJ = 0`, `selectionMin = 0`,
calling `stepSelectionSort` until it returns `false` succeeds within `(n + 1) * (n + 2)` calls,
and the dataset is then sorted ascending; in particular `[2, 1, 3]` ends as `[1, 2, 3]`. -/
theorem selection_sort_sorts (s : Visualizer) (fuel : Nat)
    (hn : 1 ≤ s.data.length) (hlt : s.data.length < SIZE_MOD)
    (hb : s.bars.length = s.data.length) (hi : s.selectionI = 0) (hj : s.selectionJ = 0)
    (hmin : s.selectionMin = 0)
    (hfuel : (s.data.length + 1) * (s.data.length + 2) ≤ fuel) :
    (∃ s1, runUntilDone stepSelectionSort fuel s = some s1 ∧
      ∀ k, k < s1.data.length - 1 → s1.data.getD k 0 ≤ s1.data.getD (k + 1) 0) ∧
    (runUntilDone stepSelectionSort 20 (construct [2, 1, 3])).map (fun t => t.data)
      = some [1, 2, 3] := by
  refine ⟨?_, by decide⟩
  have hinv : SelectionInv s := by
    refine ⟨hlt, hb, by omega, by omega, by omega, by omega, by omega, ?_, ?_⟩
    · intro p q _ h1 h2
      omega
    · intro p _ hp
      omega
  have hm : selectionMeasure s < fuel := by
    refine lt_of_lt_of_le ?_ hfuel
    simp only [selectionMeasure, hi, hj, Nat.sub_zero]
    obtain ⟨m, hm⟩ : ∃ m, s.data.length = m + 1 := ⟨s.data.length - 1, by omega⟩
    rw [hm, Nat.succ_mul (m + 1)]
    simp only [Nat.add_sub_cancel]
    have : m * (m + 1 + 2) ≤ (m + 1) * (m + 1 + 2) := Nat.mul_le_mul_right _ (by omega)
    omega
  refine runUntilDone_of_measure stepSelectionSort SelectionInv (fun t => SortedAsc t.data)
    selectionMeasure ?_ fuel s hinv hm
  intro t ht
  obtain ⟨t1, b, e, _, h1, h2⟩ := selection_step ht
  exact ⟨t1, b, e, h1, fun hb => (h2 hb).2⟩

/-- Witness for C2 on the dataset `[2, 1, 3]`. -/
theorem selection_sort_sorts_witness :
    (1 ≤ (construct [2, 1, 3]).data.length ∧ (construct [2, 1, 3]).selectionI = 0 ∧
      (construct [2, 1, 3]).selectionJ = 0 ∧ (construct [2, 1, 3]).selectionMin = 0) ∧
    (∃ s1, runUntilDone stepSelectionSort 20 (construct [2, 1, 3]) = some s1 ∧
      ∀ k, k < s1.data.length - 1 → s1.data.getD k 0 ≤ s1.data.getD (k + 1) 0) ∧
    (runUntilDone stepSelectionSort 20 (construct [2, 1, 3])).map (fun t => t.data)
      = some [1, 2, 3] :=
  ⟨by decide, selection_sort_sorts (construct [2, 1, 3]) 20 (by decide) (by decide) (by decide)
    (by decide) (by decide) (by decide) (by decide)⟩

/-- C3 at the failing input `[2, 1]`: with quick sort selected and started, the first tick pops
the range `(0, 1)` and sets `partitioning` with an empty stack; the second call of
`stepQuickSort` finds the stack empty and returns `false` before any comparison or swap, so
the run ends after two ticks with the dataset still `[2, 1]`, which is not sorted. -/
theorem quick_sort_stops_unsorted :
    (∃ t, stepQuickSort (startSorting
        { construct [2, 1] with currentAlgorithm := Algorithm.QUICK_SORT }) = some (t, true) ∧
      t.quickSortState.partitioning = true ∧ t.quickSortState.stack = [] ∧
      stepQuickSort t = some (t, false)) ∧
    (ticks 2 (startSorting { construct [2, 1] with currentAlgorithm := Algorithm.QUICK_SORT })).map
      (fun t => (t.isSorting, t.data, t.comparisons, t.swaps)) = some (false, [2, 1], 0, 0) ∧
    ¬ SortedAsc [2, 1] := by
  refine ⟨⟨_, rfl, by decide, by decide, by decide⟩, by decide, by decide⟩

/-! ## Frame properties of the step functions -/

theorem stepBubbleSort_frame {s s1 : Visualizer} {b : Bool}
    (h : stepBubbleSort s = some (s1, b)) :
    s1.currentAlgorithm = s.currentAlgorithm ∧ s1.isSorting = s.isSorting ∧
      s1.isPaused = s.isPaused ∧ s1.sortingSpeed = s.sortingSpeed := by
  rcases stepBubbleSort_cases h with ⟨_, rfl, _⟩ | ⟨_, rfl, _⟩ | ⟨_, rfl, _⟩ | ⟨_, rfl, _⟩ <;>
    exact ⟨rfl, rfl, rfl, rfl⟩

theorem stepSelectionSort_frame {s s1 : Visualizer} {b : Bool}
    (h : stepSelectionSort s = some (s1, b)) :
    s1.currentAlgorithm = s.currentAlgorithm ∧ s1.isSorting = s.isSorting ∧
      s1.isPaused = s.isPaused ∧ s1.sortingSpeed = s.sortingSpeed := by
  rcases stepSelectionSort_cases h with ⟨_, rfl, _⟩ | ⟨_, rfl, _⟩ | ⟨_, rfl, _⟩ | ⟨_, rfl, _⟩ <;>
    exact ⟨rfl, rfl, rfl, rfl⟩

theorem stepQuickSort_frame {s s1 : Visualizer} {b : Bool}
    (h : stepQuickSort s = some (s1, b)) :
    s1.currentAlgorithm = s.currentAlgorithm ∧ s1.isSorting = s.isSorting ∧
      s1.isPaused = s.isPaused ∧ s1.sortingSpeed = s.sortingSpeed := by
  rcases stepQuickSort_cases h with ⟨_, rfl, _⟩ | ⟨_, _, _, _, _, _, rfl⟩ |
    ⟨_, _, _, _, _, _, _, rfl⟩ | ⟨_, rfl, _⟩ | ⟨_, rfl, _⟩ | ⟨_, rfl, _⟩ <;>
    exact ⟨rfl, rfl, rfl, rfl⟩

theorem stepBubbleSort_perm {s s1 : Visualizer} {b : Bool}
    (h : stepBubbleSort s = some (s1, b)) :
    s1.data.Perm s.data ∧ s1.bars.length = s.bars.length := by
  rcases stepBubbleSort_cases h with ⟨_, rfl, _⟩ | ⟨_, rfl, _⟩ | ⟨_, rfl, _⟩ |
    ⟨_, rfl, _, _, h1, h2, _⟩
  · exact ⟨List.Perm.refl _, rfl⟩
  · exact ⟨List.Perm.refl _, by simp [bubblePassEnd, highlightSorted_eq]⟩
  · exact ⟨List.Perm.refl _, by simp [bubbleKeep, highlightCompare_eq]⟩
  · exact ⟨swapAt_perm _ _ _ h1 h2,
      by simp [bubbleExchange, highlightCompare_eq, highlightSwap_eq]⟩

theorem stepSelectionSort_perm {s s1 : Visualizer} {b : Bool}
    (h : stepSelectionSort s = some (s1, b)) :
    s1.data.Perm s.data ∧ s1.bars.length = s.bars.length := by
  rcases stepSelectionSort_cases h with ⟨_, rfl, _⟩ | ⟨_, rfl, _⟩ | ⟨_, rfl, _⟩ |
    ⟨_, rfl, _, _, _, h1, h2, _⟩
  · exact ⟨List.Perm.refl _, rfl⟩
  · exact ⟨List.Perm.refl _, by simp [selectionScan, highlightCompare_eq]⟩
  · exact ⟨List.Perm.refl _, by simp [selectionStay, highlightSorted_eq]⟩
  · exact ⟨swapAt_perm _ _ _ h1 h2,
      by simp [selectionPlace, highlightSorted_eq, highlightSwap_eq]⟩

theorem stepQuickSort_perm {s s1 : Visualizer} {b : Bool}
    (h : stepQuickSort s = some (s1, b)) :
    s1.data.Perm s.data ∧ s1.bars.length = s.bars.length := by
  rcases stepQuickSort_cases h with ⟨_, rfl, _⟩ | ⟨_, _, _, _, _, _, rfl⟩ |
    ⟨_, _, _, _, _, _, _, rfl⟩ | ⟨_, rfl, _⟩ | ⟨_, rfl, _, _, _, h2, _, h1, _⟩ |
    ⟨_, rfl, _, _, _, h1, h2, _⟩
  · exact ⟨List.Perm.refl _, rfl⟩
  · exact ⟨List.Perm.refl _, rfl⟩
  · exact ⟨List.Perm.refl _, rfl⟩
  · exact ⟨List.Perm.refl _, by simp [quickKeep, highlightCompare_eq]⟩
  · exact ⟨swapAt_perm _ _ _ h1 h2,
      by simp [quickExchange, highlightCompare_eq, highlightSwap_eq]⟩
  · exact ⟨swapAt_perm _ _ _ h1 h2, by simp [quickPlace, highlightSwap_eq]⟩

/-! ## The controller -/

theorem foldl_highlightSorted (l : List Nat) : ∀ s : Visualizer,
    (l.foldl (fun t i => highlightSorted i t) s).data = s.data ∧
    (l.foldl (fun t i => highlightSorted i t) s).bars.length = s.bars.length ∧
    (l.foldl (fun t i => highlightSorted i t) s).currentAlgorithm = s.currentAlgorithm ∧
    (l.foldl (fun t i => highlightSorted i t) s).isSorting = s.isSorting ∧
    (l.foldl (fun t i => highlightSorted i t) s).isPaused = s.isPaused ∧
    (l.foldl (fun t i => highlightSorted i t) s).comparisons = s.comparisons ∧
    (l.foldl (fun t i => highlightSorted i t) s).swaps = s.swaps := by
  induction l with
  | nil => intro s; simp
  | cons a l ih =>
    intro s
    simp only [List.foldl_cons]
    obtain ⟨h1, h2, h3, h4, h5, h6, h7⟩ := ih (highlightSorted a s)
    rw [h1, h2, h3, h4, h5, h6, h7]
    exact ⟨rfl, by simp [highlightSorted_eq], rfl, rfl, rfl, rfl, rfl⟩

theorem finishStep_props (s : Visualizer) (b : Bool) :
    (finishStep (s, b)).data = s.data ∧
    (finishStep (s, b)).bars.length = s.bars.length ∧
    (finishStep (s, b)).currentAlgorithm = s.currentAlgorithm ∧
    (finishStep (s, b)).isPaused = s.isPaused ∧
    (finishStep (s, b)).comparisons = s.comparisons ∧
    (finishStep (s, b)).swaps = s.swaps ∧
    (finishStep (s, b)).isSorting = (s.isSorting && b) := by
  cases b with
  | true => simp [finishStep]
  | false =>
    simp only [finishStep, Bool.not_false, if_true, markAllSorted, Bool.and_false]
    obtain ⟨h1, h2, h3, h4, h5, h6, h7⟩ := foldl_highlightSorted
      (List.range s.bars.length) { s with isSorting := false }
    exact ⟨h1, h2, h3, h5, h6, h7, h4⟩

theorem finishStep_true (s : Visualizer) : finishStep (s, true) = s := by
  simp [finishStep]

theorem stepAlgorithm_idle {s : Visualizer} (h : s.isSorting = false ∨ s.isPaused = true) :
    stepAlgorithm s = some s := by
  rcases h with h | h <;> simp [stepAlgorithm, h]

theorem stepAlgorithm_bubble {s : Visualizer} (h1 : s.isSorting = true)
    (h2 : s.isPaused = false) (ha : s.currentAlgorithm = Algorithm.BUBBLE_SORT) :
    stepAlgorithm s = (stepBubbleSort s).map finishStep := by
  simp [stepAlgorithm, h1, h2, ha]

theorem stepAlgorithm_quick {s : Visualizer} (h1 : s.isSorting = true)
    (h2 : s.isPaused = false) (ha : s.currentAlgorithm = Algorithm.QUICK_SORT) :
    stepAlgorithm s = (stepQuickSort s).map finishStep := by
  simp [stepAlgorithm, h1, h2, ha]

theorem stepAlgorithm_selection {s : Visualizer} (h1 : s.isSorting = true)
    (h2 : s.isPaused = false) (ha : s.currentAlgorithm = Algorithm.SELECTION_SORT) :
    stepAlgorithm s = (stepSelectionSort s).map finishStep := by
  simp [stepAlgorithm, h1, h2, ha]

theorem stepAlgorithm_merge {s : Visualizer} (h1 : s.isSorting = true)
    (h2 : s.isPaused = false) (ha : s.currentAlgorithm = Algorithm.MERGE_SORT) :
    stepAlgorithm s = some (finishStep (s, false)) := by
  simp [stepAlgorithm, h1, h2, ha]

theorem stepAlgorithm_none {s : Visualizer} (ha : s.currentAlgorithm = Algorithm.NONE) :
    stepAlgorithm s = some s := by
  simp [stepAlgorithm, ha]

theorem quick_fresh_step {s : Visualizer} (hs : QuickFreshInv s) :
    ∃ s1 b, stepQuickSort s = some (s1, b) ∧ s1.data = s.data ∧ s1.bars = s.bars ∧
      s1.comparisons = s.comparisons ∧ s1.swaps = s.swaps ∧ s1.log = s.log ∧
      s1.quickSortState.stack = [] := by
  rcases hs with h | ⟨hp, hi, hst, hr⟩
  · exact ⟨s, false, stepQuickSort_done h, rfl, rfl, rfl, rfl, rfl, h⟩
  · by_cases hlt : (0 : Int) < hi
    · refine ⟨_, true, stepQuickSort_begin hst hp hlt (hr hlt), rfl, rfl, rfl, rfl, rfl, ?_⟩
      simp [quickBegin, hst]
    · refine ⟨_, true, stepQuickSort_pop hst hp hlt, rfl, rfl, rfl, rfl, rfl, ?_⟩
      simp [quickPop, hst]

theorem runInv_step {s : Visualizer} (hs : RunInv s) :
    ∃ s1, stepAlgorithm s = some s1 ∧ RunInv s1 ∧ s1.data.Perm s.data ∧
      s1.currentAlgorithm = s.currentAlgorithm := by
  obtain ⟨hb, hn, hrun⟩ := hs
  by_cases hidle : s.isSorting = false ∨ s.isPaused = true
  · exact ⟨s, stepAlgorithm_idle hidle, ⟨hb, hn, hrun⟩, List.Perm.refl _, rfl⟩
  have h1 : s.isSorting = true := by
    cases h : s.isSorting
    · exact absurd (Or.inl h) hidle
    · rfl
  have h2 : s.isPaused = false := by
    cases h : s.isPaused
    · rfl
    · exact absurd (Or.inr h) hidle
  obtain ⟨hB, hS, hQ⟩ := hrun h1 h2
  have key : ∀ (s1 : Visualizer) (b : Bool), s1.data.Perm s.data →
      s1.bars.length = s.bars.length → s1.currentAlgorithm = s.currentAlgorithm →
      (b = true → s1.isSorting = true → s1.isPaused = false →
        (s1.currentAlgorithm = Algorithm.BUBBLE_SORT → BubbleInv s1) ∧
        (s1.currentAlgorithm = Algorithm.SELECTION_SORT → SelectionInv s1) ∧
        (s1.currentAlgorithm = Algorithm.QUICK_SORT → QuickFreshInv s1)) →
      RunInv (finishStep (s1, b)) ∧ (finishStep (s1, b)).data.Perm s.data ∧
        (finishStep (s1, b)).currentAlgorithm = s.currentAlgorithm := by
    intro s1 b hperm hbars halg hinv
    obtain ⟨f1, f2, f3, f4, _, _, f7⟩ := finishStep_props s1 b
    refine ⟨⟨by rw [f1, f2, hbars, hb, hperm.length_eq], by rw [f1, hperm.length_eq]; exact hn,
      ?_⟩, by rw [f1]; exact hperm, by rw [f3, halg]⟩
    intro g1 g2
    cases b with
    | false => simp [f7] at g1
    | true =>
      rw [finishStep_true] at g1 g2 ⊢
      exact hinv rfl g1 g2
  cases ha : s.currentAlgorithm with
  | BUBBLE_SORT =>
    obtain ⟨s1, b, e, hperm, ht, _⟩ := bubble_step (hB ha)
    obtain ⟨fa, _, _, _⟩ := stepBubbleSort_frame e
    refine ⟨finishStep (s1, b), by rw [stepAlgorithm_bubble h1 h2 ha, e]; rfl, ?_⟩
    rw [← ha]
    refine key s1 b hperm (stepBubbleSort_perm e).2 fa ?_
    intro hb1 _ _
    refine ⟨fun _ => (ht hb1).1, fun h => ?_, fun h => ?_⟩ <;>
    · rw [fa, ha] at h
      cases h
  | SELECTION_SORT =>
    obtain ⟨s1, b, e, hperm, ht, _⟩ := selection_step (hS ha)
    obtain ⟨fa, _, _, _⟩ := stepSelectionSort_frame e
    refine ⟨finishStep (s1, b), by rw [stepAlgorithm_selection h1 h2 ha, e]; rfl, ?_⟩
    rw [← ha]
    refine key s1 b hperm (stepSelectionSort_perm e).2 fa ?_
    intro hb1 _ _
    refine ⟨fun h => ?_, fun _ => (ht hb1).1, fun h => ?_⟩ <;>
    · rw [fa, ha] at h
      cases h
  | QUICK_SORT =>
    obtain ⟨s1, b, e, hd, hbar, _, _, _, hst⟩ := quick_fresh_step (hQ ha)
    obtain ⟨fa, _, _, _⟩ := stepQuickSort_frame e
    refine ⟨finishStep (s1, b), by rw [stepAlgorithm_quick h1 h2 ha, e]; rfl, ?_⟩
    rw [← ha]
    refine key s1 b (by rw [hd]) (by rw [hbar]) fa ?_
    intro _ _ _
    refine ⟨fun h => ?_, fun h => ?_, fun _ => Or.inl hst⟩ <;>
    · rw [fa, ha] at h
      cases h
  | MERGE_SORT =>
    refine ⟨finishStep (s, false), stepAlgorithm_merge h1 h2 ha, ?_⟩
    rw [← ha]
    exact key s false (List.Perm.refl _) rfl rfl (by simp)
  | NONE =>
    exact ⟨s, stepAlgorithm_none ha, ⟨hb, hn, hrun⟩, List.Perm.refl _, ha⟩

theorem runInv_ticks (k : Nat) : ∀ {s : Visualizer}, RunInv s →
    ∃ s1, ticks k s = some s1 ∧ RunInv s1 ∧ s1.data.Perm s.data ∧
      s1.currentAlgorithm = s.currentAlgorithm := by
  induction k with
  | zero =>
    intro s hs
    exact ⟨s, rfl, hs, List.Perm.refl _, rfl⟩
  | succ k ih =>
    intro s hs
    obtain ⟨s1, e1, i1, p1, a1⟩ := runInv_step hs
    obtain ⟨s2, e2, i2, p2, a2⟩ := ih i1
    exact ⟨s2, by simp [ticks, e1, e2], i2, p2.trans p1, a2.trans a1⟩

theorem runInv_startSorting {s : Visualizer} (hn : 1 ≤ s.data.length)
    (hlt : s.data.length < SIZE_MOD) (hb : s.bars.length = s.data.length)
    (hs : s.isSorting = false) :
    RunInv (startSorting s) ∧ (startSorting s).data = s.data := by
  by_cases ha : s.currentAlgorithm = Algorithm.NONE
  · have e : startSorting s = s := by simp [startSorting, ha]
    rw [e]
    exact ⟨⟨hb, hlt, fun h => by rw [hs] at h; cases h⟩, rfl⟩
  have e : startSorting s = resetAlgorithmStates
      { s with isSorting := true, isPaused := false, comparisons := 0, swaps := 0 } := by
    simp [startSorting, ha, hs]
  rw [e]
  refine ⟨⟨hb, hlt, fun _ _ => ⟨fun _ => ?_, fun _ => ?_, fun _ => ?_⟩⟩, rfl⟩
  · refine ⟨hlt, hb, hn, hn, ?_, ?_⟩
    · intro p q _ h1 h2
      simp only [resetAlgorithmStates] at h1 h2
      omega
    · intro p hp
      simp only [resetAlgorithmStates] at hp
      have : p = 0 := by omega
      subst this
      exact le_refl _
  · refine ⟨hlt, hb, hn, le_refl _, hn, le_refl _, Nat.zero_le _, ?_, ?_⟩
    · intro p q _ h1 _
      simp only [resetAlgorithmStates] at h1
      omega
    · intro p _ hp
      simp only [resetAlgorithmStates] at hp
      omega
  · refine Or.inr ⟨rfl, toInt (usub s.data.length 1), rfl, ?_⟩
    intro hpos
    show toSize (toInt (usub s.data.length 1)) < s.data.length
    have h1 := toInt_le (usub s.data.length 1)
    rw [usub_eq hn hlt] at h1 hpos ⊢
    rw [toSize_of_nonneg (le_of_lt hpos) (by simp only [SIZE_MOD] at hlt ⊢; omega)]
    omega

/-! ## Claims C4 and C5: the controller during a run -/

/-- C4. Permutation: for every state that is not running, with any algorithm selected (bubble,
quick, selection or merge), a dataset of length `n ≥ 1` (a vector, so `n < 2 ^ 64`, one bar per
element) and every `k`, the `k` ticks after `startSorting` are all defined and the dataset
after them has the same length and is a permutation of (has the same multiset of values as)
the dataset when the run started. -/
theorem fresh_run_permutation (s : Visualizer) (k : Nat)
    (hn : 1 ≤ s.data.length) (hlt : s.data.length < SIZE_MOD)
    (hb : s.bars.length = s.data.length) (hs : s.isSorting = false) :
    ∃ s1, ticks k (startSorting s) = some s1 ∧ s1.data.length = s.data.length ∧
      s1.data.Perm s.data ∧ (s1.data : Multiset Int) = (s.data : Multiset Int) := by
  obtain ⟨hinv, hd⟩ := runInv_startSorting hn hlt hb hs
  obtain ⟨s1, e, _, hp, _⟩ := runInv_ticks k hinv
  rw [hd] at hp
  exact ⟨s1, e, hp.length_eq, hp, Multiset.coe_eq_coe.mpr hp⟩

/-- Witness for C4: selection sort on `[3, 1, 2]`, five ticks after the start. -/
theorem fresh_run_permutation_witness :
    (1 ≤ [(3 : Int), 1, 2].length ∧
      ({ construct [3, 1, 2] with currentAlgorithm := Algorithm.SELECTION_SORT }).isSorting
        = false) ∧
    ∃ s1, ticks 5 (startSorting
        { construct [3, 1, 2] with currentAlgorithm := Algorithm.SELECTION_SORT }) = some s1 ∧
      s1.data.length = [(3 : Int), 1, 2].length ∧ s1.data.Perm [3, 1, 2] ∧
      (s1.data : Multiset Int) = (([3, 1, 2] : List Int) : Multiset Int) :=
  ⟨by decide, fresh_run_permutation
    { construct [3, 1, 2] with currentAlgorithm := Algorithm.SELECTION_SORT } 5
    (by decide) (by decide) (by decide) (by decide)⟩

theorem ticks_idle (m : Nat) {s : Visualizer} (h : s.isSorting = false ∨ s.isPaused = true) :
    ticks m s = some s := by
  induction m with
  | zero => rfl
  | succ m ih => simp [ticks, stepAlgorithm_idle h, ih]

theorem ticks_none (m : Nat) {s : Visualizer} (h : s.currentAlgorithm = Algorithm.NONE) :
    ticks m s = some s := by
  induction m with
  | zero => rfl
  | succ m ih => simp [ticks, stepAlgorithm_none h, ih]

/-- C5. Pause and resume are step-count-neutral: for every controller state that is running
and not paused and all `m` and `k`, after `startSorting` (pause) any `m` calls of
`stepAlgorithm` leave the state as it is, and a second `startSorting` (resume) followed by `k`
ticks gives exactly the state (dataset, cursors, counters and all other fields) that `k` ticks
give without the pause; a tick while paused or not running changes nothing. -/
theorem pause_resume_neutral (s : Visualizer) (m k : Nat)
    (hs : s.isSorting = true) (hp : s.isPaused = false) :
    ticks m (startSorting s) = some (startSorting s) ∧
    (ticks m (startSorting s)).bind (fun t => ticks k (startSorting t)) = ticks k s ∧
    ∀ t : Visualizer, t.isSorting = false ∨ t.isPaused = true → stepAlgorithm t = some t := by
  have h1 : ticks m (startSorting s) = some (startSorting s) := by
    by_cases ha : s.currentAlgorithm = Algorithm.NONE
    · exact ticks_none m (by simp [startSorting, ha])
    · exact ticks_idle m (Or.inr (by simp [startSorting, ha, hs, hp]))
  have h2 : startSorting (startSorting s) = s := by
    by_cases ha : s.currentAlgorithm = Algorithm.NONE
    · simp [startSorting, ha]
    · cases s
      simp only at hs hp ha
      simp [startSorting, ha, hs, hp]
  refine ⟨h1, ?_, fun t ht => stepAlgorithm_idle ht⟩
  rw [h1, Option.some_bind, h2]

/-- Witness for C5: bubble sort on `[5, 3, 1]`, paused after the start for four calls. -/
theorem pause_resume_neutral_witness :
    ((startSorting { construct [5, 3, 1] with currentAlgorithm := Algorithm.BUBBLE_SORT }).isSorting
        = true ∧
      (startSorting { construct [5, 3, 1] with currentAlgorithm := Algorithm.BUBBLE_SORT }).isPaused
        = false) ∧
    (ticks 4 (startSorting (startSorting
        { construct [5, 3, 1] with currentAlgorithm := Algorithm.BUBBLE_SORT })) =
      some (startSorting (startSorting
        { construct [5, 3, 1] with currentAlgorithm := Algorithm.BUBBLE_SORT })) ∧
    (ticks 4 (startSorting (startSorting
        { construct [5, 3, 1] with currentAlgorithm := Algorithm.BUBBLE_SORT }))).bind
        (fun t => ticks 2 (startSorting t)) =
      ticks 2 (startSorting
        { construct [5, 3, 1] with currentAlgorithm := Algorithm.BUBBLE_SORT }) ∧
    ∀ t : Visualizer, t.isSorting = false ∨ t.isPaused = true → stepAlgorithm t = some t) :=
  ⟨by decide, pause_resume_neutral
    (startSorting { construct [5, 3, 1] with currentAlgorithm := Algorithm.BUBBLE_SORT }) 4 2
    (by decide) (by decide)⟩

/-! ## Claims C6 and C7: counters -/

theorem stepAlgorithm_eq_activeStep (s : Visualizer) :
    stepAlgorithm s =
      if !s.isSorting || s.isPaused then some s else (activeStep s).map finishStep := by
  unfold stepAlgorithm activeStep
  split_ifs
  · rfl
  · cases s.currentAlgorithm <;> simp [finishStep_true]

theorem numCompare_append (a b : List Call) :
    numCompare (a ++ b) = numCompare a + numCompare b := by
  simp [numCompare, List.countP_append]

theorem numSwap_append (a b : List Call) : numSwap (a ++ b) = numSwap a + numSwap b := by
  simp [numSwap, List.countP_append]

/-- What one call of `stepBubbleSort` records and counts: the calls it appends to the log, and
the counters as so many increments of an `int`. -/
theorem stepBubbleSort_log {s s1 : Visualizer} {b : Bool}
    (h : stepBubbleSort s = some (s1, b)) :
    ∃ calls, s1.log = s.log ++ calls ∧
      s1.comparisons = incInt^[numCompare calls] s.comparisons ∧
      s1.swaps = incInt^[numSwap calls] s.swaps ∧
      numCompare calls ≤ 1 ∧ numSwap calls ≤ 1 ∧
      (b = false → s1 = s) := by
  rcases stepBubbleSort_cases h with ⟨hb, rfl, _⟩ | ⟨hb, rfl, _⟩ | ⟨hb, rfl, _⟩ | ⟨hb, rfl, _⟩
  · exact ⟨[], by simp, rfl, rfl, by decide, by decide, fun _ => rfl⟩
  · exact ⟨[Call.highlightSorted (usub (usub s.data.length s.bubbleI) 1)], rfl, rfl, rfl,
      Nat.zero_le _, Nat.zero_le _, by simp [hb]⟩
  · exact ⟨[Call.highlightCompare s.bubbleJ (uadd s.bubbleJ 1)], rfl, rfl, rfl,
      le_refl _, Nat.zero_le _, by simp [hb]⟩
  · exact ⟨[Call.highlightCompare s.bubbleJ (uadd s.bubbleJ 1),
        Call.swapElements s.bubbleJ (uadd s.bubbleJ 1),
        Call.highlightSwap s.bubbleJ (uadd s.bubbleJ 1)],
      by simp [bubbleExchange, highlightSwap_eq], rfl, rfl, le_refl _, le_refl _, by simp [hb]⟩

/-- What one call of `stepQuickSort` records and counts. -/
theorem stepQuickSort_log {s s1 : Visualizer} {b : Bool}
    (h : stepQuickSort s = some (s1, b)) :
    ∃ calls, s1.log = s.log ++ calls ∧
      s1.comparisons = incInt^[numCompare calls] s.comparisons ∧
      s1.swaps = incInt^[numSwap calls] s.swaps ∧
      numCompare calls ≤ 1 ∧ numSwap calls ≤ 1 ∧
      (b = false → s1 = s) := by
  rcases stepQuickSort_cases h with ⟨hb, rfl, _⟩ | ⟨hb, _, _, _, _, _, rfl⟩ |
    ⟨hb, _, _, _, _, _, _, rfl⟩ | ⟨hb, rfl, _⟩ | ⟨hb, rfl, _⟩ | ⟨hb, rfl, _⟩
  · exact ⟨[], by simp, rfl, rfl, by decide, by decide, fun _ => rfl⟩
  · exact ⟨[], by simp [quickPop], rfl, rfl, by decide, by decide, by simp [hb]⟩
  · exact ⟨[], by simp [quickBegin], rfl, rfl, by decide, by decide, by simp [hb]⟩
  · exact ⟨[Call.highlightCompare (toSize s.quickSortState.j) (toSize s.quickSortState.high)],
      rfl, rfl, rfl, le_refl _, Nat.zero_le _, by simp [hb]⟩
  · exact ⟨[Call.highlightCompare (toSize s.quickSortState.j) (toSize s.quickSortState.high),
        Call.swapElements (toSize (s.quickSortState.i + 1)) (toSize s.quickSortState.j),
        Call.highlightSwap (toSize (s.quickSortState.i + 1)) (toSize s.quickSortState.j)],
      by simp [quickExchange, highlightSwap_eq], rfl, rfl, le_refl _, le_refl _, by simp [hb]⟩
  · exact ⟨[Call.swapElements (toSize (s.quickSortState.i + 1)) (toSize s.quickSortState.high),
        Call.highlightSwap (toSize (s.quickSortState.i + 1)) (toSize s.quickSortState.high)],
      by simp [quickPlace, highlightSwap_eq], rfl, rfl, Nat.zero_le _, le_refl _, by simp [hb]⟩

/-- What one call of `stepSelectionSort` records and counts. -/
theorem stepSelectionSort_log {s s1 : Visualizer} {b : Bool}
    (h : stepSelectionSort s = some (s1, b)) :
    ∃ calls, s1.log = s.log ++ calls ∧
      s1.comparisons = incInt^[numCompare calls] s.comparisons ∧
      s1.swaps = incInt^[numSwap calls] s.swaps ∧
      numCompare calls ≤ 1 ∧ numSwap calls ≤ 1 ∧
      (b = false → s1 = s) := by
  rcases stepSelectionSort_cases h with ⟨hb, rfl, _⟩ | ⟨hb, rfl, _⟩ | ⟨hb, rfl, _⟩ |
    ⟨hb, rfl, _⟩
  · exact ⟨[], by simp, rfl, rfl, by decide, by decide, fun _ => rfl⟩
  · exact ⟨[Call.highlightCompare s.selectionJ s.selectionMin], rfl, rfl, rfl,
      le_refl _, Nat.zero_le _, by simp [hb]⟩
  · exact ⟨[Call.highlightSorted s.selectionI], rfl, rfl, rfl, Nat.zero_le _,
      Nat.zero_le _, by simp [hb]⟩
  · exact ⟨[Call.swapElements s.selectionI s.selectionMin,
        Call.highlightSwap s.selectionI s.selectionMin, Call.highlightSorted s.selectionI],
      by simp [selectionPlace, highlightSwap_eq, highlightSorted_eq], rfl, rfl,
      Nat.zero_le _, le_refl _, by simp [hb]⟩

/-- What one call of a step function records and counts: the calls it appends to the log,
and the counters in terms of them. -/
theorem activeStep_log {s s1 : Visualizer} {b : Bool} (h : activeStep s = some (s1, b)) :
    ∃ calls, s1.log = s.log ++ calls ∧
      s1.comparisons = incInt^[numCompare calls] s.comparisons ∧
      s1.swaps = incInt^[numSwap calls] s.swaps ∧
      numCompare calls ≤ 1 ∧ numSwap calls ≤ 1 ∧
      (b = false → s1 = s) := by
  unfold activeStep at h
  cases ha : s.currentAlgorithm with
  | BUBBLE_SORT =>
    rw [ha] at h
    exact stepBubbleSort_log h
  | QUICK_SORT =>
    rw [ha] at h
    exact stepQuickSort_log h
  | SELECTION_SORT =>
    rw [ha] at h
    exact stepSelectionSort_log h
  | MERGE_SORT =>
    rw [ha] at h
    simp only [Option.some.injEq, Prod.mk.injEq] at h
    obtain ⟨rfl, rfl⟩ := h
    exact ⟨[], by simp, rfl, rfl, by decide, by decide, fun _ => rfl⟩
  | NONE =>
    rw [ha] at h
    simp only [Option.some.injEq, Prod.mk.injEq] at h
    obtain ⟨rfl, rfl⟩ := h
    exact ⟨[], by simp, rfl, rfl, by decide, by decide, fun _ => rfl⟩

theorem iterate_incInt_append (f : List Call → Nat)
    (hf : ∀ a b, f (a ++ b) = f a + f b) (a b : List Call) (x : Int) :
    incInt^[f b] (incInt^[f a] x) = incInt^[f (a ++ b)] x := by
  rw [hf, Nat.add_comm, Function.iterate_add_apply]

theorem foldl_highlightSorted_log (l : List Nat) : ∀ s : Visualizer,
    ∃ calls, (l.foldl (fun t i => highlightSorted i t) s).log = s.log ++ calls ∧
      numCompare calls = 0 ∧ numSwap calls = 0 := by
  induction l with
  | nil => intro s; exact ⟨[], by simp, rfl, rfl⟩
  | cons a l ih =>
    intro s
    obtain ⟨calls, h1, h2, h3⟩ := ih (highlightSorted a s)
    refine ⟨Call.highlightSorted a :: calls, ?_, ?_, ?_⟩
    · rw [List.foldl_cons, h1]
      show (s.log ++ [Call.highlightSorted a]) ++ calls = s.log ++ Call.highlightSorted a :: calls
      rw [List.append_assoc, List.singleton_append]
    · rw [← List.singleton_append, numCompare_append, h2]
      rfl
    · rw [← List.singleton_append, numSwap_append, h3]
      rfl

theorem finishStep_log (s : Visualizer) (b : Bool) :
    ∃ calls, (finishStep (s, b)).log = s.log ++ calls ∧
      numCompare calls = 0 ∧ numSwap calls = 0 := by
  cases b with
  | true => exact ⟨[], by simp [finishStep], rfl, rfl⟩
  | false =>
    simp only [finishStep, Bool.not_false, if_true, markAllSorted]
    exact foldl_highlightSorted_log _ _

theorem stepAlgorithm_log {s s1 : Visualizer} (h : stepAlgorithm s = some s1) :
    ∃ calls, s1.log = s.log ++ calls ∧
      s1.comparisons = incInt^[numCompare calls] s.comparisons ∧
      s1.swaps = incInt^[numSwap calls] s.swaps ∧
      numCompare calls ≤ 1 ∧ numSwap calls ≤ 1 := by
  rw [stepAlgorithm_eq_activeStep] at h
  split_ifs at h
  · simp only [Option.some.injEq] at h
    subst h
    exact ⟨[], by simp, rfl, rfl, by decide, by decide⟩
  · cases e : activeStep s with
    | none => rw [e] at h; cases h
    | some r =>
      obtain ⟨t, b⟩ := r
      rw [e] at h
      simp only [Option.map_some', Option.some.injEq] at h
      subst h
      obtain ⟨c1, l1, k1, w1, n1, m1, _⟩ := activeStep_log e
      obtain ⟨c2, l2, n2, m2⟩ := finishStep_log t b
      obtain ⟨_, _, _, _, f5, f6, _⟩ := finishStep_props t b
      refine ⟨c1 ++ c2, by rw [l2, l1, List.append_assoc], ?_, ?_, ?_, ?_⟩
      · rw [f5, k1, numCompare_append, n2, Nat.add_zero]
      · rw [f6, w1, numSwap_append, m2, Nat.add_zero]
      · rw [numCompare_append, n2]
        exact n1
      · rw [numSwap_append, m2]
        exact m1

theorem ticks_log (k : Nat) : ∀ {s s1 : Visualizer}, ticks k s = some s1 →
    ∃ calls, s1.log = s.log ++ calls ∧
      s1.comparisons = incInt^[numCompare calls] s.comparisons ∧
      s1.swaps = incInt^[numSwap calls] s.swaps ∧
      numCompare calls ≤ k ∧ numSwap calls ≤ k := by
  induction k with
  | zero =>
    intro s s1 h
    simp only [ticks, Option.some.injEq] at h
    subst h
    exact ⟨[], by simp, rfl, rfl, by decide, by decide⟩
  | succ k ih =>
    intro s s1 h
    simp only [ticks] at h
    cases e : stepAlgorithm s with
    | none => rw [e] at h; cases h
    | some t =>
      rw [e, Option.some_bind] at h
      obtain ⟨c1, l1, k1, w1, n1, m1⟩ := stepAlgorithm_log e
      obtain ⟨c2, l2, k2, w2, n2, m2⟩ := ih h
      refine ⟨c1 ++ c2, by rw [l2, l1, List.append_assoc], ?_, ?_, ?_, ?_⟩
      · rw [k2, k1, iterate_incInt_append numCompare numCompare_append]
      · rw [w2, w1, iterate_incInt_append numSwap numSwap_append]
      · rw [numCompare_append]
        omega
      · rw [numSwap_append]
        omega

/-- The log and the counters over a run of calls of one step function that all return
`true`. -/
theorem stepsTrue_log (step : Visualizer → Option (Visualizer × Bool))
    (hstep : ∀ u u1 b, step u = some (u1, b) →
      ∃ calls, u1.log = u.log ++ calls ∧
        u1.comparisons = incInt^[numCompare calls] u.comparisons ∧
        u1.swaps = incInt^[numSwap calls] u.swaps) :
    ∀ (k : Nat) (s t : Visualizer), stepsTrue step k s = some t →
      ∃ calls, t.log = s.log ++ calls ∧
        t.comparisons = incInt^[numCompare calls] s.comparisons ∧
        t.swaps = incInt^[numSwap calls] s.swaps := by
  intro k
  induction k with
  | zero =>
    intro s t h
    simp only [stepsTrue, Option.some.injEq] at h
    subst h
    exact ⟨[], by simp, rfl, rfl⟩
  | succ k ih =>
    intro s t h
    simp only [stepsTrue] at h
    cases e : step s with
    | none => rw [e] at h; cases h
    | some r =>
      obtain ⟨u, b⟩ := r
      rw [e] at h
      cases b with
      | false => cases h
      | true =>
        obtain ⟨c1, l1, k1, w1⟩ := hstep s u true e
        obtain ⟨c2, l2, k2, w2⟩ := ih u t h
        refine ⟨c1 ++ c2, by rw [l2, l1, List.append_assoc], ?_, ?_⟩
        · rw [k2, k1, iterate_incInt_append numCompare numCompare_append]
        · rw [w2, w1, iterate_incInt_append numSwap numSwap_append]

/-- C6, refuted as stated: in the bubble sort run on `[2, 1]` the first call of
`stepBubbleSort` returns `true` having made one comparison and one swap (the sum
`comparisons + swaps` goes from 0 to 2), and the second call returns `true` having made
neither (the sum stays 2). -/
theorem one_operation_per_step_counterexample :
    ∃ t u, stepBubbleSort (startSorting
        { construct [2, 1] with currentAlgorithm := Algorithm.BUBBLE_SORT }) = some (t, true) ∧
      (startSorting { construct [2, 1] with currentAlgorithm := Algorithm.BUBBLE_SORT }).comparisons
        + (startSorting { construct [2, 1] with currentAlgorithm := Algorithm.BUBBLE_SORT }).swaps
        = 0 ∧
      t.comparisons + t.swaps = 2 ∧
      stepBubbleSort t = some (u, true) ∧ u.comparisons + u.swaps = 2 :=
  ⟨_, _, rfl, by decide, by decide, rfl, by decide⟩

theorem startSorting_counters {s : Visualizer} (hs : s.isSorting = false)
    (ha : s.currentAlgorithm ≠ Algorithm.NONE) :
    (startSorting s).comparisons = 0 ∧ (startSorting s).swaps = 0 := by
  unfold startSorting
  rw [if_neg ha, if_pos (by simp [hs])]
  exact ⟨rfl, rfl⟩

/-- At `INT_MAX` the counter of a step that compares wraps to `INT_MIN`: the first bubble sort
step on `[2, 1]` with `comparisons = 2147483647` leaves `comparisons = -2147483648`. -/
theorem comparisons_wrap_at_int_max :
    (stepBubbleSort { construct [2, 1] with comparisons := 2147483647 }).map
      (fun r => (r.2, r.1.comparisons)) = some (true, -2147483648) := by
  decide

/-- C6, amended: for every algorithm and every state reached by ticks from a fresh start in
which neither counter has reached `INT_MAX = 2147483647`, a step call that reports more work
makes at most one comparison and at most one swap: `comparisons` goes up by 0 or 1 and `swaps`
by 0 or 1, so the sum `comparisons + swaps` goes up by 0, 1 or 2. -/
theorem step_counts_bounded (s0 s s1 : Visualizer) (k : Nat)
    (hs0 : s0.isSorting = false) (hreach : ticks k (startSorting s0) = some s)
    (hc : s.comparisons < 2147483647) (hw : s.swaps < 2147483647)
    (h : activeStep s = some (s1, true)) :
    (s1.comparisons = s.comparisons ∨ s1.comparisons = s.comparisons + 1) ∧
    (s1.swaps = s.swaps ∨ s1.swaps = s.swaps + 1) ∧
    s.comparisons + s.swaps ≤ s1.comparisons + s1.swaps ∧
    s1.comparisons + s1.swaps ≤ s.comparisons + s.swaps + 2 := by
  by_cases ha : s0.currentAlgorithm = Algorithm.NONE
  · have e0 : startSorting s0 = s0 := by
      unfold startSorting
      rw [if_pos ha]
    rw [e0, ticks_none k ha] at hreach
    simp only [Option.some.injEq] at hreach
    subst hreach
    unfold activeStep at h
    rw [ha] at h
    simp only [Option.some.injEq, Prod.mk.injEq] at h
    obtain ⟨rfl, _⟩ := h
    omega
  · obtain ⟨z1, z2⟩ := startSorting_counters hs0 ha
    obtain ⟨c0, _, k0, w0, _, _⟩ := ticks_log k hreach
    rw [z1] at k0
    rw [z2] at w0
    have r1 := @iterate_incInt_range (numCompare c0) 0 (by decide) (by decide)
    have r2 := @iterate_incInt_range (numSwap c0) 0 (by decide) (by decide)
    rw [← k0] at r1
    rw [← w0] at r2
    obtain ⟨calls, _, hk, hx, n1, n2, _⟩ := activeStep_log h
    have g1 : s1.comparisons = s.comparisons ∨ s1.comparisons = s.comparisons + 1 := by
      rcases Nat.le_one_iff_eq_zero_or_eq_one.mp n1 with e | e
      · left
        rw [hk, e]
        rfl
      · right
        rw [hk, e]
        exact incInt_eq r1.1 hc
    have g2 : s1.swaps = s.swaps ∨ s1.swaps = s.swaps + 1 := by
      rcases Nat.le_one_iff_eq_zero_or_eq_one.mp n2 with e | e
      · left
        rw [hx, e]
        rfl
      · right
        rw [hx, e]
        exact incInt_eq r2.1 hw
    refine ⟨g1, g2, ?_, ?_⟩ <;> omega

/-- Witness for the amended C6: the first step of bubble sort on `[2, 1]`, in the state the
fresh start leaves (no tick yet). -/
theorem step_counts_bounded_witness :
    (construct [2, 1]).isSorting = false ∧
    ∃ t, activeStep (startSorting
        { construct [2, 1] with currentAlgorithm := Algorithm.BUBBLE_SORT }) = some (t, true) ∧
      (t.comparisons = 0 ∨ t.comparisons = 0 + 1) ∧ (t.swaps = 0 ∨ t.swaps = 0 + 1) ∧
      (0 : Int) + 0 ≤ t.comparisons + t.swaps ∧ t.comparisons + t.swaps ≤ 0 + 0 + 2 :=
  ⟨rfl, _, rfl, step_counts_bounded
    { construct [2, 1] with currentAlgorithm := Algorithm.BUBBLE_SORT }
    (startSorting { construct [2, 1] with currentAlgorithm := Algorithm.BUBBLE_SORT }) _ 0
    rfl rfl (by decide) (by decide) rfl⟩

theorem toInt_usub_one_of_one : toInt (usub 1 1) = 0 := by
  decide

/-- C8. Quick sort on an empty or single-element dataset: after `startSorting` with quick sort
selected, the first call of `stepQuickSort` pops the only range, `(0, -1)` or `(0, 0)`,
without starting a partition and leaves the work-stack empty; the next call reports done
because the stack is empty.  No call is recorded, `comparisons` and `swaps` are still 0 and
the dataset is unchanged. -/
theorem quick_sort_trivial_dataset (s : Visualizer) (hlen : s.data.length ≤ 1)
    (hs : s.isSorting = false) (ha : s.currentAlgorithm = Algorithm.QUICK_SORT) :
    ∃ t, stepQuickSort (startSorting s) = some (t, true) ∧
      t.quickSortState.stack = [] ∧ t.quickSortState.partitioning = false ∧
      stepQuickSort t = some (t, false) ∧
      t.comparisons = 0 ∧ t.swaps = 0 ∧ t.data = s.data ∧ t.log = s.log ∧
      runUntilDone stepQuickSort 2 (startSorting s) = some t := by
  have e : startSorting s = resetAlgorithmStates
      { s with isSorting := true, isPaused := false, comparisons := 0, swaps := 0 } := by
    simp [startSorting, ha, hs]
  have hhi : ¬ (0 : Int) < toInt (usub s.data.length 1) := by
    have h01 : s.data.length = 0 ∨ s.data.length = 1 := by omega
    rcases h01 with h | h
    · rw [h, toInt_usub_one_of_zero]
      decide
    · rw [h, toInt_usub_one_of_one]
      decide
  obtain ⟨hi, hhi, hst⟩ : ∃ hi : Int, ¬ 0 < hi ∧
      (startSorting s).quickSortState.stack = [] ++ [((0 : Int), hi)] :=
    ⟨toInt (usub s.data.length 1), hhi, by rw [e]; rfl⟩
  have hp : (startSorting s).quickSortState.partitioning = false := by
    rw [e]
    rfl
  have e1 := stepQuickSort_pop hst hp hhi
  have hst2 : (quickPop (0, hi) (startSorting s)).quickSortState.stack = [] := by
    simp [quickPop, hst]
  have e2 := stepQuickSort_done hst2
  refine ⟨_, e1, hst2, hp, e2, ?_, ?_, ?_, ?_, ?_⟩
  · rw [e]; rfl
  · rw [e]; rfl
  · rw [e]; rfl
  · rw [e]; rfl
  · simp [runUntilDone, e1, e2]

/-- Witness for C8: the single-element dataset `[7]`. -/
theorem quick_sort_trivial_dataset_witness :
    ([(7 : Int)].length ≤ 1) ∧
    ∃ t, stepQuickSort (startSorting
        { construct [7] with currentAlgorithm := Algorithm.QUICK_SORT }) = some (t, true) ∧
      t.quickSortState.stack = [] ∧ t.quickSortState.partitioning = false ∧
      stepQuickSort t = some (t, false) ∧
      t.comparisons = 0 ∧ t.swaps = 0 ∧ t.data = [7] ∧ t.log = [] ∧
      runUntilDone stepQuickSort 2 (startSorting
        { construct [7] with currentAlgorithm := Algorithm.QUICK_SORT }) = some t :=
  ⟨by decide, quick_sort_trivial_dataset
    { construct [7] with currentAlgorithm := Algorithm.QUICK_SORT } (by decide) (by decide)
    (by decide)⟩

/-- C9 at the failing input `[2, 1]`: with merge sort selected and started, the first tick
already ends the run (`continueSorting = false`): no call ever reports more work, the dataset
is still `[2, 1]`, which is not sorted, no comparison or swap was made, and every bar is
marked with `sortedColor`. -/
theorem merge_sort_stops_unsorted :
    (startSorting { construct [2, 1] with currentAlgorithm := Algorithm.MERGE_SORT }).isSorting
      = true ∧
    (ticks 1 (startSorting { construct [2, 1] with currentAlgorithm := Algorithm.MERGE_SORT })).map
      (fun t => (t.isSorting, t.data, t.comparisons, t.swaps, t.bars))
      = some (false, [2, 1], 0, 0, [Color.sortedColor, Color.sortedColor]) ∧
    ¬ SortedAsc [2, 1] := by
  decide

/-- C10, refuted as stated: in the bubble sort run on `[1, 2, 3]` the third tick ends the
first pass and marks index 2 with `sortedColor`; the fourth tick, a comparison of indices 0
and 1, leaves index 2 with `defaultColor`. -/
theorem sorted_markers_cumulative_counterexample :
    (ticks 3 (startSorting { construct [1, 2, 3] with currentAlgorithm := Algorithm.BUBBLE_SORT })).map
      (fun t => (t.isSorting, t.bars.getD 2 Color.defaultColor)) = some (true, Color.sortedColor) ∧
    (ticks 4 (startSorting { construct [1, 2, 3] with currentAlgorithm := Algorithm.BUBBLE_SORT })).map
      (fun t => (t.isSorting, t.bars.getD 2 Color.defaultColor)) = some (true, Color.defaultColor) := by
  decide

theorem bars_setFillColor (i : Nat) (c : Color) (s : Visualizer) (k : Nat) :
    (setFillColor i c s).bars[k]? = if k = i then (s.bars[k]?).map (fun _ => c) else s.bars[k]? := by
  unfold setFillColor
  dsimp only
  split_ifs with h1 h2 h2
  · subst h2
    simp [List.getElem?_set, h1]
  · simp [List.getElem?_set, Ne.symm h2]
  · subst h2
    simp [List.getElem?_eq_none (not_lt.mp h1)]
  · rfl

theorem bars_resetColors (s : Visualizer) (k : Nat) :
    (resetColors s).bars[k]? = (s.bars[k]?).map (fun _ => Color.defaultColor) := by
  simp only [resetColors, List.getElem?_map]

/-- C10, amended: `highlightSorted i` sets index `i` to `sortedColor` and changes no other
marker; `highlightCompare i j` and `highlightSwap i j` reset every marker, the Sorted ones
included, to `defaultColor` before setting their two indices, so after them exactly the
indices `i` and `j` are not Default and a Sorted mark lasts only until the next such call. -/
theorem markers_after_highlight (s : Visualizer) (i j k : Nat) :
    (highlightSorted i s).bars[k]? =
      (if k = i then (s.bars[k]?).map (fun _ => Color.sortedColor) else s.bars[k]?) ∧
    (highlightCompare i j s).bars[k]? =
      (s.bars[k]?).map (fun _ =>
        if k = i ∨ k = j then Color.compareColor else Color.defaultColor) ∧
    (highlightSwap i j s).bars[k]? =
      (s.bars[k]?).map (fun _ =>
        if k = i ∨ k = j then Color.swapColor else Color.defaultColor) := by
  refine ⟨?_, ?_, ?_⟩
  · simp only [highlightSorted, bars_setFillColor]
  · simp only [highlightCompare, bars_setFillColor, bars_resetColors]
    cases s.bars[k]? <;> split_ifs <;> simp_all
  · simp only [highlightSwap, bars_setFillColor, bars_resetColors]
    cases s.bars[k]? <;> split_ifs <;> simp_all

/-! ## Claims C11 to C14: completion and the commands -/

theorem foldl_highlightSorted_bars (l : List Nat) : ∀ (s : Visualizer) (k : Nat),
    (l.foldl (fun t i => highlightSorted i t) s).bars[k]? =
      if k ∈ l then (s.bars[k]?).map (fun _ => Color.sortedColor) else s.bars[k]? := by
  induction l with
  | nil => intro s k; simp
  | cons a l ih =>
    intro s k
    rw [List.foldl_cons, ih, (markers_after_highlight s a 0 k).1]
    by_cases h1 : k = a
    · subst h1
      by_cases h2 : k ∈ l
      · cases s.bars[k]? <;> simp [h2]
      · simp [h2]
    · by_cases h2 : k ∈ l <;> simp [h1, h2]

theorem bars_markAllSorted (s : Visualizer) :
    (markAllSorted s).bars = List.replicate s.bars.length Color.sortedColor := by
  apply List.ext_getElem?
  intro k
  rw [markAllSorted, foldl_highlightSorted_bars]
  by_cases h : k < s.bars.length
  · simp [h, List.getElem?_replicate]
  · simp [h, List.getElem?_replicate, List.getElem?_eq_none (not_lt.mp h)]

/-- C11. Completion: for every controller state that is running and not paused in which the
step function of the selected algorithm reports done, `stepAlgorithm` leaves the controller
not running with every bar (one per index of the dataset) marked `sortedColor`, and the
dataset, the counters and the selected algorithm are unchanged by that tick. -/
theorem completion_marks_all_sorted (s s1 : Visualizer)
    (hs : s.isSorting = true) (hp : s.isPaused = false)
    (hdone : activeStep s = some (s1, false)) :
    ∃ t, stepAlgorithm s = some t ∧ t.isSorting = false ∧
      t.bars = List.replicate s.bars.length Color.sortedColor ∧
      (∀ k, k < s.bars.length → t.bars[k]? = some Color.sortedColor) ∧
      t.data = s.data ∧ t.comparisons = s.comparisons ∧ t.swaps = s.swaps ∧
      t.currentAlgorithm = s.currentAlgorithm := by
  obtain ⟨_, _, _, _, _, _, hsame⟩ := activeStep_log hdone
  have e : s1 = s := hsame rfl
  subst e
  have hstep : stepAlgorithm s1 = some (finishStep (s1, false)) := by
    rw [stepAlgorithm_eq_activeStep, hdone]
    simp [hs, hp]
  obtain ⟨f1, _, f3, _, f5, f6, f7⟩ := finishStep_props s1 false
  have hbars : (finishStep (s1, false)).bars =
      List.replicate s1.bars.length Color.sortedColor := by
    simp only [finishStep, Bool.not_false, if_true]
    exact bars_markAllSorted _
  refine ⟨_, hstep, by simpa using f7, hbars, ?_, f1, f5, f6, f3⟩
  intro k hk
  rw [hbars]
  simp [List.getElem?_replicate, hk]

/-- Witness for C11: bubble sort on the single-element dataset `[7]`, whose first step
reports done. -/
theorem completion_marks_all_sorted_witness :
    ∃ t, stepAlgorithm (startSorting
        { construct [7] with currentAlgorithm := Algorithm.BUBBLE_SORT }) = some t ∧
      t.isSorting = false ∧ t.bars = List.replicate 1 Color.sortedColor ∧
      (∀ k, k < 1 → t.bars[k]? = some Color.sortedColor) ∧
      t.data = [7] ∧ t.comparisons = 0 ∧ t.swaps = 0 ∧
      t.currentAlgorithm = Algorithm.BUBBLE_SORT :=
  completion_marks_all_sorted
    (startSorting { construct [7] with currentAlgorithm := Algorithm.BUBBLE_SORT })
    (startSorting { construct [7] with currentAlgorithm := Algorithm.BUBBLE_SORT })
    (by decide) (by decide) (by decide)

/-- What `handleInput` does, by the command the keyboard state stands for. -/
theorem handleInput_eq (kb : Key → Bool) (gen : Nat → Int) (s : Visualizer) :
    handleInput kb gen s =
      match commandOf kb with
      | some (Command.selectAlgorithm a) => { s with currentAlgorithm := a, isSorting := false }
      | some Command.toggleRun => startSorting s
      | some Command.resetData =>
        { initializeData gen s with isSorting := false, comparisons := 0, swaps := 0 }
      | some Command.speedUp => { s with sortingSpeed := max 10 (s.sortingSpeed - 10) }
      | some Command.speedDown => { s with sortingSpeed := min 500 (s.sortingSpeed + 10) }
      | none => s := by
  unfold handleInput commandOf
  split_ifs <;> rfl

theorem commandOf_select_ne_none {kb : Key → Bool} {a : Algorithm}
    (h : commandOf kb = some (Command.selectAlgorithm a)) : a ≠ Algorithm.NONE := by
  unfold commandOf at h
  split_ifs at h <;> simp only [Option.some.injEq, Command.selectAlgorithm.injEq] at h <;>
    first
    | (subst h; decide)
    | cases h

theorem toInt_usub_one {n : Nat} (h : n ≤ 2147483648) : toInt (usub n 1) = (n : Int) - 1 := by
  simp only [toInt, usub, SIZE_MOD]
  split <;> omega

/-- C12. Switching algorithms discards progress without touching the data: from every
controller state, a select command sets not-running, selects the algorithm and leaves the
dataset unchanged, and a following `startSorting` (the start command) enters Running, not
paused, with `comparisons = swaps = 0` and every algorithm state at its initial configuration:
bubble `i = j = 0`; quick `stack = [(0, n - 1)]`, not partitioning; selection
`i = j = minIndex = 0`; whatever the cursors were before.  (`n - 1` is
`static_cast<int>(data.size() - 1)`, which is the number `n - 1` for `n ≤ 2 ^ 31`.) -/
theorem switch_discards_progress (kb kb2 : Key → Bool) (gen gen2 : Nat → Int)
    (s : Visualizer) (a : Algorithm)
    (hc : commandOf kb = some (Command.selectAlgorithm a))
    (hc2 : commandOf kb2 = some Command.toggleRun) :
    ((handleInput kb gen s).isSorting = false ∧ (handleInput kb gen s).data = s.data ∧
      (handleInput kb gen s).currentAlgorithm = a) ∧
    handleInput kb2 gen2 (handleInput kb gen s) = startSorting (handleInput kb gen s) ∧
    (startSorting (handleInput kb gen s)).isSorting = true ∧
    (startSorting (handleInput kb gen s)).isPaused = false ∧
    (startSorting (handleInput kb gen s)).comparisons = 0 ∧
    (startSorting (handleInput kb gen s)).swaps = 0 ∧
    (startSorting (handleInput kb gen s)).data = s.data ∧
    (startSorting (handleInput kb gen s)).currentAlgorithm = a ∧
    ((startSorting (handleInput kb gen s)).bubbleI = 0 ∧
      (startSorting (handleInput kb gen s)).bubbleJ = 0) ∧
    ((startSorting (handleInput kb gen s)).quickSortState.stack =
        [(0, toInt (usub s.data.length 1))] ∧
      (s.data.length ≤ 2147483648 → toInt (usub s.data.length 1) = (s.data.length : Int) - 1) ∧
      (startSorting (handleInput kb gen s)).quickSortState.partitioning = false) ∧
    ((startSorting (handleInput kb gen s)).selectionI = 0 ∧
      (startSorting (handleInput kb gen s)).selectionJ = 0 ∧
      (startSorting (handleInput kb gen s)).selectionMin = 0) := by
  have ha := commandOf_select_ne_none hc
  have e1 : handleInput kb gen s = { s with currentAlgorithm := a, isSorting := false } := by
    rw [handleInput_eq, hc]
  have e2 : startSorting { s with currentAlgorithm := a, isSorting := false } =
      resetAlgorithmStates
        { s with currentAlgorithm := a, isSorting := true, isPaused := false, comparisons := 0, swaps := 0 } := by
    simp [startSorting, ha]
  have e3 : handleInput kb2 gen2 (handleInput kb gen s) = startSorting (handleInput kb gen s) := by
    rw [handleInput_eq kb2, hc2]
  rw [e1] at e3 ⊢
  rw [e2] at e3 ⊢
  exact ⟨⟨rfl, rfl, rfl⟩, e3, rfl, rfl, rfl, rfl, rfl, rfl, ⟨rfl, rfl⟩,
    ⟨rfl, toInt_usub_one, rfl⟩, ⟨rfl, rfl, rfl⟩⟩

/-- Witness for C12: a selection sort run on `[3, 1, 2]` with its scan cursor at 3 when key
`2` (quick sort) and then the space bar are pressed. -/
theorem switch_discards_progress_witness :
    (commandOf (onlyKey Key.Num2) = some (Command.selectAlgorithm Algorithm.QUICK_SORT) ∧
      commandOf (onlyKey Key.Space) = some Command.toggleRun) ∧
    (startSorting (handleInput (onlyKey Key.Num2) (fun _ => 0)
        { construct [3, 1, 2] with
          currentAlgorithm := Algorithm.SELECTION_SORT
          isSorting := true
          selectionJ := 3 })).selectionJ = 0 :=
  ⟨by decide,
    (switch_discards_progress (onlyKey Key.Num2) (onlyKey Key.Space) (fun _ => 0) (fun _ => 0)
      { construct [3, 1, 2] with
        currentAlgorithm := Algorithm.SELECTION_SORT
        isSorting := true
        selectionJ := 3 }
      Algorithm.QUICK_SORT (by decide) (by decide)).2.2.2.2.2.2.2.2.2.2.2.1⟩

/-- C13. Reset: from every controller state (idle, running, paused or completed) the reset
command leaves `comparisons = 0`, `swaps = 0` and the run state not-running, keeps the
selected algorithm, and replaces the dataset by 100 fresh values with one default-coloured
bar each. -/
theorem reset_command (kb : Key → Bool) (gen : Nat → Int) (s : Visualizer)
    (hc : commandOf kb = some Command.resetData) :
    (handleInput kb gen s).comparisons = 0 ∧ (handleInput kb gen s).swaps = 0 ∧
    (handleInput kb gen s).isSorting = false ∧
    (handleInput kb gen s).currentAlgorithm = s.currentAlgorithm ∧
    (handleInput kb gen s).data = (List.range 100).map gen ∧
    (handleInput kb gen s).bars = List.replicate 100 Color.defaultColor := by
  have e : handleInput kb gen s =
      { initializeData gen s with isSorting := false, comparisons := 0, swaps := 0 } := by
    rw [handleInput_eq, hc]
  rw [e]
  refine ⟨rfl, rfl, rfl, rfl, rfl, ?_⟩
  rw [List.eq_replicate_iff]
  simp [initializeData]

/-- Witness for C13: `R` is pressed while a bubble sort run on `[5, 3, 1]` is under way with
two comparisons and two swaps counted. -/
theorem reset_command_witness :
    commandOf (onlyKey Key.R) = some Command.resetData ∧
    (handleInput (onlyKey Key.R) (fun i => i)
      { construct [3, 5, 1] with
        currentAlgorithm := Algorithm.BUBBLE_SORT
        isSorting := true
        comparisons := 2
        swaps := 2 }).comparisons = 0 :=
  ⟨by decide,
    (reset_command (onlyKey Key.R) (fun i => i)
      { construct [3, 5, 1] with
        currentAlgorithm := Algorithm.BUBBLE_SORT
        isSorting := true
        comparisons := 2
        swaps := 2 } (by decide)).1⟩

theorem sortingSpeed_handleInput (kb : Key → Bool) (gen : Nat → Int) (s : Visualizer)
    (h : 10 ≤ s.sortingSpeed ∧ s.sortingSpeed ≤ 500) :
    10 ≤ (handleInput kb gen s).sortingSpeed ∧ (handleInput kb gen s).sortingSpeed ≤ 500 := by
  rw [handleInput_eq]
  rcases hc : commandOf kb with _ | c
  · exact h
  · cases c with
    | selectAlgorithm a => exact h
    | toggleRun =>
      have : (startSorting s).sortingSpeed = s.sortingSpeed := by
        unfold startSorting
        split_ifs <;> rfl
      show 10 ≤ (startSorting s).sortingSpeed ∧ (startSorting s).sortingSpeed ≤ 500
      rw [this]
      exact h
    | resetData => exact h
    | speedUp =>
      show 10 ≤ max 10 (s.sortingSpeed - 10) ∧ max 10 (s.sortingSpeed - 10) ≤ 500
      omega
    | speedDown =>
      show 10 ≤ min 500 (s.sortingSpeed + 10) ∧ min 500 (s.sortingSpeed + 10) ≤ 500
      omega

theorem sortingSpeed_handleInputs (inputs : List ((Key → Bool) × (Nat → Int))) :
    ∀ s : Visualizer, 10 ≤ s.sortingSpeed ∧ s.sortingSpeed ≤ 500 →
      10 ≤ (handleInputs inputs s).sortingSpeed ∧ (handleInputs inputs s).sortingSpeed ≤ 500 := by
  induction inputs with
  | nil => intro s h; exact h
  | cons x rest ih =>
    intro s h
    exact ih _ (sortingSpeed_handleInput x.1 x.2 s h)

/-- C14. Speed clamp: starting from the initial tick interval 50 (the constructor's value),
after any finite sequence of `handleInput` calls, whatever keys are pressed, the tick interval
lies in `[10, 500]`; the speed-up command maps the interval `v` to `max(10, v - 10)` and the
speed-down command maps it to `min(500, v + 10)`. -/
theorem speed_clamped (d : List Int) (inputs : List ((Key → Bool) × (Nat → Int))) :
    (construct d).sortingSpeed = 50 ∧
    (10 ≤ (handleInputs inputs (construct d)).sortingSpeed ∧
      (handleInputs inputs (construct d)).sortingSpeed ≤ 500) ∧
    (∀ (kb : Key → Bool) (gen : Nat → Int) (s : Visualizer),
      commandOf kb = some Command.speedUp →
        (handleInput kb gen s).sortingSpeed = max 10 (s.sortingSpeed - 10)) ∧
    (∀ (kb : Key → Bool) (gen : Nat → Int) (s : Visualizer),
      commandOf kb = some Command.speedDown →
        (handleInput kb gen s).sortingSpeed = min 500 (s.sortingSpeed + 10)) := by
  have h50 : (construct d).sortingSpeed = 50 := rfl
  refine ⟨h50, sortingSpeed_handleInputs inputs _ (by rw [h50]; decide), ?_, ?_⟩
  · intro kb gen s hc
    rw [handleInput_eq, hc]
  · intro kb gen s hc
    rw [handleInput_eq, hc]

/-! ## Claim C15: the bubble sort trace on `[5, 3, 1]` -/

/-- C15, refuted as stated: on `[5, 3, 1]` the first call of `stepBubbleSort` compares indices
0 and 1 and, since `5 > 3`, also swaps them: the dataset is `[3, 5, 1]` and `swaps` is 1 after
step 1, not unchanged. -/
theorem bubble_trace_counterexample :
    (stepBubbleSort (startSorting
        { construct [5, 3, 1] with currentAlgorithm := Algorithm.BUBBLE_SORT })).map
      (fun r => (r.2, r.1.data, r.1.comparisons, r.1.swaps, r.1.log)) =
      some (true, [3, 5, 1], 1, 1,
        [Call.highlightCompare 0 1, Call.swapElements 0 1, Call.highlightSwap 0 1]) ∧
    (stepBubbleSort (startSorting
        { construct [5, 3, 1] with currentAlgorithm := Algorithm.BUBBLE_SORT })).map
      (fun r => r.1.data) ≠ some [5, 3, 1] := by
  decide

/-- C15, amended: on `[5, 3, 1]` from the initial configuration, step 1 compares indices
`(0, 1)`, 5 vs 3, and swaps, giving `[3, 5, 1]`; step 2 compares indices `(1, 2)`, 5 vs 1, and
swaps, giving `[3, 1, 5]`; continuing to done gives `[1, 3, 5]`. -/
theorem bubble_trace :
    (∃ s1 s2, stepBubbleSort (startSorting
          { construct [5, 3, 1] with currentAlgorithm := Algorithm.BUBBLE_SORT }) = some (s1, true) ∧
      s1.data = [3, 5, 1] ∧
      s1.log = [Call.highlightCompare 0 1, Call.swapElements 0 1, Call.highlightSwap 0 1] ∧
      stepBubbleSort s1 = some (s2, true) ∧
      s2.data = [3, 1, 5] ∧
      s2.log = s1.log ++
        [Call.highlightCompare 1 2, Call.swapElements 1 2, Call.highlightSwap 1 2]) ∧
    (runUntilDone stepBubbleSort 6 (startSorting
        { construct [5, 3, 1] with currentAlgorithm := Algorithm.BUBBLE_SORT })).map
      (fun t => t.data) = some [1, 3, 5] :=
  ⟨⟨_, _, rfl, by decide, by decide, rfl, by decide, by decide⟩, by decide⟩

/-! ## Claim C16: index safety -/

theorem bubbleInv_congr {s t : Visualizer} (hd : t.data = s.data)
    (hb : t.bars.length = s.bars.length) (hi : t.bubbleI = s.bubbleI)
    (hj : t.bubbleJ = s.bubbleJ) (h : BubbleInv s) : BubbleInv t := by
  unfold BubbleInv at h ⊢
  rw [hd, hb, hi, hj]
  exact h

theorem selectionInv_congr {s t : Visualizer} (hd : t.data = s.data)
    (hb : t.bars.length = s.bars.length) (hi : t.selectionI = s.selectionI)
    (hj : t.selectionJ = s.selectionJ) (hm : t.selectionMin = s.selectionMin)
    (h : SelectionInv s) : SelectionInv t := by
  unfold SelectionInv at h ⊢
  rw [hd, hb, hi, hj, hm]
  exact h

theorem quickFreshInv_congr {s t : Visualizer} (hd : t.data = s.data)
    (hq : t.quickSortState = s.quickSortState) (h : QuickFreshInv s) : QuickFreshInv t := by
  unfold QuickFreshInv at h ⊢
  rw [hd, hq]
  exact h

theorem foldl_highlightSorted_cursors (l : List Nat) : ∀ s : Visualizer,
    (l.foldl (fun t i => highlightSorted i t) s).bubbleI = s.bubbleI ∧
    (l.foldl (fun t i => highlightSorted i t) s).bubbleJ = s.bubbleJ ∧
    (l.foldl (fun t i => highlightSorted i t) s).selectionI = s.selectionI ∧
    (l.foldl (fun t i => highlightSorted i t) s).selectionJ = s.selectionJ ∧
    (l.foldl (fun t i => highlightSorted i t) s).selectionMin = s.selectionMin ∧
    (l.foldl (fun t i => highlightSorted i t) s).quickSortState = s.quickSortState ∧
    (l.foldl (fun t i => highlightSorted i t) s).log = s.log ++ l.map Call.highlightSorted := by
  induction l with
  | nil => intro s; simp
  | cons a l ih =>
    intro s
    simp only [List.foldl_cons]
    obtain ⟨h1, h2, h3, h4, h5, h6, h7⟩ := ih (highlightSorted a s)
    rw [h1, h2, h3, h4, h5, h6, h7]
    refine ⟨rfl, rfl, rfl, rfl, rfl, rfl, ?_⟩
    show (s.log ++ [Call.highlightSorted a]) ++ l.map Call.highlightSorted = _
    simp

theorem finishStep_cursors (s : Visualizer) (b : Bool) :
    (finishStep (s, b)).bubbleI = s.bubbleI ∧
    (finishStep (s, b)).bubbleJ = s.bubbleJ ∧
    (finishStep (s, b)).selectionI = s.selectionI ∧
    (finishStep (s, b)).selectionJ = s.selectionJ ∧
    (finishStep (s, b)).selectionMin = s.selectionMin ∧
    (finishStep (s, b)).quickSortState = s.quickSortState ∧
    ∃ calls, (finishStep (s, b)).log = s.log ++ calls ∧
      ∀ c ∈ calls, callInRange s.bars.length c = true := by
  cases b with
  | true =>
    rw [finishStep_true]
    exact ⟨rfl, rfl, rfl, rfl, rfl, rfl, [], by simp, by simp⟩
  | false =>
    simp only [finishStep, Bool.not_false, if_true, markAllSorted]
    obtain ⟨h1, h2, h3, h4, h5, h6, h7⟩ := foldl_highlightSorted_cursors
      (List.range s.bars.length) { s with isSorting := false }
    refine ⟨h1, h2, h3, h4, h5, h6, _, h7, ?_⟩
    intro c hc
    simp only [List.mem_map, List.mem_range] at hc
    obtain ⟨i, hi, rfl⟩ := hc
    simpa [callInRange] using hi

theorem bubble_calls {s s1 : Visualizer} {b : Bool} (hs : BubbleInv s)
    (h : stepBubbleSort s = some (s1, b)) :
    ∃ calls, s1.log = s.log ++ calls ∧ ∀ c ∈ calls, callInRange s.data.length c = true := by
  obtain ⟨hn, _, hi, _, _, _⟩ := hs
  rcases stepBubbleSort_cases h with ⟨_, rfl, _⟩ | ⟨_, rfl, _⟩ |
    ⟨_, rfl, _, _, h1, h2, _⟩ | ⟨_, rfl, _, _, h1, h2, _⟩
  · exact ⟨[], by simp, by simp⟩
  · refine ⟨[Call.highlightSorted (usub (usub s.data.length s.bubbleI) 1)], rfl, ?_⟩
    intro c hc
    simp only [List.mem_singleton] at hc
    subst hc
    have : usub (usub s.data.length s.bubbleI) 1 = s.data.length - s.bubbleI - 1 := by
      rw [usub_eq (by omega) hn, usub_eq (by omega) (by omega)]
    simp only [callInRange, this, decide_eq_true_eq]
    omega
  · refine ⟨[Call.highlightCompare s.bubbleJ (uadd s.bubbleJ 1)], rfl, ?_⟩
    intro c hc
    simp only [List.mem_singleton] at hc
    subst hc
    simp [callInRange, h1, h2]
  · refine ⟨[Call.highlightCompare s.bubbleJ (uadd s.bubbleJ 1),
        Call.swapElements s.bubbleJ (uadd s.bubbleJ 1),
        Call.highlightSwap s.bubbleJ (uadd s.bubbleJ 1)],
      by simp [bubbleExchange, highlightSwap_eq], ?_⟩
    intro c hc
    simp only [List.mem_cons, List.mem_singleton, List.not_mem_nil, or_false] at hc
    rcases hc with rfl | rfl | rfl <;> simp [callInRange, h1, h2]

theorem selection_calls {s s1 : Visualizer} {b : Bool} (hs : SelectionInv s)
    (h : stepSelectionSort s = some (s1, b)) :
    ∃ calls, s1.log = s.log ++ calls ∧ ∀ c ∈ calls, callInRange s.data.length c = true := by
  obtain ⟨hn, _, hi, _, _, _⟩ := hs
  rcases stepSelectionSort_cases h with ⟨_, rfl, _⟩ | ⟨_, rfl, _, h1, h2⟩ |
    ⟨_, rfl, _⟩ | ⟨_, rfl, _, _, _, h1, h2, _⟩
  · exact ⟨[], by simp, by simp⟩
  · refine ⟨[Call.highlightCompare s.selectionJ s.selectionMin], rfl, ?_⟩
    intro c hc
    simp only [List.mem_singleton] at hc
    subst hc
    simp [callInRange, h1, h2]
  · refine ⟨[Call.highlightSorted s.selectionI], rfl, ?_⟩
    intro c hc
    simp only [List.mem_singleton] at hc
    subst hc
    simp only [callInRange, decide_eq_true_eq]
    omega
  · refine ⟨[Call.swapElements s.selectionI s.selectionMin,
        Call.highlightSwap s.selectionI s.selectionMin, Call.highlightSorted s.selectionI],
      by simp [selectionPlace, highlightSwap_eq, highlightSorted_eq], ?_⟩
    intro c hc
    simp only [List.mem_cons, List.mem_singleton, List.not_mem_nil, or_false] at hc
    rcases hc with rfl | rfl | rfl <;> simp [callInRange, h1, h2]

theorem safeInv_finishStep {n : Nat} {l0 : List Call} {s1 : Visualizer} (b : Bool)
    (h : SafeInv n l0 s1) : SafeInv n l0 (finishStep (s1, b)) := by
  obtain ⟨hd, hb, hn, ⟨calls, hl, hr⟩, hB, hS, hQ⟩ := h
  obtain ⟨f1, f2, f3, _, _, _, _⟩ := finishStep_props s1 b
  obtain ⟨c1, c2, c3, c4, c5, c6, calls2, hl2, hr2⟩ := finishStep_cursors s1 b
  refine ⟨by rw [f1, hd], by rw [f2, hb], hn, ⟨calls ++ calls2, ?_, ?_⟩, ?_, ?_, ?_⟩
  · rw [hl2, hl, List.append_assoc]
  · intro c hc
    rcases List.mem_append.mp hc with h1 | h1
    · exact hr c h1
    · rw [← hb]
      exact hr2 c h1
  · intro ha
    exact bubbleInv_congr f1 f2 c1 c2 (hB (by rw [← f3]; exact ha))
  · intro ha
    exact selectionInv_congr f1 f2 c3 c4 c5 (hS (by rw [← f3]; exact ha))
  · intro ha
    exact quickFreshInv_congr f1 c6 (hQ (by rw [← f3]; exact ha))

theorem safeInv_step {n : Nat} {l0 : List Call} {s : Visualizer} (hs : SafeInv n l0 s) :
    ∃ s1, stepAlgorithm s = some s1 ∧ SafeInv n l0 s1 ∧
      s1.currentAlgorithm = s.currentAlgorithm := by
  by_cases hidle : s.isSorting = false ∨ s.isPaused = true
  · exact ⟨s, stepAlgorithm_idle hidle, hs, rfl⟩
  have h1 : s.isSorting = true := by
    cases h : s.isSorting
    · exact absurd (Or.inl h) hidle
    · rfl
  have h2 : s.isPaused = false := by
    cases h : s.isPaused
    · rfl
    · exact absurd (Or.inr h) hidle
  obtain ⟨hd, hb, hn, ⟨calls, hl, hr⟩, hB, hS, hQ⟩ := hs
  cases ha : s.currentAlgorithm with
  | BUBBLE_SORT =>
    obtain ⟨s1, b, e, hperm, ht, hf⟩ := bubble_step (hB ha)
    obtain ⟨fa, _, _, _⟩ := stepBubbleSort_frame e
    obtain ⟨calls2, hl2, hr2⟩ := bubble_calls (hB ha) e
    have hinv : BubbleInv s1 := by
      cases b with
      | true => exact (ht rfl).1
      | false => rw [(hf rfl).1]; exact hB ha
    refine ⟨finishStep (s1, b), by rw [stepAlgorithm_bubble h1 h2 ha, e]; rfl,
      safeInv_finishStep b ⟨by rw [hperm.length_eq, hd], by rw [(stepBubbleSort_perm e).2, hb],
        hn, ⟨calls ++ calls2, by rw [hl2, hl, List.append_assoc], ?_⟩, fun _ => hinv,
        fun h => ?_, fun h => ?_⟩, ?_⟩
    · intro c hc
      rcases List.mem_append.mp hc with h3 | h3
      · exact hr c h3
      · rw [← hd]
        exact hr2 c h3
    · rw [fa, ha] at h
      cases h
    · rw [fa, ha] at h
      cases h
    · rw [(finishStep_props s1 b).2.2.1, fa, ha]
  | SELECTION_SORT =>
    obtain ⟨s1, b, e, hperm, ht, hf⟩ := selection_step (hS ha)
    obtain ⟨fa, _, _, _⟩ := stepSelectionSort_frame e
    obtain ⟨calls2, hl2, hr2⟩ := selection_calls (hS ha) e
    have hinv : SelectionInv s1 := by
      cases b with
      | true => exact (ht rfl).1
      | false => rw [(hf rfl).1]; exact hS ha
    refine ⟨finishStep (s1, b), by rw [stepAlgorithm_selection h1 h2 ha, e]; rfl,
      safeInv_finishStep b ⟨by rw [hperm.length_eq, hd],
        by rw [(stepSelectionSort_perm e).2, hb],
        hn, ⟨calls ++ calls2, by rw [hl2, hl, List.append_assoc], ?_⟩, fun h => ?_,
        fun _ => hinv, fun h => ?_⟩, ?_⟩
    · intro c hc
      rcases List.mem_append.mp hc with h3 | h3
      · exact hr c h3
      · rw [← hd]
        exact hr2 c h3
    · rw [fa, ha] at h
      cases h
    · rw [fa, ha] at h
      cases h
    · rw [(finishStep_props s1 b).2.2.1, fa, ha]
  | QUICK_SORT =>
    obtain ⟨s1, b, e, hd1, hbar, _, _, hlog, hst⟩ := quick_fresh_step (hQ ha)
    obtain ⟨fa, _, _, _⟩ := stepQuickSort_frame e
    refine ⟨finishStep (s1, b), by rw [stepAlgorithm_quick h1 h2 ha, e]; rfl,
      safeInv_finishStep b ⟨by rw [hd1, hd], by rw [hbar, hb],
        hn, ⟨calls, by rw [hlog, hl], hr⟩, fun h => ?_, fun h => ?_, fun _ => Or.inl hst⟩, ?_⟩
    · rw [fa, ha] at h
      cases h
    · rw [fa, ha] at h
      cases h
    · rw [(finishStep_props s1 b).2.2.1, fa, ha]
  | MERGE_SORT =>
    refine ⟨finishStep (s, false), stepAlgorithm_merge h1 h2 ha,
      safeInv_finishStep false ⟨hd, hb, hn, ⟨calls, hl, hr⟩, hB, hS, hQ⟩, ?_⟩
    rw [(finishStep_props s false).2.2.1, ha]
  | NONE =>
    exact ⟨s, stepAlgorithm_none ha, ⟨hd, hb, hn, ⟨calls, hl, hr⟩, hB, hS, hQ⟩, ha⟩

theorem safeInv_ticks {n : Nat} {l0 : List Call} (k : Nat) : ∀ {s : Visualizer},
    SafeInv n l0 s →
    ∃ s1, ticks k s = some s1 ∧ SafeInv n l0 s1 ∧ s1.currentAlgorithm = s.currentAlgorithm := by
  induction k with
  | zero =>
    intro s hs
    exact ⟨s, rfl, hs, rfl⟩
  | succ k ih =>
    intro s hs
    obtain ⟨s1, e1, i1, a1⟩ := safeInv_step hs
    obtain ⟨s2, e2, i2, a2⟩ := ih i1
    exact ⟨s2, by simp [ticks, e1, e2], i2, a2.trans a1⟩

theorem safeInv_startSorting {s : Visualizer} (hn : 1 ≤ s.data.length)
    (hlt : s.data.length < SIZE_MOD) (hb : s.bars.length = s.data.length)
    (hs : s.isSorting = false) (ha : s.currentAlgorithm ≠ Algorithm.NONE) :
    SafeInv s.data.length s.log (startSorting s) ∧
      (startSorting s).currentAlgorithm = s.currentAlgorithm := by
  obtain ⟨⟨_, _, hrun⟩, _⟩ := runInv_startSorting hn hlt hb hs
  have e : startSorting s = resetAlgorithmStates
      { s with isSorting := true, isPaused := false, comparisons := 0, swaps := 0 } := by
    simp [startSorting, ha, hs]
  have h1 : (startSorting s).isSorting = true := by rw [e]; rfl
  have h2 : (startSorting s).isPaused = false := by rw [e]; rfl
  obtain ⟨hB, hS, hQ⟩ := hrun h1 h2
  refine ⟨⟨by rw [e]; rfl, by rw [e]; exact hb, hlt, ⟨[], by rw [e]; simp [resetAlgorithmStates],
    by simp⟩, hB, hS, hQ⟩, by rw [e]; rfl⟩

/-- C16. Index safety: for every dataset of length `n ≥ 1` (a vector, so `n < 2 ^ 64`, one bar
per element) and each of bubble, selection and quick sort, started by `startSorting`, every
tick of the run is defined (a read of `data` or `bars` outside `0 .. n-1` would make it
undefined), every index passed to `highlightCompare`, `highlightSwap`, `highlightSorted` or
`swapElements` since the start is `< n`, and the `size_t` subtractions `n - 1` and `n - i - 1`
do not wrap.  In every state of a bubble sort run `i ≤ n - 1` and `j ≤ n - 1 - i`, with
`i < n - 1` whenever the step reports more work; in every state of a selection sort run
`i ≤ minIndex < n` and `j ≤ n`. -/
theorem index_safety (s : Visualizer) (k : Nat)
    (hn : 1 ≤ s.data.length) (hlt : s.data.length < SIZE_MOD)
    (hb : s.bars.length = s.data.length) (hs : s.isSorting = false)
    (ha : s.currentAlgorithm = Algorithm.BUBBLE_SORT ∨
      s.currentAlgorithm = Algorithm.SELECTION_SORT ∨
      s.currentAlgorithm = Algorithm.QUICK_SORT) :
    ∃ t, ticks k (startSorting s) = some t ∧ t.data.length = s.data.length ∧
      (∃ calls, t.log = s.log ++ calls ∧ ∀ c ∈ calls, callInRange s.data.length c = true) ∧
      (s.currentAlgorithm = Algorithm.BUBBLE_SORT →
        t.bubbleI ≤ s.data.length - 1 ∧ t.bubbleJ ≤ s.data.length - 1 - t.bubbleI ∧
        usub s.data.length 1 + 1 = s.data.length ∧
        usub (usub s.data.length t.bubbleI) 1 + 1 + t.bubbleI = s.data.length ∧
        ∀ t1, stepBubbleSort t = some (t1, true) → t.bubbleI < s.data.length - 1) ∧
      (s.currentAlgorithm = Algorithm.SELECTION_SORT →
        t.selectionI ≤ t.selectionMin ∧ t.selectionMin < s.data.length ∧
        t.selectionJ ≤ s.data.length) := by
  have hne : s.currentAlgorithm ≠ Algorithm.NONE := by
    rcases ha with h | h | h <;> rw [h] <;> decide
  obtain ⟨hinv, halg⟩ := safeInv_startSorting hn hlt hb hs hne
  obtain ⟨t, e, ⟨hd, _, _, hcalls, hB, hS, _⟩, halg2⟩ := safeInv_ticks k hinv
  rw [halg] at halg2
  refine ⟨t, e, hd, hcalls, ?_, ?_⟩
  · intro hbub
    obtain ⟨_, _, h3, h4, _, _⟩ := hB (by rw [halg2]; exact hbub)
    rw [hd] at h3 h4
    have e1 : usub s.data.length 1 = s.data.length - 1 := usub_eq hn hlt
    have e2 : usub (usub s.data.length t.bubbleI) 1 = s.data.length - t.bubbleI - 1 := by
      rw [usub_eq (by omega) hlt, usub_eq (by omega) (by omega)]
    refine ⟨by omega, by omega, by omega, by omega, ?_⟩
    intro t1 ht1
    rcases stepBubbleSort_cases ht1 with ⟨hf, _⟩ | ⟨_, _, h5, _⟩ | ⟨_, _, h5, _⟩ |
      ⟨_, _, h5, _⟩
    · cases hf
    · rw [hd, e1] at h5; exact h5
    · rw [hd, e1] at h5; exact h5
    · rw [hd, e1] at h5; exact h5
  · intro hsel
    obtain ⟨_, _, _, h4, h5, _, h7, _⟩ := hS (by rw [halg2]; exact hsel)
    rw [hd] at h5 h7
    exact ⟨h4, h5, h7⟩

/-- Witness for C16: bubble sort on `[5, 3, 1]`, four ticks into the run. -/
theorem index_safety_witness :
    (1 ≤ [(5 : Int), 3, 1].length) ∧
    ∃ t, ticks 4 (startSorting
        { construct [5, 3, 1] with currentAlgorithm := Algorithm.BUBBLE_SORT }) = some t ∧
      t.data.length = 3 ∧
      (∃ calls, t.log = [] ++ calls ∧ ∀ c ∈ calls, callInRange 3 c = true) ∧
      (Algorithm.BUBBLE_SORT = Algorithm.BUBBLE_SORT →
        t.bubbleI ≤ 3 - 1 ∧ t.bubbleJ ≤ 3 - 1 - t.bubbleI ∧
        usub 3 1 + 1 = 3 ∧
        usub (usub 3 t.bubbleI) 1 + 1 + t.bubbleI = 3 ∧
        ∀ t1, stepBubbleSort t = some (t1, true) → t.bubbleI < 3 - 1) ∧
      (Algorithm.BUBBLE_SORT = Algorithm.SELECTION_SORT →
        t.selectionI ≤ t.selectionMin ∧ t.selectionMin < 3 ∧ t.selectionJ ≤ 3) :=
  ⟨by decide, index_safety
    { construct [5, 3, 1] with currentAlgorithm := Algorithm.BUBBLE_SORT } 4
    (by decide) (by decide) (by decide) (by decide) (Or.inl rfl)⟩

/-! ## Claims C17 and C18: the quick sort partition -/

theorem toSize_natCast {n : Nat} (h : n < SIZE_MOD) : toSize (n : Int) = n := by
  simp only [toSize, SIZE_MOD] at *
  omega

theorem stepsTrue_add (step : Visualizer → Option (Visualizer × Bool)) (a b : Nat) :
    ∀ s : Visualizer, stepsTrue step (a + b) s = (stepsTrue step a s).bind (stepsTrue step b) := by
  induction a with
  | zero => intro s; simp [stepsTrue]
  | succ a ih =>
    intro s
    rw [Nat.succ_add]
    simp only [stepsTrue]
    rcases step s with _ | ⟨s1, b1⟩
    · rfl
    · cases b1
      · rfl
      · exact ih s1

theorem stepsTrue_one {step : Visualizer → Option (Visualizer × Bool)} {s s1 : Visualizer}
    (h : step s = some (s1, true)) : stepsTrue step 1 s = some s1 := by
  simp [stepsTrue, h]

/-- One scan step of a partition whose work-stack is not empty. -/
theorem quick_scan_step {d0 : List Int} {rest : List (Int × Int)} {l h a jn : Nat}
    {s : Visualizer} (hrest : rest ≠ []) (hinv : QuickScanInv d0 rest l h a jn s)
    (hlt : jn < h) :
    ∃ s1 a1, stepQuickSort s = some (s1, true) ∧ QuickScanInv d0 rest l h a1 (jn + 1) s1 ∧
      s1.comparisons = incInt s.comparisons ∧
      (s.data.getD jn 0 < s.quickSortState.pivot →
        a1 = a + 1 ∧ s1.data = swapAt s.data a jn ∧ s1.swaps = incInt s.swaps) ∧
      (¬ s.data.getD jn 0 < s.quickSortState.pivot →
        a1 = a ∧ s1.data = s.data ∧ s1.swaps = s.swaps) := by
  obtain ⟨hlo, hhi, hp, hpiv, hi, hj, hst, hla, haj, hjh, hhn, hn, hb, hperm, hdh, hlow, hup,
    hout⟩ := hinv
  have hst2 : s.quickSortState.stack ≠ [] := by rw [hst]; exact hrest
  have ej : toSize s.quickSortState.j = jn := by rw [hj]; exact toSize_natCast (by omega)
  have ei : toSize (s.quickSortState.i + 1) = a := by rw [hi]; exact toSize_natCast (by omega)
  have hcond : s.quickSortState.j ≤ s.quickSortState.high - 1 := by rw [hj, hhi]; omega
  have hjl : jn < s.data.length := by omega
  have hal : a < s.data.length := by omega
  by_cases hc : s.data.getD jn 0 < s.quickSortState.pivot
  · have e := stepQuickSort_exchange hst2 hp hcond (by rw [ej]; exact hjl) (by rw [ej]; exact hc)
      (by rw [ei]; exact hal) (by rw [ei, hb]; exact hal) (by rw [ej, hb]; exact hjl)
    have hd : (quickExchange s).data = swapAt s.data a jn := by
      rw [← ei, ← ej]; rfl
    have hbl : (quickExchange s).bars.length = s.bars.length := by
      simp [quickExchange, highlightCompare_eq, highlightSwap_eq]
    have hg := getD_swapAt s.data hal hjl
    refine ⟨quickExchange s, a + 1, e, ⟨hlo, hhi, hp, hpiv, ?_, ?_, hst, by omega, by omega,
      by omega, by rw [hd, length_swapAt]; exact hhn, by rw [hd, length_swapAt]; exact hn,
      by rw [hbl, hd, length_swapAt]; exact hb, by rw [hd]; exact (swapAt_perm _ _ _ hal hjl).trans hperm,
      ?_, ?_, ?_, ?_⟩, rfl, fun _ => ⟨rfl, hd, rfl⟩, fun h => absurd hc h⟩
    · show s.quickSortState.i + 1 + 1 = ((a + 1 : Nat) : Int)
      rw [hi]; push_cast; rfl
    · show s.quickSortState.j + 1 = ((jn + 1 : Nat) : Int)
      rw [hj]; push_cast; rfl
    · rw [hd, hg h, if_neg (by omega), if_neg (by omega)]
      exact hdh
    · intro k hk1 hk2
      rw [hd, hg k]
      rw [hpiv] at hc
      split_ifs with c1 c2
      · subst c1
        have : a = k := by omega
        subst this
        exact hc
      · exact hc
      · exact hlow k hk1 (by omega)
    · intro k hk1 hk2
      rw [hd, hg k]
      split_ifs with c1 c2
      · exact hup a (le_refl _) (by omega)
      · omega
      · exact hup k (by omega) (by omega)
    · intro k hk
      rw [hd, hg k, if_neg (by omega), if_neg (by omega)]
      exact hout k hk
  · have e := stepQuickSort_keep hst2 hp hcond (by rw [ej]; exact hjl) (by rw [ej]; exact hc)
    have hbl : (quickKeep s).bars.length = s.bars.length := by
      simp [quickKeep, highlightCompare_eq]
    refine ⟨quickKeep s, a, e, ⟨hlo, hhi, hp, hpiv, hi, ?_, hst, hla, by omega, by omega,
      hhn, hn, by rw [hbl]; exact hb, hperm, hdh, hlow, ?_, hout⟩, rfl,
      fun h => absurd h hc, fun _ => ⟨rfl, rfl, rfl⟩⟩
    · show s.quickSortState.j + 1 = ((jn + 1 : Nat) : Int)
      rw [hj]; push_cast; rfl
    · intro k hk1 hk2
      show d0.getD h 0 ≤ s.data.getD k 0
      by_cases hk : k < jn
      · exact hup k hk1 hk
      · have : k = jn := by omega
        subst this
        rw [← hpiv]
        exact not_lt.mp hc

/-- The scan of a partition, from the cursor `jn` to the end of the range. -/
theorem quick_scan_run {d0 : List Int} {rest : List (Int × Int)} {l h : Nat}
    (hrest : rest ≠ []) : ∀ (m a jn : Nat) (s : Visualizer),
    QuickScanInv d0 rest l h a jn s → jn + m = h →
    ∃ t a1, stepsTrue stepQuickSort m s = some t ∧ QuickScanInv d0 rest l h a1 h t := by
  intro m
  induction m with
  | zero =>
    intro a jn s hinv hm
    have : jn = h := by omega
    subst this
    exact ⟨s, a, rfl, hinv⟩
  | succ m ih =>
    intro a jn s hinv hm
    obtain ⟨s1, a1, e, hinv1, _⟩ := quick_scan_step hrest hinv (by omega)
    obtain ⟨t, a2, e2, hinv2⟩ := ih a1 (jn + 1) s1 hinv1 (by omega)
    refine ⟨t, a2, ?_, hinv2⟩
    simp only [stepsTrue, e]
    exact e2

/-- C18. Lomuto partition: for every quick sort state that is not partitioning and whose
work-stack is `rest ++ [(l, h)]` with `rest` non-empty and `0 ≤ l < h < n` (a vector, so
`n < 2 ^ 64`, one bar per element), exactly `h - l + 2` calls of `stepQuickSort`, all returning
more work, lead to a state that is not partitioning, whose stack is
`rest ++ [(l, p - 1), (p + 1, h)]` for some `p` in `[l, h]`, where `data[p]` is the original
`data[h]`, every element at `l .. p-1` is `< data[p]`, every element at `p+1 .. h` is
`≥ data[p]`, the positions outside `l .. h` are unchanged, and the dataset is a permutation of
the original. -/
theorem lomuto_partition (s : Visualizer) (rest : List (Int × Int)) (l h : Nat)
    (hrest : rest ≠ []) (hp : s.quickSortState.partitioning = false)
    (hst : s.quickSortState.stack = rest ++ [((l : Int), (h : Int))])
    (hlh : l < h) (hhn : h < s.data.length) (hn : s.data.length < SIZE_MOD)
    (hb : s.bars.length = s.data.length) :
    ∃ (t : Visualizer) (p : Nat), stepsTrue stepQuickSort (h - l + 2) s = some t ∧
      t.quickSortState.partitioning = false ∧
      t.quickSortState.stack = rest ++ [((l : Int), (p : Int) - 1), ((p : Int) + 1, (h : Int))] ∧
      l ≤ p ∧ p ≤ h ∧
      t.data.getD p 0 = s.data.getD h 0 ∧
      (∀ k, l ≤ k → k < p → t.data.getD k 0 < t.data.getD p 0) ∧
      (∀ k, p < k → k ≤ h → t.data.getD p 0 ≤ t.data.getD k 0) ∧
      (∀ k, k < l ∨ h < k → t.data.getD k 0 = s.data.getD k 0) ∧
      t.data.Perm s.data ∧ t.data.length = s.data.length := by
  -- the call that pops the range and reads the pivot
  have eh : toSize (h : Int) = h := toSize_natCast (by omega)
  have e0 := @stepQuickSort_begin s rest ((l : Int), (h : Int)) hst hp
    (by show (l : Int) < (h : Int); omega) (by show toSize (h : Int) < _; rw [eh]; exact hhn)
  have hinv0 : QuickScanInv s.data rest l h l l
      (quickBegin ((l : Int), (h : Int)) (s.data.getD (toSize (h : Int)) 0) s) := by
    refine ⟨rfl, rfl, rfl, by rw [eh]; rfl, ?_, rfl, ?_, le_refl _, le_refl _, le_of_lt hlh,
      hhn, hn, hb, List.Perm.refl _, rfl, ?_, ?_, fun _ _ => rfl⟩
    · show (l : Int) - 1 + 1 = (l : Int)
      omega
    · show s.quickSortState.stack.dropLast = rest
      rw [hst, List.dropLast_concat]
    · intro k h1 h2; omega
    · intro k h1 h2; omega
  -- the scan
  obtain ⟨u, a, e1, hinv1⟩ := quick_scan_run hrest (h - l) l l _ hinv0 (by omega)
  obtain ⟨hlo, hhi, hpt, hpiv, hi, hj, hstk, hla, haj, _, hhn1, hn1, hb1, hperm, hdh, hlow, hup,
    hout⟩ := hinv1
  -- the call that places the pivot
  have ei : toSize (u.quickSortState.i + 1) = a := by rw [hi]; exact toSize_natCast (by omega)
  have ehh : toSize u.quickSortState.high = h := by rw [hhi]; exact eh
  have hal : a < u.data.length := by omega
  have e2 := stepQuickSort_place (by rw [hstk]; exact hrest) hpt
    (by rw [hj, hhi]; omega) (by rw [ei]; exact hal) (by rw [ehh]; exact hhn1)
    (by rw [ei, hb1]; exact hal) (by rw [ehh, hb1]; exact hhn1)
  have hd : (quickPlace u).data = swapAt u.data a h := by
    rw [← ei, ← ehh]; rfl
  have hg := getD_swapAt u.data hal hhn1
  have hp2 : (swapAt u.data a h).getD a 0 = s.data.getD h 0 := by
    rw [hg a]
    by_cases c : a = h
    · rw [if_pos c, c]
      exact hdh
    · rw [if_neg c, if_pos rfl]
      exact hdh
  refine ⟨quickPlace u, a, ?_, rfl, ?_, hla, haj, ?_, ?_, ?_, ?_, ?_, ?_⟩
  · have : h - l + 2 = 1 + ((h - l) + 1) := by omega
    rw [this, stepsTrue_add, stepsTrue_one e0, Option.some_bind, stepsTrue_add, e1,
      Option.some_bind, stepsTrue_one e2]
  · show (u.quickSortState.stack ++ [(u.quickSortState.low, u.quickSortState.i + 1 - 1)]) ++
      [(u.quickSortState.i + 1 + 1, u.quickSortState.high)] = _
    rw [hstk, hlo, hhi, hi, List.append_assoc]
    rfl
  · rw [hd, hp2]
  · intro k h1 h2
    rw [hd, hp2, hg k, if_neg (by omega), if_neg (by omega)]
    exact hlow k h1 h2
  · intro k h1 h2
    rw [hd, hp2, hg k]
    split_ifs with c1 c2
    · exact hup a (le_refl _) (by omega)
    · omega
    · exact hup k (by omega) (by omega)
  · intro k hk
    rw [hd, hg k, if_neg (by omega), if_neg (by omega)]
    exact hout k hk
  · rw [hd]
    exact (swapAt_perm _ _ _ hal hhn1).trans hperm
  · rw [hd, length_swapAt]
    exact hperm.length_eq

/-- Witness for C18: the range `(0, 2)` of `[3, 1, 2]` on top of one other pending range. -/
theorem lomuto_partition_witness :
    ∃ (t : Visualizer) (p : Nat), stepsTrue stepQuickSort (2 - 0 + 2)
        { construct [3, 1, 2] with
          quickSortState :=
            { low := 0, high := 0, partitioning := false, pivot := 0, i := 0, j := 0,
              stack := [(0, 0), (0, 2)] } } = some t ∧
      t.quickSortState.partitioning = false ∧
      t.quickSortState.stack =
        [(0, 0)] ++ [(((0 : Nat) : Int), (p : Int) - 1), ((p : Int) + 1, ((2 : Nat) : Int))] ∧
      0 ≤ p ∧ p ≤ 2 ∧
      t.data.getD p 0 = ([3, 1, 2] : List Int).getD 2 0 ∧
      (∀ k, 0 ≤ k → k < p → t.data.getD k 0 < t.data.getD p 0) ∧
      (∀ k, p < k → k ≤ 2 → t.data.getD p 0 ≤ t.data.getD k 0) ∧
      (∀ k, k < 0 ∨ 2 < k → t.data.getD k 0 = ([3, 1, 2] : List Int).getD k 0) ∧
      t.data.Perm [3, 1, 2] ∧ t.data.length = 3 :=
  lomuto_partition
    { construct [3, 1, 2] with
      quickSortState :=
        { low := 0, high := 0, partitioning := false, pivot := 0, i := 0, j := 0,
          stack := [(0, 0), (0, 2)] } }
    [(0, 0)] 0 2 (by decide) (by decide) (by decide) (by decide) (by decide) (by decide)
    (by decide)

/-- C17 at a failing input: the state quick sort reaches after its first call on `[1, 2]` has
`partitioning` set and in-range cursors (`low = 0`, `high = 1`, `i = -1`, `j = 0`,
`pivot = 2`, `data[j] = 1 < pivot`), but its work-stack is empty, so `stepQuickSort` returns
`false` at once: no comparison is counted, neither cursor moves and nothing is swapped. -/
theorem quick_scan_step_stops :
    ∃ t, stepQuickSort (startSorting
        { construct [1, 2] with currentAlgorithm := Algorithm.QUICK_SORT }) = some (t, true) ∧
      t.quickSortState =
        { low := 0, high := 1, partitioning := true, pivot := 2, i := -1, j := 0, stack := [] } ∧
      t.data = [1, 2] ∧ t.comparisons = 0 ∧ t.swaps = 0 ∧
      stepQuickSort t = some (t, false) :=
  ⟨_, rfl, by decide, by decide, by decide, by decide, by decide⟩

/-! ## Claims C19 and C20: exact step counts -/

theorem tri_succ (m : Nat) : tri (m + 1) = tri m + (m + 1) := by
  unfold tri
  have : (m + 1) * (m + 1 + 1) = m * (m + 1) + 2 * (m + 1) := by ring
  rw [this, Nat.add_mul_div_left _ _ (by decide : 0 < 2)]

theorem tri_zero : tri 0 = 0 := rfl

theorem stepsTrue_of_exact (step : Visualizer → Option (Visualizer × Bool))
    (Inv : Visualizer → Prop) (R : Visualizer → Nat)
    (hstep : ∀ s, Inv s → ∃ s1 b, step s = some (s1, b) ∧
      (b = true → Inv s1 ∧ R s1 + 1 = R s) ∧ (b = false → s1 = s ∧ R s = 0)) :
    ∀ (k : Nat) (s : Visualizer), Inv s → R s = k →
      ∃ t, stepsTrue step k s = some t ∧ Inv t ∧ step t = some (t, false) := by
  intro k
  induction k with
  | zero =>
    intro s hs hr
    obtain ⟨s1, b, e, ht, hf⟩ := hstep s hs
    cases b with
    | true =>
      have := (ht rfl).2
      omega
    | false =>
      obtain ⟨rfl, _⟩ := hf rfl
      exact ⟨s1, rfl, hs, e⟩
  | succ k ih =>
    intro s hs hr
    obtain ⟨s1, b, e, ht, hf⟩ := hstep s hs
    cases b with
    | true =>
      obtain ⟨hi, hm⟩ := ht rfl
      obtain ⟨t, e2, it, et⟩ := ih s1 hi (by omega)
      exact ⟨t, by simpa [stepsTrue, e] using e2, it, et⟩
    | false =>
      have := (hf rfl).2
      omega

theorem stepsAny_of_fixed {step : Visualizer → Option (Visualizer × Bool)} {t : Visualizer}
    {b : Bool} (h : step t = some (t, b)) : ∀ m, stepsAny step m t = some t := by
  intro m
  induction m with
  | zero => rfl
  | succ m ih => simp [stepsAny, h, ih]

theorem bubble_count_step {l0 : List Call} {total : Nat} {s : Visualizer}
    (hs : BubbleCountInv l0 total s) :
    ∃ s1 b, stepBubbleSort s = some (s1, b) ∧
      (b = true → BubbleCountInv l0 total s1 ∧ bubbleStepsLeft s1 + 1 = bubbleStepsLeft s) ∧
      (b = false → s1 = s ∧ bubbleStepsLeft s = 0) := by
  obtain ⟨hinv, calls, hlog, hcmp, hswap⟩ := hs
  obtain ⟨s1, b, e, _, ht, hf⟩ := bubble_step hinv
  obtain ⟨hn, hb, hi, hj, _, _⟩ := hinv
  have e1 : usub s.data.length 1 = s.data.length - 1 := usub_eq (by omega) hn
  have e2 : usub (usub s.data.length s.bubbleI) 1 = s.data.length - s.bubbleI - 1 := by
    rw [usub_eq (by omega) hn, usub_eq (by omega) (by omega)]
  have e3 : uadd s.bubbleJ 1 = s.bubbleJ + 1 := uadd_eq (by omega)
  have e4 : uadd s.bubbleI 1 = s.bubbleI + 1 := uadd_eq (by omega)
  refine ⟨s1, b, e, ?_, ?_⟩
  · intro hb1
    rcases stepBubbleSort_cases e with ⟨hf1, _⟩ | ⟨_, rfl, h1, h2⟩ | ⟨_, rfl, h1, h2, _⟩ |
      ⟨_, rfl, h1, h2, _⟩
    · rw [hf1] at hb1; cases hb1
    · -- the end of a pass
      rw [e1] at h1
      rw [e2] at h2
      obtain ⟨m, hm⟩ : ∃ m, s.data.length - 1 - s.bubbleI = m + 1 :=
        ⟨s.data.length - 1 - s.bubbleI - 1, by omega⟩
      have hd : (bubblePassEnd s).data = s.data := rfl
      have hI : (bubblePassEnd s).bubbleI = s.bubbleI + 1 := e4
      have hJ : (bubblePassEnd s).bubbleJ = 0 := rfl
      have hL : (bubblePassEnd s).log = l0 ++ (calls ++
          [Call.highlightSorted (usub (usub s.data.length s.bubbleI) 1)]) := by
        show s.log ++ [Call.highlightSorted (usub (usub s.data.length s.bubbleI) 1)] = _
        rw [hlog, List.append_assoc]
      have n1 : numCompare [Call.highlightSorted (usub (usub s.data.length s.bubbleI) 1)] = 0 :=
        rfl
      have n2 : numSwap [Call.highlightSorted (usub (usub s.data.length s.bubbleI) 1)] = 0 :=
        rfl
      have g1 : s.data.length - 1 - (s.bubbleI + 1) = m := by omega
      have g2 : bubbleComparisonsLeft (bubblePassEnd s) = bubbleComparisonsLeft s := by
        simp only [bubbleComparisonsLeft, hd, hI, hJ, g1, hm]
        have : m + 1 - s.bubbleJ = 0 := by omega
        rw [this]
        rcases m with _ | m
        · rfl
        · simp only [Nat.add_sub_cancel, Nat.sub_zero, Nat.zero_add]
          rw [tri_succ]
          omega
      refine ⟨⟨(ht hb1).1, _, hL, ?_, ?_⟩, ?_⟩
      · rw [numCompare_append, n1, g2]
        omega
      · rw [numCompare_append, numSwap_append, n1, n2]
        omega
      · simp only [bubbleStepsLeft, hd, hI, hJ, g1, hm, tri_succ]
        omega
    · -- a comparison that keeps the order
      rw [e1] at h1
      rw [e2] at h2
      have hd : (bubbleKeep s).data = s.data := rfl
      have hI : (bubbleKeep s).bubbleI = s.bubbleI := rfl
      have hJ : (bubbleKeep s).bubbleJ = s.bubbleJ + 1 := e3
      have hL : (bubbleKeep s).log = l0 ++ (calls ++
          [Call.highlightCompare s.bubbleJ (uadd s.bubbleJ 1)]) := by
        show s.log ++ [Call.highlightCompare s.bubbleJ (uadd s.bubbleJ 1)] = _
        rw [hlog, List.append_assoc]
      have n1 : numCompare [Call.highlightCompare s.bubbleJ (uadd s.bubbleJ 1)] = 1 := rfl
      have n2 : numSwap [Call.highlightCompare s.bubbleJ (uadd s.bubbleJ 1)] = 0 := rfl
      have g2 : bubbleComparisonsLeft (bubbleKeep s) + 1 = bubbleComparisonsLeft s := by
        simp only [bubbleComparisonsLeft, hd, hI, hJ]
        omega
      refine ⟨⟨(ht hb1).1, _, hL, ?_, ?_⟩, ?_⟩
      · rw [numCompare_append, n1]
        omega
      · rw [numCompare_append, numSwap_append, n1, n2]
        omega
      · simp only [bubbleStepsLeft, hd, hI, hJ]
        omega
    · -- a comparison followed by the exchange
      rw [e1] at h1
      rw [e2] at h2
      have hd : (bubbleExchange s).data.length = s.data.length := by
        show (swapAt s.data _ _).length = _
        rw [length_swapAt]
      have hI : (bubbleExchange s).bubbleI = s.bubbleI := rfl
      have hJ : (bubbleExchange s).bubbleJ = s.bubbleJ + 1 := e3
      have hL : (bubbleExchange s).log = l0 ++ (calls ++
          [Call.highlightCompare s.bubbleJ (uadd s.bubbleJ 1),
            Call.swapElements s.bubbleJ (uadd s.bubbleJ 1),
            Call.highlightSwap s.bubbleJ (uadd s.bubbleJ 1)]) := by
        show ((s.log ++ [Call.highlightCompare s.bubbleJ (uadd s.bubbleJ 1)]) ++
          [Call.swapElements s.bubbleJ (uadd s.bubbleJ 1)]) ++
          [Call.highlightSwap s.bubbleJ (uadd s.bubbleJ 1)] = _
        rw [hlog]
        simp
      have n1 : numCompare [Call.highlightCompare s.bubbleJ (uadd s.bubbleJ 1),
          Call.swapElements s.bubbleJ (uadd s.bubbleJ 1),
          Call.highlightSwap s.bubbleJ (uadd s.bubbleJ 1)] = 1 := rfl
      have n2 : numSwap [Call.highlightCompare s.bubbleJ (uadd s.bubbleJ 1),
          Call.swapElements s.bubbleJ (uadd s.bubbleJ 1),
          Call.highlightSwap s.bubbleJ (uadd s.bubbleJ 1)] = 1 := rfl
      have g2 : bubbleComparisonsLeft (bubbleExchange s) + 1 = bubbleComparisonsLeft s := by
        simp only [bubbleComparisonsLeft, hd, hI, hJ]
        omega
      refine ⟨⟨(ht hb1).1, _, hL, ?_, ?_⟩, ?_⟩
      · rw [numCompare_append, n1]
        omega
      · rw [numCompare_append, numSwap_append, n1, n2]
        omega
      · simp only [bubbleStepsLeft, hd, hI, hJ]
        omega
  · intro hb0
    refine ⟨(hf hb0).1, ?_⟩
    rcases stepBubbleSort_cases e with ⟨_, _, h1⟩ | ⟨hf1, _⟩ | ⟨hf1, _⟩ | ⟨hf1, _⟩
    · rw [e1] at h1
      have : s.data.length - 1 - s.bubbleI = 0 := by omega
      simp only [bubbleStepsLeft, this, Nat.zero_sub, tri_zero]
    · rw [hf1] at hb0; cases hb0
    · rw [hf1] at hb0; cases hb0
    · rw [hf1] at hb0; cases hb0

theorem tri_pred_add (m : Nat) : m + tri (m - 1) = tri m := by
  rcases m with _ | m
  · rfl
  · rw [tri_succ, Nat.add_sub_cancel]
    omega

theorem tri_eq_mul (n : Nat) : tri (n - 1) = n * (n - 1) / 2 := by
  unfold tri
  rcases n with _ | n
  · rfl
  · rw [Nat.add_sub_cancel, Nat.mul_comm]

/-- C20. Bubble sort terminates with an exact step count: for every dataset of length `n ≥ 1`
(a vector, so `n < 2 ^ 64`, one bar per element), from `bubbleI = bubbleJ = 0` the function
`stepBubbleSort` returns more work exactly `(n-1)(n+2)/2` times and done on the next call,
having made exactly `n(n-1)/2` comparisons (calls of `highlightCompare`) and at most `n(n-1)/2`
swaps (calls of `swapElements`); once done, every further call returns done and changes
nothing.  The counter `comparisons` has then grown by exactly `n(n-1)/2`, and `swaps` by exactly
the number of swaps, whenever the `int` counter started with that much room below
`INT_MAX = 2147483647`. -/
theorem bubble_step_count (s : Visualizer)
    (hn : 1 ≤ s.data.length) (hlt : s.data.length < SIZE_MOD)
    (hb : s.bars.length = s.data.length) (hi : s.bubbleI = 0) (hj : s.bubbleJ = 0) :
    ∃ t calls,
      stepsTrue stepBubbleSort ((s.data.length - 1) * (s.data.length + 2) / 2) s = some t ∧
      stepBubbleSort t = some (t, false) ∧
      t.log = s.log ++ calls ∧
      numCompare calls = s.data.length * (s.data.length - 1) / 2 ∧
      numSwap calls ≤ s.data.length * (s.data.length - 1) / 2 ∧
      (∀ m, stepsAny stepBubbleSort m t = some t) ∧
      (-2147483648 ≤ s.comparisons →
        s.comparisons + ((s.data.length * (s.data.length - 1) / 2 : Nat) : Int) ≤ 2147483647 →
        t.comparisons =
          s.comparisons + ((s.data.length * (s.data.length - 1) / 2 : Nat) : Int)) ∧
      (-2147483648 ≤ s.swaps →
        s.swaps + ((s.data.length * (s.data.length - 1) / 2 : Nat) : Int) ≤ 2147483647 →
        t.swaps = s.swaps + (numSwap calls : Int)) := by
  have hinv : BubbleInv s := by
    refine ⟨hlt, hb, by omega, by omega, ?_, ?_⟩
    · intro p q _ h1 h2
      omega
    · intro p hp
      have : p = s.bubbleJ := by omega
      rw [this]
  have hC : bubbleComparisonsLeft s = s.data.length * (s.data.length - 1) / 2 := by
    simp only [bubbleComparisonsLeft, hi, hj, Nat.sub_zero]
    rw [tri_pred_add, tri_eq_mul]
  have hR : bubbleStepsLeft s = (s.data.length - 1) * (s.data.length + 2) / 2 := by
    simp only [bubbleStepsLeft, hi, hj, Nat.sub_zero]
    obtain ⟨m, hm⟩ : ∃ m, s.data.length = m + 1 := ⟨s.data.length - 1, by omega⟩
    rw [hm, Nat.add_sub_cancel]
    unfold tri
    have : m * (m + 1 + 2) = m * (m + 1) + 2 * m := by ring
    rw [this, Nat.add_mul_div_left _ _ (by decide : 0 < 2)]
    omega
  have hcount : BubbleCountInv s.log (s.data.length * (s.data.length - 1) / 2) s :=
    ⟨hinv, [], by simp, by rw [hC]; simp [numCompare], le_refl _⟩
  obtain ⟨t, e, ⟨tinv, calls, tlog, tcmp, tswap⟩, edone⟩ :=
    stepsTrue_of_exact stepBubbleSort
      (BubbleCountInv s.log (s.data.length * (s.data.length - 1) / 2)) bubbleStepsLeft
      (fun u hu => bubble_count_step hu) _ s hcount hR
  have hzero : bubbleComparisonsLeft t = 0 := by
    obtain ⟨tn, _, ti, _, _, _⟩ := tinv
    rcases stepBubbleSort_cases edone with ⟨_, _, h1⟩ | ⟨hf, _⟩ | ⟨hf, _⟩ | ⟨hf, _⟩
    · rw [usub_eq (by omega) tn] at h1
      have : t.data.length - 1 - t.bubbleI = 0 := by omega
      simp only [bubbleComparisonsLeft, this, Nat.zero_sub, tri_zero]
    · cases hf
    · cases hf
    · cases hf
  rw [hzero, Nat.add_zero] at tcmp
  obtain ⟨calls2, l2, k2, w2⟩ :=
    stepsTrue_log stepBubbleSort
      (fun u u1 b hu => by
        obtain ⟨c, q1, q2, q3, _⟩ := stepBubbleSort_log hu
        exact ⟨c, q1, q2, q3⟩) _ s t e
  have hsame : calls2 = calls := List.append_cancel_left (l2.symm.trans tlog)
  rw [hsame] at k2 w2
  refine ⟨t, calls, e, edone, tlog, tcmp, by omega, stepsAny_of_fixed edone, ?_, ?_⟩
  · intro b0 b1
    rw [k2, tcmp]
    exact iterate_incInt_eq _ _ b0 b1
  · intro b0 b1
    rw [w2]
    exact iterate_incInt_eq _ _ b0 (by omega)

/-- Witness for C20: the dataset `[5, 3, 1]`, with 5 calls returning more work, 3 comparisons
and 3 swaps. -/
theorem bubble_step_count_witness :
    (1 ≤ (construct [5, 3, 1]).data.length) ∧
    ∃ t calls,
      stepsTrue stepBubbleSort ((3 - 1) * (3 + 2) / 2) (construct [5, 3, 1]) = some t ∧
      stepBubbleSort t = some (t, false) ∧
      t.log = [] ++ calls ∧
      numCompare calls = 3 * (3 - 1) / 2 ∧
      numSwap calls ≤ 3 * (3 - 1) / 2 ∧
      (∀ m, stepsAny stepBubbleSort m t = some t) ∧
      ((-2147483648 : Int) ≤ 0 → (0 : Int) + ((3 * (3 - 1) / 2 : Nat) : Int) ≤ 2147483647 →
        t.comparisons = 0 + ((3 * (3 - 1) / 2 : Nat) : Int)) ∧
      ((-2147483648 : Int) ≤ 0 → (0 : Int) + ((3 * (3 - 1) / 2 : Nat) : Int) ≤ 2147483647 →
        t.swaps = 0 + (numSwap calls : Int)) :=
  ⟨by decide, bubble_step_count (construct [5, 3, 1]) (by decide) (by decide) (by decide)
    (by decide) (by decide)⟩

theorem numSorted_append (a b : List Call) : numSorted (a ++ b) = numSorted a + numSorted b := by
  simp [numSorted, List.countP_append]

theorem head?_append_of_head? {a b : List Call} {c : Call} (h : a.head? = some c) :
    (a ++ b).head? = some c := by
  cases a with
  | nil => cases h
  | cons x t => simpa using h

theorem selection_count_step {l0 : List Call} {total : Nat} {s : Visualizer}
    (hs : SelectionCountInv l0 total s) :
    ∃ s1 b, stepSelectionSort s = some (s1, b) ∧
      (b = true → SelectionCountInv l0 total s1 ∧
        selectionStepsLeft s1 + 1 = selectionStepsLeft s) ∧
      (b = false → s1 = s ∧ selectionStepsLeft s = 0) := by
  obtain ⟨hinv, hlast, calls, hlog, hcmp, hsorted, hswap, hfirst⟩ := hs
  obtain ⟨s1, b, e, _, ht, hf⟩ := selection_step hinv
  obtain ⟨hn, hb, hi, him, hm, hij, hj, _, _⟩ := hinv
  have e1 : usub s.data.length 1 = s.data.length - 1 := usub_eq (by omega) hn
  refine ⟨s1, b, e, ?_, ?_⟩
  · intro hb1
    rcases stepSelectionSort_cases e with ⟨hf1, _⟩ | ⟨_, rfl, h1, h2, _⟩ |
      ⟨_, rfl, h1, h2, h3⟩ | ⟨_, rfl, h1, h2, h3, _⟩
    · rw [hf1] at hb1; cases hb1
    · -- a comparison of the scan
      rw [e1] at h1
      have e3 : uadd s.selectionJ 1 = s.selectionJ + 1 := uadd_eq (by omega)
      have hd : (selectionScan s).data = s.data := rfl
      have hI : (selectionScan s).selectionI = s.selectionI := rfl
      have hJ : (selectionScan s).selectionJ = s.selectionJ + 1 := e3
      have hL : (selectionScan s).log =
          l0 ++ (calls ++ [Call.highlightCompare s.selectionJ s.selectionMin]) := by
        show s.log ++ [Call.highlightCompare s.selectionJ s.selectionMin] = _
        rw [hlog, List.append_assoc]
      have g1 : selectionComparisonsLeft (selectionScan s) + 1 = selectionComparisonsLeft s := by
        simp only [selectionComparisonsLeft, hd, hI, hJ]
        omega
      refine ⟨⟨(ht hb1).1, ?_, _, hL, ?_, ?_, ?_, ?_⟩, ?_⟩
      · rw [hI, hJ, hd]; omega
      · rw [numCompare_append]
        have : numCompare [Call.highlightCompare s.selectionJ s.selectionMin] = 1 := rfl
        omega
      · rw [numSorted_append, hd, hI]
        have : numSorted [Call.highlightCompare s.selectionJ s.selectionMin] = 0 := rfl
        omega
      · rw [numSorted_append, numSwap_append]
        have : numSorted [Call.highlightCompare s.selectionJ s.selectionMin] = 0 := rfl
        have : numSwap [Call.highlightCompare s.selectionJ s.selectionMin] = 0 := rfl
        omega
      · right
        rcases hfirst with ⟨rfl, _, hj0, hm0, _⟩ | hh
        · rw [hj0, hm0]; rfl
        · exact head?_append_of_head? hh
      · simp only [selectionStepsLeft, hd, hI]
        omega
    · -- the end of a pass, minimum in place
      rw [e1] at h1
      have hjn : s.selectionJ = s.data.length := by omega
      have e4 : uadd s.selectionI 1 = s.selectionI + 1 := uadd_eq (by omega)
      have e5 : uadd (uadd s.selectionI 1) 1 = s.selectionI + 2 := by
        rw [e4]; exact uadd_eq (by omega)
      have hd : (selectionStay s).data = s.data := rfl
      have hI : (selectionStay s).selectionI = s.selectionI + 1 := e4
      have hJ : (selectionStay s).selectionJ = s.selectionI + 2 := e5
      have hL : (selectionStay s).log = l0 ++ (calls ++ [Call.highlightSorted s.selectionI]) := by
        show s.log ++ [Call.highlightSorted s.selectionI] = _
        rw [hlog, List.append_assoc]
      obtain ⟨m, hm1⟩ : ∃ m, s.data.length - 1 - s.selectionI = m + 1 :=
        ⟨s.data.length - 1 - s.selectionI - 1, by omega⟩
      have g0 : s.data.length - 1 - (s.selectionI + 1) = m := by omega
      have g1 : selectionComparisonsLeft (selectionStay s) = selectionComparisonsLeft s := by
        simp only [selectionComparisonsLeft, hd, hI, hJ, g0, hm1, hjn, Nat.sub_self,
          Nat.add_sub_cancel, Nat.zero_add]
        have : s.data.length - (s.selectionI + 2) = m := by omega
        rw [this, tri_pred_add]
      have n1 : numSorted [Call.highlightSorted s.selectionI] = 1 := rfl
      have n2 : numCompare [Call.highlightSorted s.selectionI] = 0 := rfl
      have n3 : numSwap [Call.highlightSorted s.selectionI] = 0 := rfl
      have hne : calls ≠ [] := by
        rintro rfl
        rcases hfirst with ⟨_, _, hj0, _, h2n⟩ | hh
        · omega
        · cases hh
      refine ⟨⟨(ht hb1).1, ?_, _, hL, ?_, ?_, ?_, ?_⟩, ?_⟩
      · rw [hI, hJ, hd]; omega
      · rw [numCompare_append, n2, g1]; omega
      · rw [numSorted_append, n1, hd, hI, g0]; omega
      · rw [numSorted_append, numSwap_append, n1, n3]; omega
      · right
        rcases hfirst with ⟨h0, _⟩ | hh
        · exact absurd h0 hne
        · exact head?_append_of_head? hh
      · simp only [selectionStepsLeft, g1, hd, hI, g0, hm1]
        omega
    · -- the end of a pass, minimum exchanged into place
      rw [e1] at h1
      have hjn : s.selectionJ = s.data.length := by omega
      have e4 : uadd s.selectionI 1 = s.selectionI + 1 := uadd_eq (by omega)
      have e5 : uadd (uadd s.selectionI 1) 1 = s.selectionI + 2 := by
        rw [e4]; exact uadd_eq (by omega)
      have hd : (selectionPlace s).data.length = s.data.length := by
        show (swapAt s.data _ _).length = _
        rw [length_swapAt]
      have hI : (selectionPlace s).selectionI = s.selectionI + 1 := e4
      have hJ : (selectionPlace s).selectionJ = s.selectionI + 2 := e5
      have hL : (selectionPlace s).log = l0 ++ (calls ++
          [Call.swapElements s.selectionI s.selectionMin,
            Call.highlightSwap s.selectionI s.selectionMin,
            Call.highlightSorted s.selectionI]) := by
        show ((s.log ++ [Call.swapElements s.selectionI s.selectionMin]) ++
          [Call.highlightSwap s.selectionI s.selectionMin]) ++
          [Call.highlightSorted s.selectionI] = _
        rw [hlog]
        simp
      obtain ⟨m, hm1⟩ : ∃ m, s.data.length - 1 - s.selectionI = m + 1 :=
        ⟨s.data.length - 1 - s.selectionI - 1, by omega⟩
      have g0 : s.data.length - 1 - (s.selectionI + 1) = m := by omega
      have g1 : selectionComparisonsLeft (selectionPlace s) = selectionComparisonsLeft s := by
        simp only [selectionComparisonsLeft, hd, hI, hJ, g0, hm1, hjn, Nat.sub_self,
          Nat.add_sub_cancel, Nat.zero_add]
        have : s.data.length - (s.selectionI + 2) = m := by omega
        rw [this, tri_pred_add]
      have n1 : numSorted [Call.swapElements s.selectionI s.selectionMin,
          Call.highlightSwap s.selectionI s.selectionMin,
          Call.highlightSorted s.selectionI] = 1 := rfl
      have n2 : numCompare [Call.swapElements s.selectionI s.selectionMin,
          Call.highlightSwap s.selectionI s.selectionMin,
          Call.highlightSorted s.selectionI] = 0 := rfl
      have n3 : numSwap [Call.swapElements s.selectionI s.selectionMin,
          Call.highlightSwap s.selectionI s.selectionMin,
          Call.highlightSorted s.selectionI] = 1 := rfl
      have hne : calls ≠ [] := by
        rintro rfl
        rcases hfirst with ⟨_, _, hj0, _, h2n⟩ | hh
        · omega
        · cases hh
      refine ⟨⟨(ht hb1).1, ?_, _, hL, ?_, ?_, ?_, ?_⟩, ?_⟩
      · rw [hI, hJ, hd]; omega
      · rw [numCompare_append, n2, g1]; omega
      · rw [numSorted_append, n1, hd, hI, g0]; omega
      · rw [numSorted_append, numSwap_append, n1, n3]; omega
      · right
        rcases hfirst with ⟨h0, _⟩ | hh
        · exact absurd h0 hne
        · exact head?_append_of_head? hh
      · simp only [selectionStepsLeft, g1, hd, hI, g0, hm1]
        omega
  · intro hb0
    refine ⟨(hf hb0).1, ?_⟩
    rcases stepSelectionSort_cases e with ⟨_, _, h1⟩ | ⟨hf1, _⟩ | ⟨hf1, _⟩ | ⟨hf1, _⟩
    · rw [e1] at h1
      have h2 : s.selectionI + 1 = s.data.length := by omega
      have h3 := hlast h2
      have : s.data.length - 1 - s.selectionI = 0 := by omega
      simp only [selectionStepsLeft, selectionComparisonsLeft, this, h3, Nat.sub_self,
        Nat.zero_sub, tri_zero]
    · rw [hf1] at hb0; cases hb0
    · rw [hf1] at hb0; cases hb0
    · rw [hf1] at hb0; cases hb0

theorem stepsTrue_invariant {α : Type} (step : Visualizer → Option (Visualizer × Bool))
    (f : Visualizer → α) (hf : ∀ u u1 b, step u = some (u1, b) → f u1 = f u) :
    ∀ (k : Nat) (u t : Visualizer), stepsTrue step k u = some t → f t = f u := by
  intro k
  induction k with
  | zero =>
    intro u t h
    simp only [stepsTrue, Option.some.injEq] at h
    rw [h]
  | succ k ih =>
    intro u t h
    simp only [stepsTrue] at h
    cases hstep : step u with
    | none => rw [hstep] at h; cases h
    | some r =>
      obtain ⟨u1, b⟩ := r
      rw [hstep] at h
      cases b with
      | false => cases h
      | true => rw [ih u1 t h]; exact hf u u1 true hstep

/-- C19. Selection sort step count: for every dataset of length `n ≥ 2` (a vector, so
`n < 2 ^ 64`, one bar per element), a run from `selectionI = selectionJ = selectionMin = 0`
returns more work exactly `n(n-1)/2 + n` times and then reports done; it performs exactly
`n - 1` outer iterations (the steps that place the minimum and call `highlightSorted`), at most
`n - 1` swaps (calls of `swapElements`) and exactly `n(n-1)/2 + 1` comparisons (calls of
`highlightCompare`), and its first recorded call is the comparison of index 0 against itself.
The counter `comparisons` has then grown by exactly `n(n-1)/2 + 1`, and `swaps` by exactly the
number of swaps, whenever the `int` counter started with that much room below
`INT_MAX = 2147483647`. -/
theorem selection_step_count (s : Visualizer)
    (hn : 2 ≤ s.data.length) (hlt : s.data.length < SIZE_MOD)
    (hb : s.bars.length = s.data.length) (hi : s.selectionI = 0) (hj : s.selectionJ = 0)
    (hmin : s.selectionMin = 0) :
    ∃ t calls,
      stepsTrue stepSelectionSort
        (s.data.length * (s.data.length - 1) / 2 + s.data.length) s = some t ∧
      stepSelectionSort t = some (t, false) ∧
      t.log = s.log ++ calls ∧
      numSorted calls = s.data.length - 1 ∧
      numSwap calls ≤ s.data.length - 1 ∧
      numCompare calls = s.data.length * (s.data.length - 1) / 2 + 1 ∧
      calls.head? = some (Call.highlightCompare 0 0) ∧
      (-2147483648 ≤ s.comparisons →
        s.comparisons + ((s.data.length * (s.data.length - 1) / 2 + 1 : Nat) : Int)
          ≤ 2147483647 →
        t.comparisons =
          s.comparisons + ((s.data.length * (s.data.length - 1) / 2 + 1 : Nat) : Int)) ∧
      (-2147483648 ≤ s.swaps →
        s.swaps + ((s.data.length - 1 : Nat) : Int) ≤ 2147483647 →
        t.swaps = s.swaps + (numSwap calls : Int)) := by
  have hinv : SelectionInv s := by
    refine ⟨hlt, hb, by omega, by omega, by omega, by omega, by omega, ?_, ?_⟩
    · intro p q _ h1 h2
      omega
    · intro p _ hp
      omega
  have htri : tri (s.data.length - 1) = (s.data.length - 1) + tri (s.data.length - 1 - 1) :=
    (tri_pred_add _).symm
  have hC : selectionComparisonsLeft s = s.data.length * (s.data.length - 1) / 2 + 1 := by
    simp only [selectionComparisonsLeft, hi, hj, Nat.sub_zero]
    rw [← tri_eq_mul, htri]
    omega
  have hR : selectionStepsLeft s =
      s.data.length * (s.data.length - 1) / 2 + s.data.length := by
    simp only [selectionStepsLeft, hC, hi, Nat.sub_zero]
    omega
  have hcount : SelectionCountInv s.log
      (s.data.length * (s.data.length - 1) / 2 + 1) s := by
    refine ⟨hinv, by omega, [], by simp, ?_, ?_, le_refl _, Or.inl ⟨rfl, hi, hj, hmin, hn⟩⟩
    · rw [hC]; simp [numCompare]
    · rw [hi]; simp [numSorted]
  obtain ⟨t, e, tinv, edone⟩ :=
    stepsTrue_of_exact stepSelectionSort
      (SelectionCountInv s.log (s.data.length * (s.data.length - 1) / 2 + 1))
      selectionStepsLeft (fun u hu => selection_count_step hu) _ s hcount hR
  obtain ⟨t1, b1, e1, _, hzero⟩ := selection_count_step tinv
  rw [edone] at e1
  simp only [Option.some.injEq, Prod.mk.injEq] at e1
  have hz := (hzero e1.2.symm).2
  obtain ⟨tsel, _, calls, hlog, hcmp, hsorted, hswap, hfirst⟩ := tinv
  have hlen : t.data.length = s.data.length :=
    stepsTrue_invariant stepSelectionSort (fun u => u.data.length)
      (fun _ _ _ hu => (stepSelectionSort_perm hu).1.length_eq) _ s t e
  simp only [selectionStepsLeft] at hz
  have hz1 : selectionComparisonsLeft t = 0 := by omega
  have hz2 : t.data.length - 1 - t.selectionI = 0 := by omega
  rw [hz1, Nat.add_zero] at hcmp
  rw [hz2, Nat.add_zero, hlen] at hsorted
  obtain ⟨calls2, l2, k2, w2⟩ :=
    stepsTrue_log stepSelectionSort
      (fun u u1 b hu => by
        obtain ⟨c, q1, q2, q3, _⟩ := stepSelectionSort_log hu
        exact ⟨c, q1, q2, q3⟩) _ s t e
  have hsame : calls2 = calls := List.append_cancel_left (l2.symm.trans hlog)
  rw [hsame] at k2 w2
  refine ⟨t, calls, e, edone, hlog, hsorted, by omega, hcmp, ?_, ?_, ?_⟩
  · rcases hfirst with ⟨h0, _⟩ | hh
    · rw [h0] at hcmp
      simp [numCompare] at hcmp
    · exact hh
  · intro b0 b1
    rw [k2, hcmp]
    exact iterate_incInt_eq _ _ b0 b1
  · intro b0 b1
    rw [w2]
    exact iterate_incInt_eq _ _ b0 (by omega)

/-- Witness for C19: the dataset `[2, 1, 3]`, with 2 outer iterations and 4 comparisons. -/
theorem selection_step_count_witness :
    (2 ≤ (construct [2, 1, 3]).data.length) ∧
    ∃ t calls,
      stepsTrue stepSelectionSort (3 * (3 - 1) / 2 + 3) (construct [2, 1, 3]) = some t ∧
      stepSelectionSort t = some (t, false) ∧
      t.log = [] ++ calls ∧
      numSorted calls = 3 - 1 ∧
      numSwap calls ≤ 3 - 1 ∧
      numCompare calls = 3 * (3 - 1) / 2 + 1 ∧
      calls.head? = some (Call.highlightCompare 0 0) ∧
      ((-2147483648 : Int) ≤ 0 →
        (0 : Int) + ((3 * (3 - 1) / 2 + 1 : Nat) : Int) ≤ 2147483647 →
        t.comparisons = 0 + ((3 * (3 - 1) / 2 + 1 : Nat) : Int)) ∧
      ((-2147483648 : Int) ≤ 0 → (0 : Int) + ((3 - 1 : Nat) : Int) ≤ 2147483647 →
        t.swaps = 0 + (numSwap calls : Int)) :=
  ⟨by decide, selection_step_count (construct [2, 1, 3]) (by decide) (by decide) (by decide)
    (by decide) (by decide) (by decide)⟩

end SortingVisualizer
